import Mathlib

/-!
# Pill dispenser: persistent motor control subsystem

A shallow embedding of `eeprom.c`, `logger.c` and `stepper.c`.

Conventions of the embedding:
* machine integers are `Nat` (or `Int` where the source uses a signed
  sentinel), truncated explicitly with `% 256` / `% 65536` where the C type
  truncates;
* a C buffer `(pointer, length)` is a `List Nat` of byte values together
  with the length argument the source passes;
* the EEPROM is a total map from addresses to byte values;
* every bus write transaction and every motor output is appended to an
  event trace, so that orderings can be stated;
* external inputs (the clock, the optical sensor) are parameters.
-/

namespace PillDispenser

/-! ## eeprom.c : crc16 -/

/-- One iteration of the `while (length--)` loop of `crc16`:
`x = crc >> 8 ^ *data_p++; x ^= x >> 4;`
`crc = (crc << 8) ^ ((uint16_t)(x << 12)) ^ ((uint16_t)(x << 5)) ^ ((uint16_t) x);`
with `x` a `uint8_t` and `crc` a `uint16_t`. -/
def crc16_body (crc : Nat) (byte : Nat) : Nat :=
  let x := ((crc >>> 8) ^^^ byte) % 256
  let x := (x ^^^ (x >>> 4)) % 256
  ((crc <<< 8) ^^^ ((x <<< 12) % 65536) ^^^ ((x <<< 5) % 65536) ^^^ (x % 65536)) % 65536

/-- The loop of `crc16`: consumes `length` bytes from `data_p`.  A buffer
shorter than `length` ends the loop (the source would read out of bounds). -/
def crc16_loop : List Nat → Nat → Nat → Nat
  | byte :: data_p, length + 1, crc => crc16_loop data_p length (crc16_body crc byte)
  | _, _, crc => crc

/-- Embeds `uint16_t crc16(const uint8_t *data_p, size_t length)`. -/
def crc16 (data_p : List Nat) (length : Nat) : Nat :=
  crc16_loop data_p length 0xFFFF

/-! ## The device behind the bus -/

/-- Contents of the EEPROM: a byte value for every address. -/
abbrev Store := Nat → Nat

/-- Observable output actions, in the order the program issues them. -/
inductive Event where
  /-- a write transaction to the EEPROM: decoded start address and payload -/
  | eeprom_write (address : Nat) (payload : List Nat)
  /-- one call of `set_motor_controllers`: the four pin levels and the delay -/
  | motor (pins : List Nat) (sleep_timer : Nat)
  deriving DecidableEq

/-- Modelled from the spec: the Byte Store device reached through
`i2c_write_blocking` (the bus driver and the memory chip are not part of the
sources).  A write frame is a 2-byte big-endian address header followed by the
payload, which the device stores at consecutive addresses. -/
def i2c_write_eeprom (st : Store) (src : List Nat) : Store :=
  let address := src.getD 0 0 * 256 + src.getD 1 0
  let payload := src.drop 2
  fun a => if address ≤ a ∧ a < address + payload.length then payload.getD (a - address) 0 else st a

/-- Modelled from the spec: a read is the 2-byte address header followed by a
read frame of `len` bytes taken from consecutive addresses. -/
def i2c_read_eeprom (st : Store) (addr : List Nat) (len : Nat) : List Nat :=
  let address := addr.getD 0 0 * 256 + addr.getD 1 0
  (List.range len).map (fun i => st (address + i))

/-- The event recorded for a write frame. -/
def write_event (src : List Nat) : Event :=
  Event.eeprom_write (src.getD 0 0 * 256 + src.getD 1 0) (src.drop 2)

/-! ## Program state -/

/-- Embeds `typedef struct stepperstate` (two `uint8_t`). -/
structure stepperstate where
  stepper_stage : Nat
  current_compartment : Nat
  deriving DecidableEq

/-- Embeds `typedef struct stepperdata` (two `uint16_t`). -/
structure stepperdata where
  revolution_steps : Nat
  sensor_width : Nat
  deriving DecidableEq

/-- The globals of `stepper.c`, the EEPROM and the trace of output actions. -/
structure World where
  eeprom : Store
  events : List Event
  stepper_data : stepperdata
  stepper_state : stepperstate
  current_step : Nat

/-- A transaction `i2c_write_blocking(i2c0, EEPROM_ADDR, src, len, false)`
followed by the settle delay. -/
def i2c_write_blocking (w : World) (src : List Nat) : World :=
  { w with eeprom := i2c_write_eeprom w.eeprom src, events := w.events ++ [write_event src] }

/-! ## eeprom.c -/

/-- Embeds `int write_bytes_to_eeprom(uint16_t address, uint8_t *data, int length)`:
the frame is `addr_high, addr_low, data[0..length)`. -/
def write_bytes_to_eeprom (w : World) (address : Nat) (data : List Nat) (length : Nat) : World :=
  let addr_high := (address >>> 8) % 256
  let addr_low := address &&& 0xFF
  i2c_write_blocking w (addr_high :: addr_low :: data.take length)

/-- Embeds `void read_bytes_from_eeprom(uint16_t address, uint8_t *data, int length)`. -/
def read_bytes_from_eeprom (st : Store) (address : Nat) (length : Nat) : List Nat :=
  let addr_high := (address >>> 8) % 256
  let addr_low := address &&& 0xFF
  i2c_read_eeprom st [addr_high, addr_low] length

/-- The addresses visited by `for (address = 0; address < 2048; address += 64)`. -/
def log_addresses : List Nat := (List.range 32).map (fun i => 64 * i)

/-- Embeds `void clear_log()`: one frame `addr_high, addr_low, 0` per slot. -/
def clear_log (w : World) : World :=
  log_addresses.foldl
    (fun w address => i2c_write_blocking w [(address >>> 8) % 256, address &&& 0xFF, 0]) w

/-- The `while (*entry != 0 && length <= 62)` loop of `calculate_entry_length`;
the head of the list is `*entry`, the tail is `entry++`.  The end of the
buffer reads as a terminator. -/
def calculate_entry_length_loop : List Nat → Nat → Nat
  | [], length => length
  | c :: entry, length =>
      if c ≠ 0 ∧ length ≤ 62 then calculate_entry_length_loop entry (length + 1) else length

/-- Embeds `int calculate_entry_length(const char* entry)`. -/
def calculate_entry_length (entry : List Nat) : Int :=
  let length := calculate_entry_length_loop entry 0
  if length ≤ 61 then (length : Int) else -1

/-- The same loop, also collecting the offsets at which `*entry` is
evaluated (each evaluation of the loop condition dereferences `entry` first,
then compares `length`). -/
def calculate_entry_length_reads : List Nat → Nat → List Nat
  | [], _ => []
  | c :: entry, length =>
      if c ≠ 0 ∧ length ≤ 62 then length :: calculate_entry_length_reads entry (length + 1)
      else [length]

/-- The test of the scan in `write_log_entry` for the 64 bytes read from one
slot: `entry[0] == 0 || entry_size == -1 || crc != 0`, with
`crc = crc16(entry, entry_size + 3)`. -/
def slot_selected (entry : List Nat) : Bool :=
  let entry_size := calculate_entry_length entry
  let crc := crc16 entry (entry_size + 3).toNat
  entry.getD 0 0 = 0 || entry_size = -1 || crc ≠ 0

/-- The scan loop of `write_log_entry` over the remaining slot addresses:
returns `(write_address, log_full)`. -/
def write_log_scan (st : Store) : List Nat → Nat × Bool
  | [] => (0, true)
  | address :: rest =>
      let addr_high := (address >>> 8) % 256
      let addr_low := address &&& 0xFF
      let entry := i2c_read_eeprom st [addr_high, addr_low] 64
      if slot_selected entry then (address, false) else write_log_scan st rest

/-- Embeds `memcpy(&dst[offset], src, n)`; a source byte beyond the end of the
list `src` is unspecified in C and reads as 0 here. -/
def memcpy (dst : List Nat) (offset : Nat) (src : List Nat) (n : Nat) : List Nat :=
  (List.range n).foldl (fun d i => d.set (offset + i) (src.getD i 0)) dst

/-- The frame `to_write[length + 4]` assembled by `write_log_entry`. -/
def write_log_frame (write_address : Nat) (str : List Nat) (length : Nat) : List Nat :=
  let addr_high := (write_address >>> 8) % 256
  let addr_low := write_address &&& 0xFF
  let to_write := List.replicate (length + 4) 0
  let to_write := to_write.set 0 addr_high
  let to_write := to_write.set 1 addr_low
  let to_write := memcpy to_write 2 str (length + 1)
  let crc := crc16 str length
  let to_write := to_write.set (length + 2) ((crc >>> 8) % 256)
  let to_write := to_write.set (length + 3) (crc % 256)
  to_write

/-- The address `write_log_entry` writes the new entry to, for the store it
scans. -/
def write_log_address (st : Store) : Nat :=
  let scan := write_log_scan st log_addresses
  if scan.2 then 0 else scan.1

/-- Embeds `void write_log_entry(char* str, size_t length)`. -/
def write_log_entry (w : World) (str : List Nat) (length : Nat) : World :=
  let scan := write_log_scan w.eeprom log_addresses
  let write_address := scan.1
  let log_full := scan.2
  let w1 := if log_full then clear_log w else w
  let write_address := if log_full then 0 else write_address
  i2c_write_blocking w1 (write_log_frame write_address str length)

/-! ## logger.c -/

/-- Embeds `strlen`. -/
def strlen : List Nat → Nat
  | [] => 0
  | c :: s => if c = 0 then 0 else strlen s + 1

/-- The bytes of a C string literal, terminator excluded. -/
def cstring (s : String) : List Nat := s.toList.map Char.toNat

/-- The characters `sprintf(entry, "(%llu) %s", actual_time, str)` formats:
an opening bracket, the decimal digits of the time, a closing bracket, a
blank and the message. -/
def sprintf_text (actual_time : Nat) (str : List Nat) : List Nat :=
  [40] ++ (Nat.toDigits 10 actual_time).map Char.toNat ++ [41, 32] ++ str

/-- The buffer `char entry[64]` after `sprintf(entry, "(%llu) %s", actual_time, str)`:
the text and its terminator.  The bytes behind the terminator are
uninitialised in C and read as 0 here. -/
def sprintf_entry (actual_time : Nat) (str : List Nat) : List Nat :=
  let text := sprintf_text actual_time str ++ [0]
  text ++ List.replicate (64 - text.length) 0

/-- Embeds `void create_log(char* str)`; `time_us` is the value of `time_us_64()`.
The radio message and the console line do not touch the store or the motor. -/
def create_log (w : World) (time_us : Nat) (str : List Nat) : World :=
  let actual_time := time_us / 1000000
  let entry := sprintf_entry actual_time str
  write_log_entry w entry (strlen entry + 1)

/-! ## stepper.c -/

/-- Embeds `enum Stepper_Stages`. -/
def INITIAL : Nat := 0
/-- Embeds `enum Stepper_Stages`. -/
def RECALIBRATING : Nat := 1
/-- Embeds `enum Stepper_Stages`. -/
def NORMAL_OPERATION : Nat := 2
/-- Embeds `enum Stepper_Stages`. -/
def TURNING : Nat := 3

/-- Embeds `enum Calibration_Stages`. -/
inductive Calibration_Stages where
  | WAY_TO_START
  | CALCULATE_SENSOR_WIDTH
  | CALCULATE_NON_SENSOR_WIDTH
  | WAY_TO_ZERO
  | CALIBRATION_FINISHED
  deriving DecidableEq

/-- Embeds `uint16_t eeprom_address_stepperstate = 0x7FFE`. -/
def eeprom_address_stepperstate : Nat := 0x7FFE
/-- Embeds `uint16_t eeprom_address_stepperdata = 0x7FFA`. -/
def eeprom_address_stepperdata : Nat := 0x7FFA

/-- Embeds `int seq_table[8][4]`. -/
def seq_table : List (List Nat) :=
  [[1, 0, 0, 0], [1, 1, 0, 0], [0, 1, 0, 0], [0, 1, 1, 0],
   [0, 0, 1, 0], [0, 0, 1, 1], [0, 0, 0, 1], [1, 0, 0, 1]]

/-- Embeds `void load_stepper_data()`. -/
def load_stepper_data (w : World) : World :=
  let divided_data := read_bytes_from_eeprom w.eeprom eeprom_address_stepperdata 4
  { w with stepper_data :=
      { revolution_steps := ((divided_data.getD 0 0 <<< 8) ||| divided_data.getD 1 0) % 65536,
        sensor_width := ((divided_data.getD 2 0 <<< 8) ||| divided_data.getD 3 0) % 65536 } }

/-- Embeds `void save_stepper_data()`. -/
def save_stepper_data (w : World) : World :=
  let divided_data :=
    [(w.stepper_data.revolution_steps >>> 8) % 256, (w.stepper_data.revolution_steps &&& 0xFF) % 256,
     (w.stepper_data.sensor_width >>> 8) % 256, (w.stepper_data.sensor_width &&& 0xFF) % 256]
  write_bytes_to_eeprom w eeprom_address_stepperdata divided_data 4

/-- Embeds `void load_stepper_state()`: the two bytes of the struct, in order. -/
def load_stepper_state (w : World) : World :=
  let bytes := read_bytes_from_eeprom w.eeprom eeprom_address_stepperstate 2
  { w with stepper_state :=
      { stepper_stage := bytes.getD 0 0, current_compartment := bytes.getD 1 0 } }

/-- Embeds `void save_stepper_state()`. -/
def save_stepper_state (w : World) : World :=
  write_bytes_to_eeprom w eeprom_address_stepperstate
    [w.stepper_state.stepper_stage, w.stepper_state.current_compartment] 2

/-- Embeds `uint8_t get_current_compartment()`. -/
def get_current_compartment (w : World) : Nat :=
  w.stepper_state.current_compartment

/-- Embeds `bool initialize_stepper_data()`. -/
def initialize_stepper_data (w : World) : Bool × World :=
  let w := load_stepper_data w
  let w := load_stepper_state w
  (w.stepper_state.stepper_stage ≠ INITIAL, w)

/-- Embeds `void set_motor_controllers(int sleep_timer)`: the four `gpio_put` calls
with row `current_step` of `seq_table`, then the delay. -/
def set_motor_controllers (w : World) (sleep_timer : Nat) : World :=
  { w with events := w.events ++ [Event.motor (seq_table.getD w.current_step []) sleep_timer] }

/-- The value `if (current_step == 7) current_step = 0; else current_step++;`
leaves in the `uint8_t current_step`. -/
def next_step (current_step : Nat) : Nat :=
  if current_step = 7 then 0 else (current_step + 1) % 256

/-- The value `if (current_step == 0) current_step = 7; else current_step--;`
leaves in `current_step`. -/
def previous_step (current_step : Nat) : Nat :=
  if current_step = 0 then 7 else current_step - 1

/-- The forward update of `current_step` after a motor output. -/
def step_forward (w : World) : World :=
  { w with current_step := next_step w.current_step }

/-- The backward update of `current_step` after a motor output. -/
def step_backward (w : World) : World :=
  { w with current_step := previous_step w.current_step }

/-- The body of `for (int i = 0; i < n; i++)` loops that only step the motor:
`n` iterations of `set_motor_controllers(sleep_timer)` and the index update. -/
def step_loop (sleep_timer : Nat) (forward : Bool) : Nat → World → World
  | 0, w => w
  | n + 1, w =>
      let w := set_motor_controllers w sleep_timer
      step_loop sleep_timer forward n (if forward then step_forward w else step_backward w)

/-- Embeds `void run(int compartments)`, in the range where the C cast is
defined.  `revolution_steps / 8` is exact in `double` (a 16-bit value scaled
by a power of two) and so is its product with an `int`; while that product is
at most `INT_MAX` the cast `(int)` truncates it to the integer quotient
computed here.  Beyond `INT_MAX` the cast is undefined in C and the value
computed here has no counterpart in the source; every call in the program
(`run(1)`, `run(current_compartment + 1)` with an 8-bit compartment and a
16-bit `revolution_steps`) is within the range, see `run_in_int_range`. -/
def run (w : World) (compartments : Nat) : World :=
  let calculated_steps := compartments * w.stepper_data.revolution_steps / 8
  step_loop 2 true calculated_steps w

/-- Embeds `void rotate_by_one_compartment()`. -/
def rotate_by_one_compartment (w : World) : World :=
  let w := { w with stepper_state := { w.stepper_state with stepper_stage := TURNING } }
  let w := save_stepper_state w
  let w := run w 1
  let w := { w with stepper_state :=
    { w.stepper_state with current_compartment := (w.stepper_state.current_compartment + 1) % 256 } }
  let w := { w with stepper_state := { w.stepper_state with stepper_stage := NORMAL_OPERATION } }
  save_stepper_state w

/-- Embeds `void reset_stepper()`. -/
def reset_stepper (w : World) : World :=
  let w := { w with stepper_state := { w.stepper_state with current_compartment := 0 } }
  let w := { w with stepper_state := { w.stepper_state with stepper_stage := INITIAL } }
  save_stepper_state w

/-- Result of one `while (!edge_detected)` loop. -/
structure EdgeResult where
  world : World
  last_sensor_value : Bool
  steps : Nat
  sensor : List Bool

/-- The `while (!edge_detected)` loops of `recalibration` and `calibration`.
Each iteration drives the motor, samples the sensor for the edge test
(`gpio_get(OPTO_SENSOR) == now && last_sensor_value == before`), samples it
again into `last_sensor_value`, counts the step and updates `current_step`.
`sensor` holds the values the successive `gpio_get(OPTO_SENSOR)` calls return;
when it runs out before an edge is seen there is no result. -/
def edge_loop (sleep_timer : Nat) (now before forward : Bool) :
    World → Bool → Nat → List Bool → Option EdgeResult
  | w, last_sensor_value, steps, s1 :: s2 :: sensor =>
      let w := set_motor_controllers w sleep_timer
      let edge_detected := (s1 == now && last_sensor_value == before)
      let last_sensor_value := s2
      let steps := steps + 1
      let w := if forward then step_forward w else step_backward w
      if edge_detected then some ⟨w, last_sensor_value, steps, sensor⟩
      else edge_loop sleep_timer now before forward w last_sensor_value steps sensor
  | _, _, _, _ => none

/-- Embeds `bool recalibration()`; `time_us` is the clock value read by `create_log`,
`sensor` the successive values of `gpio_get(OPTO_SENSOR)`.  The result is the
return value, the final state and the unread sensor samples. -/
def recalibration (w : World) (time_us : Nat) (sensor : List Bool) :
    Option (Bool × World × List Bool) :=
  let w := { w with stepper_state := { w.stepper_state with stepper_stage := RECALIBRATING } }
  let w := save_stepper_state w
  let w := create_log w time_us (cstring "Recalibration started")
  match sensor with
  | [] => none
  | last_sensor_value :: sensor =>
    match edge_loop 2 false true false w last_sensor_value 0 sensor with
    | none => none
    | some r =>
      let w := r.world
      let w := step_loop 3 false (w.stepper_data.sensor_width / 2) w
      let new_compartment := (w.stepper_state.current_compartment + 1) % 256
      let w := run w (w.stepper_state.current_compartment + 1)
      if new_compartment ≤ 7 then
        let w := { w with stepper_state := { w.stepper_state with current_compartment := new_compartment } }
        let w := { w with stepper_state := { w.stepper_state with stepper_stage := NORMAL_OPERATION } }
        let w := save_stepper_state w
        some (true, w, r.sensor)
      else
        let w := { w with stepper_state := { w.stepper_state with current_compartment := 0 } }
        let w := { w with stepper_state := { w.stepper_state with stepper_stage := INITIAL } }
        let w := save_stepper_state w
        some (false, w, r.sensor)

/-- The variables of `calibration` that live across iterations of its
`while (calibration_stage != CALIBRATION_FINISHED)` loop: the global
`calibration_stage` and the locals. -/
structure CalibrationLocals where
  calibration_stage : Calibration_Stages
  last_sensor_value : Bool
  sensor_width_values : Nat × Nat
  revolution_steps_values : Nat × Nat
  round : Nat

/-- Embeds `values[round]` for a two-element array. -/
def idx2 (values : Nat × Nat) (round : Nat) : Nat :=
  if round = 0 then values.1 else values.2

/-- Embeds `values[round] = v` for a two-element array. -/
def set2 (values : Nat × Nat) (round : Nat) (v : Nat) : Nat × Nat :=
  if round = 0 then (v, values.2) else (values.1, v)

/-- One pass through the `switch (calibration_stage)` of `calibration`. -/
def calibration_case (l : CalibrationLocals) (w : World) (sensor : List Bool) :
    Option (CalibrationLocals × World × List Bool) :=
  match l.calibration_stage with
  | .WAY_TO_START =>
    match edge_loop 2 false true true w l.last_sensor_value 0 sensor with
    | none => none
    | some r =>
      some ({ l with last_sensor_value := r.last_sensor_value,
                     calibration_stage := .CALCULATE_SENSOR_WIDTH }, r.world, r.sensor)
  | .CALCULATE_SENSOR_WIDTH =>
    match edge_loop 3 true false true w l.last_sensor_value
        (idx2 l.sensor_width_values l.round) sensor with
    | none => none
    | some r =>
      some ({ l with last_sensor_value := r.last_sensor_value,
                     sensor_width_values := set2 l.sensor_width_values l.round r.steps,
                     calibration_stage := .CALCULATE_NON_SENSOR_WIDTH }, r.world, r.sensor)
  | .CALCULATE_NON_SENSOR_WIDTH =>
    match edge_loop 3 false true true w l.last_sensor_value 0 sensor with
    | none => none
    | some r =>
      let step_counter := r.steps
      let l := { l with last_sensor_value := r.last_sensor_value,
                        revolution_steps_values :=
                          set2 l.revolution_steps_values l.round
                            (step_counter + idx2 l.sensor_width_values l.round) }
      if l.round < 1 then
        some ({ l with round := l.round + 1, calibration_stage := .CALCULATE_SENSOR_WIDTH },
              r.world, r.sensor)
      else
        some ({ l with calibration_stage := .WAY_TO_ZERO }, r.world, r.sensor)
  | .WAY_TO_ZERO =>
    let w := { w with stepper_data := { w.stepper_data with
      revolution_steps := ((l.revolution_steps_values.1 + l.revolution_steps_values.2) / 2) % 65536 } }
    let w := { w with stepper_data := { w.stepper_data with
      sensor_width := ((l.sensor_width_values.1 + l.sensor_width_values.2) / 2) % 65536 } }
    let w := step_loop 3 true (w.stepper_data.sensor_width / 2) w
    let l := { l with calibration_stage := .CALIBRATION_FINISHED }
    let w := save_stepper_data w
    let w := { w with stepper_state := { w.stepper_state with stepper_stage := NORMAL_OPERATION } }
    let w := { w with stepper_state := { w.stepper_state with current_compartment := 0 } }
    let w := save_stepper_state w
    some (l, w, sensor)
  | .CALIBRATION_FINISHED => some (l, w, sensor)

/-- The loop `while (calibration_stage != CALIBRATION_FINISHED)`, at most
`passes` times through the switch; no result when the stage is not finished
by then or an edge search has none. -/
def calibration_loop : Nat → CalibrationLocals → World → List Bool → Option (World × List Bool)
  | 0, l, w, sensor =>
      if l.calibration_stage = .CALIBRATION_FINISHED then some (w, sensor) else none
  | passes + 1, l, w, sensor =>
      if l.calibration_stage = .CALIBRATION_FINISHED then some (w, sensor)
      else
        match calibration_case l w sensor with
        | none => none
        | some (l, w, sensor) => calibration_loop passes l w sensor

/-- Embeds `void calibration()`.  The switch is passed exactly six times when every
edge search ends (`calibration_passes` below). -/
def calibration (w : World) (time_us : Nat) (sensor : List Bool) : Option (World × List Bool) :=
  let w := create_log w time_us (cstring "Calibration started")
  let w := { w with stepper_data := { w.stepper_data with sensor_width := 0 } }
  match sensor with
  | [] => none
  | last_sensor_value :: sensor =>
    calibration_loop 6
      { calibration_stage := .WAY_TO_START, last_sensor_value := last_sensor_value,
        sensor_width_values := (0, 0), revolution_steps_values := (0, 0), round := 0 }
      w sensor

/-- Embeds `bool initialize_stepper()`; the fixed delays after the branches have no
effect on the state. -/
def initialize_stepper (w : World) (time_us : Nat) (sensor : List Bool) :
    Option (Bool × World × List Bool) :=
  let dispenser_not_empty := true
  if w.stepper_state.stepper_stage = RECALIBRATING ∨ w.stepper_state.stepper_stage = TURNING then
    recalibration w time_us sensor
  else if w.stepper_state.stepper_stage = NORMAL_OPERATION then
    some (dispenser_not_empty, w, sensor)
  else
    match calibration w time_us sensor with
    | none => none
    | some (w, sensor) => some (dispenser_not_empty, w, sensor)

/-! ## Vocabulary of the log store -/

/-- The 64 bytes of log slot `k`. -/
def slot (st : Store) (k : Nat) : List Nat :=
  (List.range 64).map (fun i => st (64 * k + i))

/-- A valid slot, in the words of the data model: the first byte is non-zero,
the first 0x00 byte is at some index `n ≤ 61`, and `crc16` over the first
`n + 3` bytes is 0. -/
def slot_valid (entry : List Nat) : Prop :=
  entry.getD 0 0 ≠ 0 ∧
  ∃ n, n ≤ 61 ∧ entry.getD n 1 = 0 ∧ (∀ i, i < n → entry.getD i 0 ≠ 0) ∧
    crc16 entry (n + 3) = 0

/-- Validity of a slot can be computed. -/
instance slot_valid_decidable (entry : List Nat) : Decidable (slot_valid entry) := by
  unfold slot_valid
  infer_instance

/-- The bytes of a log entry for the text `t` as the call
`write_log_entry(entry, strlen(entry) + 1)` of `create_log` stores them: the
text, the terminator, and the big-endian `crc16` of the text with its
terminator. -/
def log_payload (t : List Nat) : List Nat :=
  t ++ [0, crc16 (t ++ [0]) (t.length + 1) >>> 8, crc16 (t ++ [0]) (t.length + 1) &&& 0xFF]

/-- A freshly erased device, with the globals as `stepper.c` initialises them. -/
def fresh_world : World :=
  { eeprom := fun _ => 0, events := [],
    stepper_data := { revolution_steps := 4096, sensor_width := 0 },
    stepper_state := { stepper_stage := 0, current_compartment := 0 },
    current_step := 0 }

/-- A store whose first `n` log slots each hold the entry "A" (the bytes
0x41, 0x00 and the checksum 0x23, 0xF2) and whose other bytes are zero. -/
def store_with_entries (n : Nat) : Store :=
  fun a => if a < 64 * n then [65, 0, 35, 242].getD (a % 64) 0 else 0

/-- A device that lost power during a turn from compartment `c`: the
runtime state is `{TURNING, c}`, in memory as loaded at boot. -/
def interrupted_world (c : Nat) : World :=
  { fresh_world with stepper_state := { stepper_stage := TURNING, current_compartment := c } }

/-- A calibrated device at rest: calibration record `{4096, 200}`, runtime
state `{NORMAL_OPERATION, 0}`, on an erased store. -/
def calibrated_world : World :=
  { fresh_world with
    stepper_data := { revolution_steps := 4096, sensor_width := 200 },
    stepper_state := { stepper_stage := NORMAL_OPERATION, current_compartment := 0 } }

/-- Whether a `while (!edge_detected)` loop ends on the given sensor samples:
some iteration samples `now` while `last_sensor_value` is `before`.  Each
iteration takes two samples, the second becoming `last_sensor_value`. -/
def edge_seen (now before : Bool) : Bool → List Bool → Bool
  | last_sensor_value, s1 :: s2 :: sensor =>
      (s1 == now && last_sensor_value == before) || edge_seen now before s2 sensor
  | _, _ => false

/-- The motor outputs of `n` successive steps that start at sequence index
`current_step`: what `step_loop` appends to the trace. -/
def step_events (sleep_timer : Nat) (forward : Bool) : Nat → Nat → List Event
  | 0, _ => []
  | n + 1, current_step =>
      Event.motor (seq_table.getD current_step []) sleep_timer ::
        step_events sleep_timer forward n
          (if forward then next_step current_step else previous_step current_step)

/-- How many more passes through the switch of `calibration` are due from the
given stage and round: `WAY_TO_START`, then two rounds of the two measuring
stages, then `WAY_TO_ZERO`. -/
def calibration_passes_left (l : CalibrationLocals) : Nat :=
  match l.calibration_stage with
  | .WAY_TO_START => if l.round < 1 then 6 else 4
  | .CALCULATE_SENSOR_WIDTH => if l.round < 1 then 5 else 3
  | .CALCULATE_NON_SENSOR_WIDTH => if l.round < 1 then 4 else 2
  | .WAY_TO_ZERO => 1
  | .CALIBRATION_FINISHED => 0

/-- The update of the CRC16 codec in the words of the specification, to be
compared with `crc16_body`: `x0 = (crc >> 8) xor b`, `x = x0 xor (x0 >> 4)` as
an 8-bit value, and the new value
`((crc << 8) xor (x << 12) xor (x << 5) xor x) mod 2^16`. -/
def crc16_recurrence (crc b : Nat) : Nat :=
  let x0 := (crc >>> 8) ^^^ b
  let x := (x0 ^^^ (x0 >>> 4)) % 256
  ((crc <<< 8) ^^^ (x <<< 12) ^^^ (x <<< 5) ^^^ x) % 65536

/-- The nearest integer to `a / b`, halves rounded up: the reading of
`round(n * revolution_steps / 8)` in the words of the specification of
`run_compartments`, to be compared with what `run` computes. -/
def round_nearest (a b : Nat) : Nat := (2 * a + b) / (2 * b)

/-- A calibrated device at rest whose calibration record holds
`revolution_steps = r`. -/
def world_with_revolution (r : Nat) : World :=
  { calibrated_world with stepper_data := { revolution_steps := r, sensor_width := 200 } }

/-- What one `while (!edge_detected)` loop takes from the sensor samples: the
number of iterations it makes (at least one), the last value left in
`last_sensor_value`, and the unread samples; no result when the samples run
out before the edge `before -> now` is seen. -/
def edge_scan (now before : Bool) : Bool → List Bool → Option (Nat × Bool × List Bool)
  | last_sensor_value, s1 :: s2 :: sensor =>
      if (s1 == now && last_sensor_value == before) = true then some (1, s2, sensor)
      else (edge_scan now before s2 sensor).map (fun r => (r.1 + 1, r.2))
  | _, _ => none

/-- The step counts of the five edge searches of one calibration run:
`WAY_TO_START`, then `CALCULATE_SENSOR_WIDTH` and `CALCULATE_NON_SENSOR_WIDTH`
for round 0 and for round 1, and the unread samples. -/
structure CalibrationTrace where
  start : Nat
  sw0 : Nat
  nsw0 : Nat
  sw1 : Nat
  nsw1 : Nat
  rest : List Bool

/-- The step counts a sensor trace gives a calibration run, when all five edge
searches end on it: the first sample is the initial `last_sensor_value`, a
falling edge ends `WAY_TO_START` and each `CALCULATE_NON_SENSOR_WIDTH`, a
rising edge ends each `CALCULATE_SENSOR_WIDTH`. -/
def calibration_trace : List Bool → Option CalibrationTrace
  | [] => none
  | last_sensor_value :: sensor =>
    (edge_scan false true last_sensor_value sensor).bind fun a =>
    (edge_scan true false a.2.1 a.2.2).bind fun b =>
    (edge_scan false true b.2.1 b.2.2).bind fun c =>
    (edge_scan true false c.2.1 c.2.2).bind fun d =>
    (edge_scan false true d.2.1 d.2.2).map fun e =>
      { start := a.1, sw0 := b.1, nsw0 := c.1, sw1 := d.1, nsw1 := e.1, rest := e.2.2 }

/-- The state in which `calibration` starts to move the motor: the log entry
is written and `sensor_width` is cleared. -/
def calibration_begin (w : World) (time_us : Nat) : World :=
  let w := create_log w time_us (cstring "Calibration started")
  { w with stepper_data := { w.stepper_data with sensor_width := 0 } }

/-- The state after the five edge searches of `calibration` with the given
step counts, and the two averages stored in `stepper_data`. -/
def calibration_measured (w : World) (time_us : Nat) (m : CalibrationTrace) : World :=
  let w := calibration_begin w time_us
  let w := step_loop 2 true m.start w
  let w := step_loop 3 true m.sw0 w
  let w := step_loop 3 true m.nsw0 w
  let w := step_loop 3 true m.sw1 w
  let w := step_loop 3 true m.nsw1 w
  { w with stepper_data :=
      { revolution_steps := (((m.nsw0 + m.sw0) + (m.nsw1 + m.sw1)) / 2) % 65536,
        sensor_width := ((m.sw0 + m.sw1) / 2) % 65536 } }

/-- The state `calibration` ends in for the given step counts: the measured
state, the parking steps of `WAY_TO_ZERO`, then the two records saved. -/
def calibration_final (w : World) (time_us : Nat) (m : CalibrationTrace) : World :=
  let w := calibration_measured w time_us m
  let w := step_loop 3 true (w.stepper_data.sensor_width / 2) w
  let w := save_stepper_data w
  let w := { w with stepper_state := { stepper_stage := NORMAL_OPERATION, current_compartment := 0 } }
  save_stepper_state w

/-- The store writes one `write_log_entry` call makes for the text `t` on the
store `st`: the 32 clearing writes when the log is full, then the entry at
the target address. -/
def log_events (st : Store) (t : List Nat) : List Event :=
  (if (write_log_scan st log_addresses).2 then
      log_addresses.map (fun a => Event.eeprom_write a [0])
    else [])
    ++ [Event.eeprom_write (write_log_address st) (log_payload t)]

/-- A sensor trace on which calibration ends: the initial sample, then the
sample pairs of two iterations of `WAY_TO_START`, and of 2, 1, 4 and 1
iterations of the four measuring loops. -/
def sample_trace : List Bool :=
  [true, true, true, false, false,
   false, false, true, true,
   false, false,
   false, false, false, false, false, false, true, true,
   false, false]

/-- The effect of one trace event on the store: a write transaction stores
its payload at consecutive addresses from its start address (what the device
does with the frame, see `i2c_write_eeprom`), a motor output leaves the store
alone. -/
def apply_event (st : Store) : Event → Store
  | Event.eeprom_write address payload =>
      fun a => if address ≤ a ∧ a < address + payload.length then payload.getD (a - address) 0
               else st a
  | Event.motor _ _ => st

/-- The store after the events of a trace, in order: what a boot after a
reset at that point of the trace finds. -/
def replay (st : Store) (events : List Event) : Store :=
  events.foldl apply_event st

/-- The state in which `recalibration` starts its backward edge search: the
stage `RECALIBRATING` is saved and the log entry is written. -/
def recalibration_begin (w : World) (time_us : Nat) : World :=
  let w := { w with stepper_state := { w.stepper_state with stepper_stage := RECALIBRATING } }
  let w := save_stepper_state w
  create_log w time_us (cstring "Recalibration started")

/-- The state of `recalibration` after its motion, for a backward edge search
of `k` steps: the search, the parking steps and `run`. -/
def recalibration_moved (w : World) (time_us : Nat) (k : Nat) : World :=
  let w := recalibration_begin w time_us
  let w := step_loop 2 false k w
  let w := step_loop 3 false (w.stepper_data.sensor_width / 2) w
  run w (w.stepper_state.current_compartment + 1)

/-- The runtime state `recalibration` ends with, for the compartment `c` it
started from. -/
def recalibration_state (c : Nat) : stepperstate :=
  if (c + 1) % 256 ≤ 7 then
    { stepper_stage := NORMAL_OPERATION, current_compartment := (c + 1) % 256 }
  else { stepper_stage := INITIAL, current_compartment := 0 }

/-- Whether a trace event is a motor output. -/
def is_motor : Event → Bool
  | Event.motor _ _ => true
  | Event.eeprom_write _ _ => false

/-- The number of motor outputs (steps issued) in a trace. -/
def motor_count (events : List Event) : Nat :=
  events.countP is_motor

/-- A motor output made with an in-bounds `seq_table[current_step]` lookup:
its pin levels are a row of the table (an out-of-bounds lookup has no row in
the embedding). Store writes make no lookup. -/
def lookup_in_bounds : Event → Prop
  | Event.motor pins _ => pins ∈ seq_table
  | Event.eeprom_write _ _ => True

/-- The operation leading from `w` to `w'` ends with `current_step` in 0..7
and extends the trace by events whose table lookups are all in bounds. -/
def steps_in_bounds (w w' : World) : Prop :=
  w'.current_step ≤ 7 ∧
  ∃ new : List Event, w'.events = w.events ++ new ∧ ∀ e ∈ new, lookup_in_bounds e

/-! ## The bitwise CRC-16/CCITT-FALSE -/

/-- One bit of the MSB-first CRC with polynomial 0x1021 on a 16-bit register,
in the words of the standard algorithm: shift the register left by one and,
when the bit shifted out was set, xor the polynomial into it. -/
def crc_ccitt_bit (crc : Nat) : Nat :=
  if crc.testBit 15 then ((crc <<< 1) ^^^ 0x1021) % 65536 else (crc <<< 1) % 65536

/-- One byte of the bit-by-bit CRC: the byte is xored into the high half of
the register (no reflection), then eight bits are processed. -/
def crc_ccitt_byte (crc byte : Nat) : Nat :=
  crc_ccitt_bit^[8] (crc ^^^ (byte <<< 8))

/-- CRC-16/CCITT-FALSE of a byte string: initial value 0xFFFF, no final
xor. -/
def crc_ccitt_false (data : List Nat) : Nat :=
  data.foldl crc_ccitt_byte 0xFFFF

/-! ## The range of `int` in `run` -/

/-- The largest value of the 32-bit `int` of the target. -/
def INT_MAX : Nat := 2147483647

/-- The calls of `run` whose cast `(int)` is defined: the argument is an
`int`, `revolution_steps` is a `uint16_t`, and the product
`compartments * (revolution_steps / 8)`, exact in `double`, does not exceed
`INT_MAX`. -/
def run_in_int_range (w : World) (compartments : Nat) : Prop :=
  compartments ≤ INT_MAX ∧ w.stepper_data.revolution_steps < 65536 ∧
    compartments * w.stepper_data.revolution_steps / 8 ≤ INT_MAX

/-- Membership in the defined range of `run` can be computed. -/
instance run_in_int_range_decidable (w : World) (compartments : Nat) :
    Decidable (run_in_int_range w compartments) := by
  unfold run_in_int_range
  infer_instance

/-- The state in which `recalibration` calls `run`, for a backward edge
search of `k` steps: after the search and the `sensor_width / 2` parking
steps. -/
def recalibration_parked (w : World) (time_us : Nat) (k : Nat) : World :=
  let w := recalibration_begin w time_us
  let w := step_loop 2 false k w
  step_loop 3 false (w.stepper_data.sensor_width / 2) w

/-! ## Lemmas on crc16 -/

theorem crc16_body_lt (crc byte : Nat) : crc16_body crc byte < 65536 := by
  unfold crc16_body
  exact Nat.mod_lt _ (by norm_num)

theorem crc16_loop_lt : ∀ (data_p : List Nat) (length crc : Nat),
    crc < 65536 → crc16_loop data_p length crc < 65536
  | [], _, _, h => by simpa [crc16_loop] using h
  | _ :: _, 0, _, h => by simpa [crc16_loop] using h
  | byte :: data_p, length + 1, crc, _ => by
      rw [crc16_loop]
      exact crc16_loop_lt data_p length _ (crc16_body_lt crc byte)

theorem crc16_lt (data_p : List Nat) (length : Nat) : crc16 data_p length < 65536 :=
  crc16_loop_lt data_p length _ (by norm_num)

theorem crc16_loop_append : ∀ (s t : List Nat) (n crc : Nat),
    crc16_loop (s ++ t) (s.length + n) crc = crc16_loop t n (crc16_loop s s.length crc)
  | [], t, n, crc => by simp [crc16_loop]
  | byte :: s, t, n, crc => by
      have h : (byte :: s).length + n = (s.length + n) + 1 := by simp; omega
      rw [List.cons_append, h, crc16_loop, List.length_cons, crc16_loop]
      exact crc16_loop_append s t n _

/-- Feeding the high byte of the running value shifts it left by one byte. -/
theorem crc16_body_hi (crc : Nat) :
    crc16_body crc (crc >>> 8) = (crc * 256) % 65536 := by
  unfold crc16_body
  simp [Nat.xor_self, Nat.shiftLeft_eq]

/-- Feeding the low byte after the high byte clears the running value. -/
theorem crc16_body_lo (crc : Nat) :
    crc16_body ((crc * 256) % 65536) (crc &&& 0xFF) = 0 := by
  have h1 : ((crc * 256) % 65536) >>> 8 = crc % 256 := by
    rw [Nat.shiftRight_eq_div_pow]; omega
  have h2 : crc &&& 0xFF = crc % 256 := by
    have := Nat.and_pow_two_sub_one_eq_mod crc 8
    simpa using this
  unfold crc16_body
  rw [h1, h2]
  simp [Nat.xor_self, Nat.shiftLeft_eq]
  omega

/-- Appending the big-endian value of the running crc drives it to zero. -/
theorem crc16_loop_self (crc : Nat) :
    crc16_loop [crc >>> 8, crc &&& 0xFF] 2 crc = 0 := by
  simp only [crc16_loop]
  rw [crc16_body_hi crc, crc16_body_lo crc]

/-! ## Lemmas on the log frame -/

theorem memcpy_succ (dst : List Nat) (offset : Nat) (src : List Nat) (n : Nat) :
    memcpy dst offset src (n + 1) = (memcpy dst offset src n).set (offset + n) (src.getD n 0) := by
  unfold memcpy
  rw [List.range_succ, List.foldl_append]
  rfl

theorem memcpy_length (dst : List Nat) (offset : Nat) (src : List Nat) (n : Nat) :
    (memcpy dst offset src n).length = dst.length := by
  induction n with
  | zero => rfl
  | succ n ih => rw [memcpy_succ, List.length_set, ih]

theorem memcpy_getElem? (dst : List Nat) (offset : Nat) (src : List Nat) (n i : Nat) :
    (memcpy dst offset src n)[i]? =
      if offset ≤ i ∧ i < offset + n ∧ i < dst.length then some (src.getD (i - offset) 0)
      else dst[i]? := by
  induction n with
  | zero =>
    have : ¬ (offset ≤ i ∧ i < offset + 0 ∧ i < dst.length) := by omega
    rw [if_neg this]; rfl
  | succ n ih =>
    rw [memcpy_succ, List.getElem?_set, memcpy_length]
    by_cases h : offset + n = i
    · subst h
      rw [if_pos rfl]
      by_cases h1 : offset + n < dst.length
      · have : offset ≤ offset + n ∧ offset + n < offset + (n + 1) ∧ offset + n < dst.length := by
          omega
        rw [if_pos h1, if_pos this, Nat.add_sub_cancel_left]
      · have : ¬ (offset ≤ offset + n ∧ offset + n < offset + (n + 1) ∧ offset + n < dst.length) := by
          omega
        rw [if_neg h1, if_neg this, List.getElem?_eq_none (Nat.le_of_not_lt h1)]
    · rw [if_neg h, ih]
      by_cases h2 : offset ≤ i ∧ i < offset + n ∧ i < dst.length
      · have : offset ≤ i ∧ i < offset + (n + 1) ∧ i < dst.length := by omega
        rw [if_pos h2, if_pos this]
      · have : ¬ (offset ≤ i ∧ i < offset + (n + 1) ∧ i < dst.length) := by omega
        rw [if_neg h2, if_neg this]

theorem write_log_frame_eq (write_address : Nat) (str : List Nat) (length : Nat)
    (h : length ≤ str.length) :
    write_log_frame write_address str length =
      (write_address >>> 8) % 256 :: (write_address &&& 0xFF) ::
        (str.take length ++ [(crc16 str length >>> 8) % 256, crc16 str length % 256]) := by
  apply List.ext_getElem?
  intro i
  unfold write_log_frame
  simp only [List.getElem?_set, List.length_set, memcpy_length, List.length_replicate,
    memcpy_getElem?]
  have hlen : (str.take length).length = length := by simp [Nat.min_eq_left h]
  match i with
  | 0 => simp
  | 1 => simp
  | j + 2 =>
    rw [List.getElem?_cons_succ, List.getElem?_cons_succ]
    rcases Nat.lt_trichotomy j length with h1 | h1 | h1
    · have e1 : ¬ (length + 3 = j + 2) := by omega
      have e2 : ¬ (length + 2 = j + 2) := by omega
      have e3 : (2 ≤ j + 2 ∧ j + 2 < 2 + (length + 1) ∧ j + 2 < length + 4) := by omega
      simp only [e1, e2, e3, if_false, if_true, and_self]
      rw [List.getElem?_append_left (by omega), List.getElem?_take_of_lt h1,
        List.getD_eq_getElem?_getD, List.getElem?_eq_getElem (by omega)]
      simp
    · subst h1
      have e1 : ¬ (j + 3 = j + 2) := by omega
      have e4 : j + 2 < j + 4 := by omega
      simp only [e1, if_false, if_true, e4]
      rw [List.getElem?_append_right (by omega), hlen]
      simp
    · rw [List.getElem?_append_right (by omega), hlen]
      rcases Nat.lt_trichotomy j (length + 1) with h2 | h2 | h2
      · omega
      · subst h2
        have e4 : length + 3 < length + 4 := by omega
        simp [e4]
      · have e1 : ¬ (length + 3 = j + 2) := by omega
        have e2 : ¬ (length + 2 = j + 2) := by omega
        have e3 : ¬ (2 ≤ j + 2 ∧ j + 2 < 2 + (length + 1) ∧ j + 2 < length + 4) := by omega
        simp only [e1, e2, e3, if_false]
        have e5 : j - length = (j - length - 2) + 2 := by omega
        rw [e5]
        simp
        omega

/-! ## Lemmas on calculate_entry_length -/

theorem calculate_entry_length_loop_spec : ∀ (entry : List Nat) (length : Nat),
    length ≤ calculate_entry_length_loop entry length ∧
    calculate_entry_length_loop entry length - length ≤ entry.length ∧
    (∀ i, i < calculate_entry_length_loop entry length - length → entry.getD i 0 ≠ 0) ∧
    (calculate_entry_length_loop entry length ≤ 63 ∨
      calculate_entry_length_loop entry length = length) ∧
    (calculate_entry_length_loop entry length ≤ 62 →
      calculate_entry_length_loop entry length - length < entry.length →
      entry.getD (calculate_entry_length_loop entry length - length) 1 = 0)
  | [], length => by simp [calculate_entry_length_loop]
  | c :: entry, length => by
      rw [calculate_entry_length_loop]
      by_cases h : c ≠ 0 ∧ length ≤ 62
      · rw [if_pos h]
        obtain ⟨h1, h2, h3, h4, h5⟩ := calculate_entry_length_loop_spec entry (length + 1)
        generalize calculate_entry_length_loop entry (length + 1) = r at h1 h2 h3 h4 h5
        have e : r - length = (r - (length + 1)) + 1 := by omega
        refine ⟨by omega, by simp only [List.length_cons]; omega, ?_, by omega, ?_⟩
        · intro i hi
          match i with
          | 0 => simpa using h.1
          | j + 1 =>
            simp only [List.getD_cons_succ]
            exact h3 j (by omega)
        · intro h6 h7
          rw [e, List.getD_cons_succ]
          exact h5 h6 (by simp only [List.length_cons] at h7; omega)
      · rw [if_neg h]
        refine ⟨le_refl _, by simp, by simp, Or.inr rfl, ?_⟩
        intro h6 _
        simp only [Nat.sub_self, List.getD_cons_zero]
        by_contra hc
        exact h ⟨hc, h6⟩

/-- The result of the loop on a buffer whose first zero byte is at index `n`. -/
theorem calculate_entry_length_loop_first_zero (entry : List Nat) (n : Nat)
    (hn : n ≤ 62) (hlen : n < entry.length) (hz : entry.getD n 1 = 0)
    (hnz : ∀ i, i < n → entry.getD i 0 ≠ 0) :
    calculate_entry_length_loop entry 0 = n := by
  obtain ⟨_, h2, h3, h4, h5⟩ := calculate_entry_length_loop_spec entry 0
  generalize calculate_entry_length_loop entry 0 = r at h2 h3 h4 h5
  simp only [Nat.sub_zero] at h2 h3 h5
  have hd : ∀ i, i < entry.length → entry.getD i 1 = entry.getD i 0 := by
    intro i hi
    simp [List.getD_eq_getElem?_getD, List.getElem?_eq_getElem hi]
  rcases Nat.lt_trichotomy r n with h | h | h
  · exfalso
    have := h5 (by omega) (by omega)
    rw [hd r (by omega)] at this
    exact hnz r h this
  · exact h
  · exfalso
    have := h3 n h
    rw [← hd n hlen] at this
    exact this hz

/-- The result of the loop on a buffer with no zero among its first 63 bytes. -/
theorem calculate_entry_length_loop_no_zero (entry : List Nat) (m : Nat) (hm : m ≤ 63)
    (hlen : m ≤ entry.length) (hnz : ∀ i, i < m → entry.getD i 0 ≠ 0) :
    m ≤ calculate_entry_length_loop entry 0 := by
  obtain ⟨_, h2, h3, h4, h5⟩ := calculate_entry_length_loop_spec entry 0
  generalize calculate_entry_length_loop entry 0 = r at h2 h3 h4 h5
  simp only [Nat.sub_zero] at h2 h3 h5
  by_contra hc
  have hr : r < m := by omega
  have := h5 (by omega) (by omega)
  have hd : entry.getD r 1 = entry.getD r 0 := by
    simp [List.getD_eq_getElem?_getD, List.getElem?_eq_getElem (by omega : r < entry.length)]
  rw [hd] at this
  exact hnz r hr this

theorem calculate_entry_length_reads_le : ∀ (entry : List Nat) (length : Nat),
    ∀ i ∈ calculate_entry_length_reads entry length, i ≤ max length 63
  | [], length => by simp [calculate_entry_length_reads]
  | c :: entry, length => by
      intro i hi
      rw [calculate_entry_length_reads] at hi
      by_cases h : c ≠ 0 ∧ length ≤ 62
      · rw [if_pos h] at hi
        rcases List.mem_cons.mp hi with rfl | hi
        · exact le_max_left _ _
        · have := calculate_entry_length_reads_le entry (length + 1) i hi
          have e : max (length + 1) 63 = 63 := by omega
          rw [e] at this
          exact le_trans this (le_max_right _ _)
      · rw [if_neg h] at hi
        simp only [List.mem_singleton] at hi
        rw [hi]
        exact le_max_left _ _

/-- The instrumented loop reads exactly the offsets from `length` up to the
final value of `length` (or up to the end of the buffer). -/
theorem calculate_entry_length_reads_eq : ∀ (entry : List Nat) (length : Nat),
    calculate_entry_length_reads entry length =
      List.range' length (min (calculate_entry_length_loop entry length - length + 1) entry.length)
  | [], length => by simp [calculate_entry_length_reads]
  | c :: entry, length => by
      rw [calculate_entry_length_reads, calculate_entry_length_loop]
      by_cases h : c ≠ 0 ∧ length ≤ 62
      · rw [if_pos h, if_pos h, calculate_entry_length_reads_eq entry (length + 1)]
        have h1 := (calculate_entry_length_loop_spec entry (length + 1)).1
        generalize calculate_entry_length_loop entry (length + 1) = r at h1
        have e : min (r - length + 1) (c :: entry).length
            = min (r - (length + 1) + 1) entry.length + 1 := by
          simp only [List.length_cons]; omega
        rw [e, List.range'_succ]
      · rw [if_neg h, if_neg h]
        simp

theorem getD_default_irrel (entry : List Nat) (i a b : Nat) (h : i < entry.length) :
    entry.getD i a = entry.getD i b := by
  simp [List.getD_eq_getElem?_getD, List.getElem?_eq_getElem h]

/-- The value of `calculate_entry_length` on a buffer whose first zero byte is
at index `n ≤ 61`. -/
theorem calculate_entry_length_first_zero (entry : List Nat) (n : Nat)
    (hn : n ≤ 61) (hlen : n < entry.length) (hz : entry.getD n 1 = 0)
    (hnz : ∀ i, i < n → entry.getD i 0 ≠ 0) :
    calculate_entry_length entry = n := by
  unfold calculate_entry_length
  simp only
  rw [calculate_entry_length_loop_first_zero entry n (by omega) hlen hz hnz, if_pos hn]

/-- The value of `calculate_entry_length` on a buffer with no zero byte among
its first 62 bytes. -/
theorem calculate_entry_length_no_zero (entry : List Nat) (hlen : 62 ≤ entry.length)
    (hnz : ∀ i, i < 62 → entry.getD i 0 ≠ 0) :
    calculate_entry_length entry = -1 := by
  unfold calculate_entry_length
  simp only
  have := calculate_entry_length_loop_no_zero entry 62 (by omega) hlen hnz
  rw [if_neg (by omega)]

/-- Either the sentinel, or the index of the first zero byte, which is at most 61. -/
theorem calculate_entry_length_cases (entry : List Nat) (hlen : 62 ≤ entry.length) :
    (calculate_entry_length entry = -1 ∧ ∀ i, i < 62 → entry.getD i 0 ≠ 0) ∨
    (∃ n : Nat, n ≤ 61 ∧ calculate_entry_length entry = (n : Int) ∧ entry.getD n 1 = 0 ∧
      ∀ i : Nat, i < n → entry.getD i 0 ≠ 0) := by
  obtain ⟨_, h2, h3, h4, h5⟩ := calculate_entry_length_loop_spec entry 0
  unfold calculate_entry_length
  simp only
  generalize calculate_entry_length_loop entry 0 = r at h2 h3 h4 h5
  simp only [Nat.sub_zero] at h2 h3 h5
  by_cases hr : r ≤ 61
  · right
    exact ⟨r, hr, by rw [if_pos hr], h5 (by omega) (by omega), h3⟩
  · left
    exact ⟨by rw [if_neg hr], fun i hi => h3 i (by omega)⟩

theorem slot_selected_eq_true (entry : List Nat) :
    slot_selected entry = true ↔
      (entry.getD 0 0 = 0 ∨ calculate_entry_length entry = -1 ∨
        crc16 entry (calculate_entry_length entry + 3).toNat ≠ 0) := by
  unfold slot_selected
  simp only [Bool.or_eq_true, decide_eq_true_eq, Bool.or_assoc]

/-- Two descriptions of the first zero byte name the same index. -/
theorem first_zero_unique (entry : List Nat) (n m : Nat)
    (hn : n < entry.length) (hm : m < entry.length)
    (hzn : entry.getD n 1 = 0) (hnzn : ∀ i, i < n → entry.getD i 0 ≠ 0)
    (hzm : entry.getD m 1 = 0) (hnzm : ∀ i, i < m → entry.getD i 0 ≠ 0) : n = m := by
  rcases Nat.lt_trichotomy n m with h | h | h
  · exact absurd (by rw [← getD_default_irrel entry n 1 0 hn]; exact hzn) (hnzm n h)
  · exact h
  · exact absurd (by rw [← getD_default_irrel entry m 1 0 hm]; exact hzm) (hnzn m h)

/-- The scan test is the negation of validity, for buffers of at least 62 bytes. -/
theorem slot_selected_iff_not_valid (entry : List Nat) (hlen : 62 ≤ entry.length) :
    slot_selected entry = true ↔ ¬ slot_valid entry := by
  rw [slot_selected_eq_true]
  rcases calculate_entry_length_cases entry hlen with ⟨h, hnz⟩ | ⟨n, hn, h, hz, hnz⟩
  · constructor
    · rintro _ ⟨_, m, hm, hzm, _, _⟩
      rw [getD_default_irrel entry m 1 0 (by omega)] at hzm
      exact hnz m (by omega) hzm
    · intro _
      exact Or.inr (Or.inl h)
  · have e : (calculate_entry_length entry + 3).toNat = n + 3 := by rw [h]; rfl
    have hne : calculate_entry_length entry ≠ -1 := by rw [h]; omega
    rw [e]
    constructor
    · rintro hsel ⟨h0, m, hm, hzm, hnzm, hcrc⟩
      have hmn : n = m :=
        first_zero_unique entry n m (by omega) (by omega) hz hnz hzm hnzm
      subst hmn
      rcases hsel with h1 | h1 | h1
      · exact h0 h1
      · exact hne h1
      · exact h1 hcrc
    · intro hnv
      by_contra hc
      simp only [not_or, not_not] at hc
      exact hnv ⟨hc.1, n, hn, hz, hnz, hc.2.2⟩

/-! ## Lemmas on the store -/

theorem addr_decode (a : Nat) (h : a < 65536) :
    (a >>> 8) % 256 * 256 + (a &&& 0xFF) = a := by
  have h2 : a &&& 0xFF = a % 256 := by
    have := Nat.and_pow_two_sub_one_eq_mod a 8
    simpa using this
  rw [h2, Nat.shiftRight_eq_div_pow]
  omega

theorem i2c_read_eeprom_addr (st : Store) (a len : Nat) (h : a < 65536) :
    i2c_read_eeprom st [(a >>> 8) % 256, a &&& 0xFF] len
      = (List.range len).map (fun i => st (a + i)) := by
  unfold i2c_read_eeprom
  simp only [List.getD_cons_zero, List.getD_cons_succ, addr_decode a h]

theorem i2c_read_slot (st : Store) (k : Nat) (h : k < 32) :
    i2c_read_eeprom st [((64 * k) >>> 8) % 256, (64 * k) &&& 0xFF] 64 = slot st k := by
  rw [i2c_read_eeprom_addr st (64 * k) 64 (by omega)]
  rfl

theorem i2c_write_eeprom_addr (st : Store) (a : Nat) (payload : List Nat) (h : a < 65536)
    (x : Nat) :
    i2c_write_eeprom st ((a >>> 8) % 256 :: (a &&& 0xFF) :: payload) x =
      if a ≤ x ∧ x < a + payload.length then payload.getD (x - a) 0 else st x := by
  unfold i2c_write_eeprom
  simp only [List.getD_cons_zero, List.getD_cons_succ, addr_decode a h, List.drop_succ_cons,
    List.drop_zero]

theorem write_event_addr (a : Nat) (payload : List Nat) (h : a < 65536) :
    write_event ((a >>> 8) % 256 :: (a &&& 0xFF) :: payload) = Event.eeprom_write a payload := by
  unfold write_event
  simp only [List.getD_cons_zero, List.getD_cons_succ, addr_decode a h, List.drop_succ_cons,
    List.drop_zero]

/-! ## Lemmas on the scan -/

theorem write_log_scan_all_valid (st : Store) : ∀ (n j : Nat), j + n ≤ 32 →
    (∀ i, j ≤ i → i < j + n → slot_selected (slot st i) = false) →
    write_log_scan st ((List.range' j n).map (fun i => 64 * i)) = (0, true)
  | 0, _, _, _ => rfl
  | n + 1, j, hj, h => by
      rw [List.range'_succ, List.map_cons, write_log_scan]
      rw [i2c_read_slot st j (by omega), h j (le_refl _) (by omega)]
      simp only [Bool.false_eq_true, if_false]
      exact write_log_scan_all_valid st n (j + 1) (by omega)
        (fun i h1 h2 => h i (by omega) (by omega))

theorem write_log_scan_first (st : Store) (k : Nat) : ∀ (n j : Nat), j + n ≤ 32 →
    j ≤ k → k < j + n →
    (∀ i, j ≤ i → i < k → slot_selected (slot st i) = false) →
    slot_selected (slot st k) = true →
    write_log_scan st ((List.range' j n).map (fun i => 64 * i)) = (64 * k, false)
  | 0, _, _, _, _, _, _ => by omega
  | n + 1, j, hj, hjk, hk, h, hsel => by
      rw [List.range'_succ, List.map_cons, write_log_scan]
      rw [i2c_read_slot st j (by omega)]
      by_cases e : j = k
      · subst e
        rw [hsel]
        rfl
      · rw [h j (le_refl _) (by omega)]
        simp only [Bool.false_eq_true, if_false]
        exact write_log_scan_first st k n (j + 1) (by omega) (by omega) (by omega)
          (fun i h1 h2 => h i (by omega) h2) hsel

theorem log_addresses_eq : log_addresses = (List.range' 0 32).map (fun i => 64 * i) := by
  unfold log_addresses
  rw [List.range_eq_range']

/-- The scan result when slots `0..k-1` are valid and slot `k` is not. -/
theorem write_log_scan_free (st : Store) (k : Nat) (hk : k < 32)
    (hvalid : ∀ j, j < k → slot_valid (slot st j)) (hfree : ¬ slot_valid (slot st k)) :
    write_log_scan st log_addresses = (64 * k, false) := by
  rw [log_addresses_eq]
  have hl : ∀ i, 62 ≤ (slot st i).length := by intro i; simp [slot]
  apply write_log_scan_first st k 32 0 (by omega) (by omega) (by omega)
  · intro i _ hi
    by_contra hc
    rw [Bool.not_eq_false] at hc
    exact (slot_selected_iff_not_valid _ (hl i)).mp hc (hvalid i hi)
  · exact (slot_selected_iff_not_valid _ (hl k)).mpr hfree

/-- The scan result when all 32 slots are valid. -/
theorem write_log_scan_full (st : Store) (hfull : ∀ j, j < 32 → slot_valid (slot st j)) :
    write_log_scan st log_addresses = (0, true) := by
  rw [log_addresses_eq]
  have hl : ∀ i, 62 ≤ (slot st i).length := by intro i; simp [slot]
  apply write_log_scan_all_valid st 32 0 (by omega)
  intro i _ hi
  by_contra hc
  rw [Bool.not_eq_false] at hc
  exact (slot_selected_iff_not_valid _ (hl i)).mp hc (hfull i (by omega))

/-! ## Lemmas on clear_log -/

theorem clear_log_fold (l : List Nat) (hl : ∀ a ∈ l, a < 65536) : ∀ (w : World),
    (l.foldl (fun w address =>
        i2c_write_blocking w [(address >>> 8) % 256, address &&& 0xFF, 0]) w).events
      = w.events ++ l.map (fun a => Event.eeprom_write a [0]) ∧
    (∀ x, (l.foldl (fun w address =>
        i2c_write_blocking w [(address >>> 8) % 256, address &&& 0xFF, 0]) w).eeprom x
      = if x ∈ l then 0 else w.eeprom x) := by
  induction l with
  | nil => intro w; simp
  | cons a l ih =>
    intro w
    have ha : a < 65536 := hl a (List.mem_cons_self _ _)
    obtain ⟨h1, h2⟩ := ih (fun b hb => hl b (List.mem_cons_of_mem _ hb))
      (i2c_write_blocking w [(a >>> 8) % 256, a &&& 0xFF, 0])
    rw [List.foldl_cons]
    refine ⟨?_, ?_⟩
    · rw [h1]
      simp only [i2c_write_blocking, write_event_addr a [0] ha, List.map_cons,
        List.append_assoc, List.singleton_append]
    · intro x
      rw [h2 x]
      simp only [i2c_write_blocking, i2c_write_eeprom_addr w.eeprom a [0] ha, List.mem_cons,
        List.length_singleton]
      by_cases hx : x ∈ l
      · simp [hx]
      · by_cases hxa : x = a
        · subst hxa; simp [hx]
        · have : ¬ (a ≤ x ∧ x < a + 1) := by omega
          simp [hx, hxa, this]

theorem mem_log_addresses (x : Nat) : x ∈ log_addresses ↔ x < 2048 ∧ x % 64 = 0 := by
  unfold log_addresses
  simp only [List.mem_map, List.mem_range]
  constructor
  · rintro ⟨i, hi, rfl⟩
    omega
  · rintro ⟨h1, h2⟩
    exact ⟨x / 64, by omega, by omega⟩

theorem clear_log_events (w : World) :
    (clear_log w).events = w.events ++ log_addresses.map (fun a => Event.eeprom_write a [0]) :=
  (clear_log_fold log_addresses
    (fun a ha => by have := (mem_log_addresses a).mp ha; omega) w).1

theorem clear_log_eeprom (w : World) (x : Nat) :
    (clear_log w).eeprom x = if x < 2048 ∧ x % 64 = 0 then 0 else w.eeprom x := by
  have h := (clear_log_fold log_addresses
    (fun a ha => by have := (mem_log_addresses a).mp ha; omega) w).2 x
  simp only [mem_log_addresses] at h
  exact h

/-! ## Lemmas on write_log_entry -/

theorem crc16_loop_zero (data_p : List Nat) (crc : Nat) : crc16_loop data_p 0 crc = crc := by
  cases data_p <;> rfl

/-- Only the first `length` bytes of the buffer enter the checksum. -/
theorem crc16_prefix (s rest : List Nat) : crc16 (s ++ rest) s.length = crc16 s s.length := by
  unfold crc16
  have h := crc16_loop_append s rest 0 0xFFFF
  rw [Nat.add_zero, crc16_loop_zero] at h
  exact h

theorem write_log_scan_mem (st : Store) : ∀ (l : List Nat),
    write_log_scan st l = (0, true) ∨
    ((write_log_scan st l).2 = false ∧ (write_log_scan st l).1 ∈ l)
  | [] => Or.inl rfl
  | a :: l => by
      rw [write_log_scan]
      by_cases h : slot_selected (i2c_read_eeprom st [(a >>> 8) % 256, a &&& 0xFF] 64) = true
      · rw [if_pos h]
        exact Or.inr ⟨rfl, List.mem_cons_self _ _⟩
      · rw [if_neg h]
        rcases write_log_scan_mem st l with h1 | ⟨h1, h2⟩
        · exact Or.inl h1
        · exact Or.inr ⟨h1, List.mem_cons_of_mem _ h2⟩

/-- The target of `write_log_entry` is the start of one of the 32 slots. -/
theorem write_log_address_slot (st : Store) : ∃ k, k < 32 ∧ write_log_address st = 64 * k := by
  unfold write_log_address
  rcases write_log_scan_mem st log_addresses with h | ⟨h1, h2⟩
  · rw [h]
    exact ⟨0, by omega, rfl⟩
  · simp only [h1, Bool.false_eq_true, if_false]
    have := (mem_log_addresses _).mp h2
    exact ⟨(write_log_scan st log_addresses).1 / 64, by omega, by omega⟩

theorem write_log_entry_eq (w : World) (str : List Nat) (length : Nat) :
    write_log_entry w str length =
      i2c_write_blocking (if (write_log_scan w.eeprom log_addresses).2 then clear_log w else w)
        (write_log_frame (write_log_address w.eeprom) str length) := rfl

/-- The frame of the call `write_log_entry(entry, strlen(entry) + 1)` for a buffer
holding the text `t`, its terminator and anything behind it. -/
theorem write_log_frame_text (a : Nat) (t junk : List Nat) :
    write_log_frame a (t ++ 0 :: junk) (t.length + 1) =
      (a >>> 8) % 256 :: (a &&& 0xFF) :: log_payload t := by
  rw [write_log_frame_eq a (t ++ 0 :: junk) (t.length + 1) (by simp)]
  have e : t ++ 0 :: junk = (t ++ [0]) ++ junk := by simp
  have hl : (t ++ [0]).length = t.length + 1 := by simp
  have hc : crc16 (t ++ 0 :: junk) (t.length + 1) = crc16 (t ++ [0]) (t.length + 1) := by
    rw [e, ← hl, crc16_prefix, hl]
  have ht : List.take (t.length + 1) (t ++ 0 :: junk) = t ++ [0] := by
    rw [e, ← hl, List.take_left]
  have hlt := crc16_lt (t ++ [0]) (t.length + 1)
  have h1 : (crc16 (t ++ [0]) (t.length + 1) >>> 8) % 256
      = crc16 (t ++ [0]) (t.length + 1) >>> 8 := by
    rw [Nat.shiftRight_eq_div_pow]; omega
  have h2 : crc16 (t ++ [0]) (t.length + 1) % 256
      = crc16 (t ++ [0]) (t.length + 1) &&& 0xFF := by
    have := Nat.and_pow_two_sub_one_eq_mod (crc16 (t ++ [0]) (t.length + 1)) 8
    simpa using this.symm
  rw [hc, ht, h1, h2]
  simp [log_payload]

theorem log_payload_length (t : List Nat) : (log_payload t).length = t.length + 3 := by
  simp [log_payload]

/-- The effect of `write_log_entry` for the call shape of `create_log`. -/
theorem write_log_entry_text (w : World) (t junk : List Nat) :
    (write_log_entry w (t ++ 0 :: junk) (t.length + 1)).events =
      (if (write_log_scan w.eeprom log_addresses).2 then clear_log w else w).events ++
        [Event.eeprom_write (write_log_address w.eeprom) (log_payload t)] ∧
    (∀ x, (write_log_entry w (t ++ 0 :: junk) (t.length + 1)).eeprom x =
      if write_log_address w.eeprom ≤ x ∧ x < write_log_address w.eeprom + (t.length + 3) then
        (log_payload t).getD (x - write_log_address w.eeprom) 0
      else (if (write_log_scan w.eeprom log_addresses).2 then clear_log w else w).eeprom x) := by
  obtain ⟨k, hk, hk2⟩ := write_log_address_slot w.eeprom
  have ha : write_log_address w.eeprom < 65536 := by omega
  rw [write_log_entry_eq, write_log_frame_text]
  refine ⟨?_, ?_⟩
  · simp only [i2c_write_blocking, write_event_addr _ _ ha]
  · intro x
    simp only [i2c_write_blocking, i2c_write_eeprom_addr _ _ _ ha, log_payload_length]

theorem range_map_prefix (f : Nat → Nat) (payload : List Nat) (n : Nat)
    (h : payload.length ≤ n) (hf : ∀ i, i < payload.length → f i = payload.getD i 0) :
    (List.range n).map f =
      payload ++ (List.range (n - payload.length)).map (fun i => f (payload.length + i)) := by
  apply List.ext_getElem
  · simp; omega
  · intro i h1 h2
    simp only [List.getElem_map, List.getElem_range]
    by_cases hi : i < payload.length
    · rw [List.getElem_append_left hi, hf i hi, List.getD_eq_getElem?_getD,
        List.getElem?_eq_getElem hi]
      rfl
    · rw [List.getElem_append_right (by omega)]
      simp only [List.getElem_map, List.getElem_range]
      congr 1
      omega

/-- Reading the target slot back after the write: the payload, then whatever
the rest of the slot held. -/
theorem read_back_target (w : World) (t junk : List Nat) (h61 : t.length ≤ 61) :
    ∃ rest, read_bytes_from_eeprom (write_log_entry w (t ++ 0 :: junk) (t.length + 1)).eeprom
        (write_log_address w.eeprom) 64 = log_payload t ++ rest := by
  obtain ⟨k, hk, hk2⟩ := write_log_address_slot w.eeprom
  have ha : write_log_address w.eeprom < 65536 := by omega
  unfold read_bytes_from_eeprom
  simp only
  rw [i2c_read_eeprom_addr _ _ _ ha]
  refine ⟨_, range_map_prefix _ (log_payload t) 64 (by rw [log_payload_length]; omega) ?_⟩
  intro i hi
  rw [log_payload_length] at hi
  rw [(write_log_entry_text w t junk).2]
  rw [if_pos (by omega), Nat.add_sub_cancel_left]

/-! ## Lemmas on the stepper -/

theorem i2c_write_blocking_fields (w : World) (src : List Nat) :
    (i2c_write_blocking w src).stepper_state = w.stepper_state ∧
    (i2c_write_blocking w src).stepper_data = w.stepper_data ∧
    (i2c_write_blocking w src).current_step = w.current_step := ⟨rfl, rfl, rfl⟩

theorem clear_log_fold_fields (l : List Nat) : ∀ (w : World),
    (l.foldl (fun w address =>
        i2c_write_blocking w [(address >>> 8) % 256, address &&& 0xFF, 0]) w).stepper_state
      = w.stepper_state ∧
    (l.foldl (fun w address =>
        i2c_write_blocking w [(address >>> 8) % 256, address &&& 0xFF, 0]) w).stepper_data
      = w.stepper_data ∧
    (l.foldl (fun w address =>
        i2c_write_blocking w [(address >>> 8) % 256, address &&& 0xFF, 0]) w).current_step
      = w.current_step := by
  induction l with
  | nil => intro w; exact ⟨rfl, rfl, rfl⟩
  | cons a l ih => intro w; rw [List.foldl_cons]; exact ih _

theorem clear_log_fields (w : World) :
    (clear_log w).stepper_state = w.stepper_state ∧
    (clear_log w).stepper_data = w.stepper_data ∧
    (clear_log w).current_step = w.current_step := by
  unfold clear_log
  exact clear_log_fold_fields log_addresses w

theorem write_log_entry_fields (w : World) (str : List Nat) (length : Nat) :
    (write_log_entry w str length).stepper_state = w.stepper_state ∧
    (write_log_entry w str length).stepper_data = w.stepper_data ∧
    (write_log_entry w str length).current_step = w.current_step := by
  rw [write_log_entry_eq]
  obtain ⟨h1, h2, h3⟩ := i2c_write_blocking_fields
    (if (write_log_scan w.eeprom log_addresses).2 then clear_log w else w)
    (write_log_frame (write_log_address w.eeprom) str length)
  rw [h1, h2, h3]
  by_cases h : (write_log_scan w.eeprom log_addresses).2 = true
  · rw [if_pos h]
    exact clear_log_fields w
  · rw [if_neg h]
    exact ⟨rfl, rfl, rfl⟩

theorem create_log_fields (w : World) (time_us : Nat) (str : List Nat) :
    (create_log w time_us str).stepper_state = w.stepper_state ∧
    (create_log w time_us str).stepper_data = w.stepper_data ∧
    (create_log w time_us str).current_step = w.current_step :=
  write_log_entry_fields w _ _

theorem step_loop_fields (sleep_timer : Nat) (forward : Bool) : ∀ (n : Nat) (w : World),
    (step_loop sleep_timer forward n w).stepper_state = w.stepper_state ∧
    (step_loop sleep_timer forward n w).stepper_data = w.stepper_data ∧
    (step_loop sleep_timer forward n w).eeprom = w.eeprom
  | 0, _ => ⟨rfl, rfl, rfl⟩
  | n + 1, w => by
      rw [step_loop]
      obtain ⟨h1, h2, h3⟩ := step_loop_fields sleep_timer forward n
        (if forward = true then step_forward (set_motor_controllers w sleep_timer)
          else step_backward (set_motor_controllers w sleep_timer))
      rw [h1, h2, h3]
      cases forward <;> exact ⟨rfl, rfl, rfl⟩

theorem run_fields (w : World) (compartments : Nat) :
    (run w compartments).stepper_state = w.stepper_state ∧
    (run w compartments).stepper_data = w.stepper_data ∧
    (run w compartments).eeprom = w.eeprom :=
  step_loop_fields 2 true _ w

theorem edge_loop_fields (sleep_timer : Nat) (now before forward : Bool) :
    ∀ (sensor : List Bool) (w : World) (last : Bool) (steps : Nat) (r : EdgeResult),
    edge_loop sleep_timer now before forward w last steps sensor = some r →
    r.world.stepper_state = w.stepper_state ∧ r.world.stepper_data = w.stepper_data ∧
    r.world.eeprom = w.eeprom
  | [], _, _, _, _, h => by simp [edge_loop] at h
  | [_], _, _, _, _, h => by simp [edge_loop] at h
  | s1 :: s2 :: sensor, w, last, steps, r, h => by
      rw [edge_loop] at h
      by_cases he : (s1 == now && last == before) = true
      · rw [if_pos he] at h
        cases h
        cases forward <;> exact ⟨rfl, rfl, rfl⟩
      · rw [if_neg he] at h
        obtain ⟨h1, h2, h3⟩ := edge_loop_fields sleep_timer now before forward sensor _ _ _ r h
        rw [h1, h2, h3]
        cases forward <;> exact ⟨rfl, rfl, rfl⟩

/-- An edge search has a result exactly on the traces that show the edge;
the state it starts from plays no role. -/
theorem edge_loop_isSome (sleep_timer : Nat) (now before forward : Bool) :
    ∀ (sensor : List Bool) (w : World) (last : Bool) (steps : Nat),
    (edge_loop sleep_timer now before forward w last steps sensor).isSome
      = edge_seen now before last sensor
  | [], _, _, _ => by simp [edge_loop, edge_seen]
  | [_], _, _, _ => by simp [edge_loop, edge_seen]
  | s1 :: s2 :: sensor, w, last, steps => by
      rw [edge_loop, edge_seen]
      by_cases he : (s1 == now && last == before) = true
      · rw [if_pos he, he]
        rfl
      · rw [if_neg he, edge_loop_isSome sleep_timer now before forward sensor]
        rw [Bool.not_eq_true] at he
        rw [he]
        rfl

theorem save_stepper_state_eeprom (w : World) (x : Nat) :
    (save_stepper_state w).eeprom x =
      if x = eeprom_address_stepperstate then w.stepper_state.stepper_stage
      else if x = eeprom_address_stepperstate + 1 then w.stepper_state.current_compartment
      else w.eeprom x := by
  have ha : eeprom_address_stepperstate < 65536 := by decide
  have e : List.take 2 [w.stepper_state.stepper_stage, w.stepper_state.current_compartment]
      = [w.stepper_state.stepper_stage, w.stepper_state.current_compartment] := rfl
  unfold save_stepper_state write_bytes_to_eeprom
  simp only [i2c_write_blocking]
  rw [e, i2c_write_eeprom_addr _ _ _ ha]
  generalize eeprom_address_stepperstate = a
  simp only [List.length_cons, List.length_nil]
  by_cases h0 : x = a
  · subst h0
    rw [if_pos ⟨le_refl _, by omega⟩, Nat.sub_self, if_pos rfl]
    rfl
  · by_cases h1 : x = a + 1
    · subst h1
      rw [if_pos ⟨by omega, by omega⟩, Nat.add_sub_cancel_left, if_neg h0, if_pos rfl]
      rfl
    · rw [if_neg (by omega), if_neg h0, if_neg h1]

theorem save_stepper_state_events (w : World) :
    (save_stepper_state w).events = w.events ++
      [Event.eeprom_write eeprom_address_stepperstate
        [w.stepper_state.stepper_stage, w.stepper_state.current_compartment]] := by
  have ha : eeprom_address_stepperstate < 65536 := by decide
  unfold save_stepper_state write_bytes_to_eeprom
  simp only [i2c_write_blocking]
  rw [write_event_addr _ _ ha]
  rfl

theorem save_stepper_state_fields (w : World) :
    (save_stepper_state w).stepper_state = w.stepper_state ∧
    (save_stepper_state w).stepper_data = w.stepper_data ∧
    (save_stepper_state w).current_step = w.current_step := ⟨rfl, rfl, rfl⟩

theorem read_two_bytes (st : Store) (a : Nat) (h : a < 65536) :
    read_bytes_from_eeprom st a 2 = [st a, st (a + 1)] := by
  unfold read_bytes_from_eeprom
  simp only
  rw [i2c_read_eeprom_addr st a 2 h]
  rfl

/-- The record `save_stepper_state` leaves in the store is the one
`load_stepper_state` reads back. -/
theorem load_save_stepper_state (w : World) :
    (load_stepper_state (save_stepper_state w)).stepper_state = w.stepper_state := by
  have ha : eeprom_address_stepperstate < 65536 := by decide
  unfold load_stepper_state
  simp only
  rw [read_two_bytes _ _ ha, save_stepper_state_eeprom, save_stepper_state_eeprom]
  generalize eeprom_address_stepperstate = a
  rw [List.getD_cons_zero, List.getD_cons_succ, List.getD_cons_zero, if_pos rfl,
    if_neg (Nat.succ_ne_self a), if_pos rfl]

theorem step_loop_events (sleep_timer : Nat) (forward : Bool) : ∀ (n : Nat) (w : World),
    (step_loop sleep_timer forward n w).events =
      w.events ++ step_events sleep_timer forward n w.current_step
  | 0, w => by simp [step_loop, step_events]
  | n + 1, w => by
      rw [step_loop, step_events, step_loop_events sleep_timer forward n]
      cases forward <;>
        simp [step_forward, step_backward, set_motor_controllers]

theorem step_events_length (sleep_timer : Nat) (forward : Bool) : ∀ (n current_step : Nat),
    (step_events sleep_timer forward n current_step).length = n
  | 0, _ => rfl
  | n + 1, _ => by rw [step_events, List.length_cons, step_events_length]

theorem step_events_motor (sleep_timer : Nat) (forward : Bool) : ∀ (n current_step : Nat),
    ∀ e ∈ step_events sleep_timer forward n current_step,
      ∃ pins, e = Event.motor pins sleep_timer
  | 0, _ => by simp [step_events]
  | n + 1, current_step => by
      intro e he
      rw [step_events] at he
      rcases List.mem_cons.mp he with rfl | he
      · exact ⟨_, rfl⟩
      · exact step_events_motor sleep_timer forward n _ e he

theorem run_events (w : World) (compartments : Nat) :
    (run w compartments).events = w.events ++
      step_events 2 true (compartments * w.stepper_data.revolution_steps / 8) w.current_step :=
  step_loop_events 2 true _ w

/-! ## The loop of calibration ends after six passes -/

theorem calibration_case_passes (l : CalibrationLocals) (w : World) (sensor : List Bool)
    (l' : CalibrationLocals) (w' : World) (sensor' : List Bool)
    (hne : l.calibration_stage ≠ .CALIBRATION_FINISHED)
    (h : calibration_case l w sensor = some (l', w', sensor')) :
    calibration_passes_left l' + 1 = calibration_passes_left l := by
  unfold calibration_case at h
  rcases l with ⟨stage, last, sw, rv, round⟩
  cases stage
  · simp only at h
    cases he : edge_loop 2 false true true w last 0 sensor with
    | none => rw [he] at h; simp at h
    | some r =>
      rw [he] at h
      simp only [Option.some.injEq, Prod.mk.injEq] at h
      obtain ⟨rfl, _, _⟩ := h
      simp only [calibration_passes_left]
      split <;> omega
  · simp only at h
    cases he : edge_loop 3 true false true w last (idx2 sw round) sensor with
    | none => rw [he] at h; simp at h
    | some r =>
      rw [he] at h
      simp only [Option.some.injEq, Prod.mk.injEq] at h
      obtain ⟨rfl, _, _⟩ := h
      simp only [calibration_passes_left]
      split <;> omega
  · simp only at h
    cases he : edge_loop 3 false true true w last 0 sensor with
    | none => rw [he] at h; simp at h
    | some r =>
      rw [he] at h
      simp only at h
      by_cases hr : round < 1
      · rw [if_pos hr] at h
        simp only [Option.some.injEq, Prod.mk.injEq] at h
        obtain ⟨rfl, _, _⟩ := h
        have : ¬ (round + 1 < 1) := by omega
        simp only [calibration_passes_left, hr, this, if_true, if_false]
      · rw [if_neg hr] at h
        simp only [Option.some.injEq, Prod.mk.injEq] at h
        obtain ⟨rfl, _, _⟩ := h
        simp only [calibration_passes_left, hr, if_false]
  · simp only [Option.some.injEq, Prod.mk.injEq] at h
    obtain ⟨rfl, _, _⟩ := h
    simp only [calibration_passes_left]
  · exact absurd rfl hne

theorem calibration_loop_passes : ∀ (n : Nat) (l : CalibrationLocals) (w : World)
    (sensor : List Bool), calibration_passes_left l ≤ n →
    calibration_loop n l w sensor = calibration_loop (calibration_passes_left l) l w sensor
  | 0, l, w, sensor, h => by
      have : calibration_passes_left l = 0 := by omega
      rw [this]
  | n + 1, l, w, sensor, h => by
      by_cases hfin : l.calibration_stage = .CALIBRATION_FINISHED
      · have h0 : calibration_passes_left l = 0 := by
          simp only [calibration_passes_left, hfin]
        rw [h0, calibration_loop, calibration_loop, if_pos hfin, if_pos hfin]
      · rw [calibration_loop, if_neg hfin]
        cases hc : calibration_case l w sensor with
        | none =>
          have hpos : calibration_passes_left l ≠ 0 := by
            rcases l with ⟨stage, last, sw, rv, round⟩
            cases stage <;> simp [calibration_passes_left] at hfin ⊢ <;> split <;> omega
          obtain ⟨p, hp⟩ := Nat.exists_eq_succ_of_ne_zero hpos
          rw [hp, calibration_loop, if_neg hfin, hc]
        | some r =>
          obtain ⟨l', w', sensor'⟩ := r
          have hstep := calibration_case_passes l w sensor l' w' sensor' hfin hc
          rw [← hstep, calibration_loop, if_neg hfin, hc]
          simp only
          exact calibration_loop_passes n l' w' sensor' (by omega)

/-- More than six passes through the switch change nothing: the bound used by
`calibration` is the number of passes the source makes. -/
theorem calibration_passes (k : Nat) (last_sensor_value : Bool) (w : World)
    (sensor : List Bool) :
    calibration_loop (6 + k)
        { calibration_stage := .WAY_TO_START, last_sensor_value := last_sensor_value,
          sensor_width_values := (0, 0), revolution_steps_values := (0, 0), round := 0 }
        w sensor =
      calibration_loop 6
        { calibration_stage := .WAY_TO_START, last_sensor_value := last_sensor_value,
          sensor_width_values := (0, 0), revolution_steps_values := (0, 0), round := 0 }
        w sensor :=
  calibration_loop_passes (6 + k) _ w sensor (by simp [calibration_passes_left])

/-! ## The call made by create_log -/

theorem strlen_text (t junk : List Nat) (hnz : ∀ b ∈ t, b ≠ 0) :
    strlen (t ++ 0 :: junk) = t.length := by
  induction t with
  | nil => simp [strlen]
  | cons c t ih =>
    have hc : c ≠ 0 := hnz c (List.mem_cons_self _ _)
    rw [List.cons_append, strlen, if_neg hc, ih (fun b hb => hnz b (List.mem_cons_of_mem _ hb))]
    rfl

theorem digitChar_ne_zero (d : Nat) : (Nat.digitChar d).toNat ≠ 0 := by
  by_cases h : d < 16
  · revert d
    decide
  · unfold Nat.digitChar
    iterate 16 rw [if_neg (by omega)]
    decide

theorem toDigitsCore_ne_zero (b : Nat) : ∀ (fuel n : Nat) (acc : List Char),
    (∀ c ∈ acc, c.toNat ≠ 0) → ∀ c ∈ Nat.toDigitsCore b fuel n acc, c.toNat ≠ 0
  | 0, _, acc, h => by simpa [Nat.toDigitsCore] using h
  | fuel + 1, n, acc, h => by
      rw [Nat.toDigitsCore]
      have hacc : ∀ c ∈ Nat.digitChar (n % b) :: acc, c.toNat ≠ 0 := by
        intro c hc
        rcases List.mem_cons.mp hc with rfl | hc
        · exact digitChar_ne_zero _
        · exact h c hc
      split
      · exact hacc
      · exact toDigitsCore_ne_zero b fuel _ _ hacc

theorem sprintf_text_ne_zero (actual_time : Nat) (str : List Nat) (hnz : ∀ b ∈ str, b ≠ 0) :
    ∀ b ∈ sprintf_text actual_time str, b ≠ 0 := by
  intro b hb
  unfold sprintf_text at hb
  simp only [List.mem_append, List.mem_map, List.mem_cons, List.mem_singleton,
    List.not_mem_nil, or_false] at hb
  rcases hb with ((rfl | ⟨c, hc, rfl⟩) | rfl | rfl) | hb
  · decide
  · exact toDigitsCore_ne_zero 10 _ _ [] (by simp) c hc
  · decide
  · decide
  · exact hnz b hb

/-- The call `write_log_entry(entry, strlen(entry) + 1)` of `create_log` passes
the formatted text, its terminator, and the length of the text plus one. -/
theorem create_log_call (w : World) (time_us : Nat) (str : List Nat)
    (hnz : ∀ b ∈ str, b ≠ 0) :
    create_log w time_us str =
      write_log_entry w
        (sprintf_text (time_us / 1000000) str ++
          0 :: List.replicate (64 - ((sprintf_text (time_us / 1000000) str).length + 1)) 0)
        ((sprintf_text (time_us / 1000000) str).length + 1) := by
  have e : sprintf_entry (time_us / 1000000) str =
      sprintf_text (time_us / 1000000) str ++
        0 :: List.replicate (64 - ((sprintf_text (time_us / 1000000) str).length + 1)) 0 := by
    simp [sprintf_entry]
  unfold create_log
  simp only
  rw [e, strlen_text _ _ (sprintf_text_ne_zero _ _ hnz)]

/-! ## crc16 as a fold -/

theorem xor4_mod_65536 (a b c d : Nat) :
    (a ^^^ (b % 65536) ^^^ (c % 65536) ^^^ (d % 65536)) % 65536 = (a ^^^ b ^^^ c ^^^ d) % 65536 := by
  apply Nat.eq_of_testBit_eq
  intro i
  have e : 65536 = 2 ^ 16 := by norm_num
  rw [e]
  simp only [Nat.testBit_mod_two_pow, Nat.testBit_xor]
  by_cases h : i < 16 <;> simp [h]

theorem crc16_body_eq_recurrence (crc b : Nat) (hc : crc < 65536) (hb : b < 256) :
    crc16_body crc b = crc16_recurrence crc b := by
  have hx0 : (crc >>> 8) ^^^ b < 256 := by
    have h1 : crc >>> 8 < 2 ^ 8 := by rw [Nat.shiftRight_eq_div_pow]; omega
    have h2 : b < 2 ^ 8 := by omega
    have := Nat.xor_lt_two_pow h1 h2
    omega
  unfold crc16_body crc16_recurrence
  simp only
  rw [Nat.mod_eq_of_lt hx0, xor4_mod_65536]

theorem crc16_loop_eq_foldl : ∀ (s : List Nat) (crc : Nat), crc < 65536 →
    (∀ b ∈ s, b < 256) → crc16_loop s s.length crc = s.foldl crc16_recurrence crc
  | [], _, _, _ => rfl
  | b :: s, crc, hc, hs => by
      rw [List.length_cons, crc16_loop, List.foldl_cons,
        crc16_body_eq_recurrence crc b hc (hs b (List.mem_cons_self _ _))]
      have hlt : crc16_recurrence crc b < 65536 := by
        unfold crc16_recurrence
        exact Nat.mod_lt _ (by norm_num)
      exact crc16_loop_eq_foldl s _ hlt (fun c hc => hs c (List.mem_cons_of_mem _ hc))

/-! ## Lemmas on the structured records -/

theorem and_255 (a : Nat) : a &&& 0xFF = a % 256 := by
  have := Nat.and_pow_two_sub_one_eq_mod a 8
  simpa using this

theorem be16_decode (v : Nat) (h : v < 65536) :
    ((((v >>> 8) % 256) <<< 8) ||| ((v &&& 0xFF) % 256)) % 65536 = v := by
  have h1 : ((v >>> 8) % 256) <<< 8 = 2 ^ 8 * ((v >>> 8) % 256) := by
    rw [Nat.shiftLeft_eq, Nat.mul_comm]
  have h2 : (v &&& 0xFF) % 256 < 2 ^ 8 := Nat.mod_lt _ (by norm_num)
  rw [h1, ← Nat.mul_add_lt_is_or h2, and_255, Nat.shiftRight_eq_div_pow]
  omega

theorem read_four_bytes (st : Store) (a : Nat) (h : a < 65536) :
    read_bytes_from_eeprom st a 4 = [st a, st (a + 1), st (a + 2), st (a + 3)] := by
  unfold read_bytes_from_eeprom
  simp only
  rw [i2c_read_eeprom_addr st a 4 h]
  rfl

theorem save_stepper_data_eeprom (w : World) (x : Nat) :
    (save_stepper_data w).eeprom x =
      if eeprom_address_stepperdata ≤ x ∧ x < eeprom_address_stepperdata + 4 then
        [(w.stepper_data.revolution_steps >>> 8) % 256,
         (w.stepper_data.revolution_steps &&& 0xFF) % 256,
         (w.stepper_data.sensor_width >>> 8) % 256,
         (w.stepper_data.sensor_width &&& 0xFF) % 256].getD (x - eeprom_address_stepperdata) 0
      else w.eeprom x := by
  have ha : eeprom_address_stepperdata < 65536 := by decide
  unfold save_stepper_data write_bytes_to_eeprom
  simp only [i2c_write_blocking]
  rw [show ∀ a b c d : Nat, List.take 4 [a, b, c, d] = [a, b, c, d] from fun _ _ _ _ => rfl,
    i2c_write_eeprom_addr _ _ _ ha]
  rfl

theorem save_stepper_data_events (w : World) :
    (save_stepper_data w).events = w.events ++
      [Event.eeprom_write eeprom_address_stepperdata
        [(w.stepper_data.revolution_steps >>> 8) % 256,
         (w.stepper_data.revolution_steps &&& 0xFF) % 256,
         (w.stepper_data.sensor_width >>> 8) % 256,
         (w.stepper_data.sensor_width &&& 0xFF) % 256]] := by
  have ha : eeprom_address_stepperdata < 65536 := by decide
  unfold save_stepper_data write_bytes_to_eeprom
  simp only [i2c_write_blocking]
  rw [write_event_addr _ _ ha]
  rfl

theorem save_stepper_data_fields (w : World) :
    (save_stepper_data w).stepper_state = w.stepper_state ∧
    (save_stepper_data w).stepper_data = w.stepper_data ∧
    (save_stepper_data w).current_step = w.current_step := ⟨rfl, rfl, rfl⟩

/-- The record `save_stepper_data` leaves in the store is the one
`load_stepper_data` reads back, for 16-bit field values. -/
theorem load_save_stepper_data (w : World) (h1 : w.stepper_data.revolution_steps < 65536)
    (h2 : w.stepper_data.sensor_width < 65536) :
    (load_stepper_data (save_stepper_data w)).stepper_data = w.stepper_data := by
  have ha : eeprom_address_stepperdata < 65536 := by decide
  unfold load_stepper_data
  simp only
  rw [read_four_bytes _ _ ha, save_stepper_data_eeprom, save_stepper_data_eeprom,
    save_stepper_data_eeprom, save_stepper_data_eeprom]
  generalize eeprom_address_stepperdata = a
  iterate 4 rw [if_pos (by omega)]
  rw [Nat.sub_self]
  iterate 3 rw [Nat.add_sub_cancel_left]
  simp only [List.getD_cons_zero, List.getD_cons_succ]
  rw [be16_decode _ h1, be16_decode _ h2]

/-! ## Lemmas on initialize_stepper_data -/

theorem load_stepper_state_eq (w : World) :
    (load_stepper_state w).stepper_state =
      { stepper_stage := w.eeprom eeprom_address_stepperstate,
        current_compartment := w.eeprom (eeprom_address_stepperstate + 1) } := by
  have ha : eeprom_address_stepperstate < 65536 := by decide
  unfold load_stepper_state
  simp only
  rw [read_two_bytes _ _ ha]
  rfl

theorem load_stepper_data_eq (w : World) :
    (load_stepper_data w).stepper_data =
      { revolution_steps :=
          ((w.eeprom eeprom_address_stepperdata <<< 8) |||
            w.eeprom (eeprom_address_stepperdata + 1)) % 65536,
        sensor_width :=
          ((w.eeprom (eeprom_address_stepperdata + 2) <<< 8) |||
            w.eeprom (eeprom_address_stepperdata + 3)) % 65536 } := by
  have ha : eeprom_address_stepperdata < 65536 := by decide
  unfold load_stepper_data
  simp only
  rw [read_four_bytes _ _ ha]
  rfl

theorem initialize_stepper_data_eq (w : World) :
    (initialize_stepper_data w).1 = decide (w.eeprom eeprom_address_stepperstate ≠ INITIAL) ∧
    (initialize_stepper_data w).2.stepper_state =
      { stepper_stage := w.eeprom eeprom_address_stepperstate,
        current_compartment := w.eeprom (eeprom_address_stepperstate + 1) } ∧
    (initialize_stepper_data w).2.stepper_data = (load_stepper_data w).stepper_data ∧
    (initialize_stepper_data w).2.eeprom = w.eeprom ∧
    (initialize_stepper_data w).2.events = w.events := by
  have h := load_stepper_state_eq (load_stepper_data w)
  have he : (load_stepper_data w).eeprom = w.eeprom := rfl
  rw [he] at h
  unfold initialize_stepper_data
  simp only
  rw [h]
  exact ⟨rfl, rfl, rfl, rfl, rfl⟩

theorem step_loop_current_step (sleep_timer : Nat) (forward : Bool) : ∀ (n : Nat) (w : World),
    (step_loop sleep_timer forward n w).current_step =
      (fun c => if forward then next_step c else previous_step c)^[n] w.current_step
  | 0, _ => rfl
  | n + 1, w => by
      rw [step_loop, step_loop_current_step sleep_timer forward n, Function.iterate_succ]
      cases forward <;> rfl

/-! ## calibration in terms of the sensor trace -/

theorem edge_scan_pos (now before : Bool) : ∀ (sensor : List Bool) (last : Bool)
    (r : Nat × Bool × List Bool), edge_scan now before last sensor = some r → 1 ≤ r.1
  | [], _, _, h => by simp [edge_scan] at h
  | [_], _, _, h => by simp [edge_scan] at h
  | s1 :: s2 :: sensor, last, r, h => by
      rw [edge_scan] at h
      by_cases he : (s1 == now && last == before) = true
      · rw [if_pos he] at h
        cases h
        exact le_refl _
      · rw [if_neg he] at h
        cases h2 : edge_scan now before s2 sensor with
        | none => rw [h2] at h; simp at h
        | some q =>
          rw [h2] at h
          simp only [Option.map_some', Option.some.injEq] at h
          rw [← h]
          exact Nat.le_add_left 1 q.1

/-- An edge search of the program, in terms of what it takes from the trace:
it makes as many motor steps as iterations and adds them to its counter. -/
theorem edge_loop_eq (sleep_timer : Nat) (now before forward : Bool) :
    ∀ (sensor : List Bool) (w : World) (last : Bool) (steps : Nat),
    edge_loop sleep_timer now before forward w last steps sensor =
      (edge_scan now before last sensor).map
        (fun r => { world := step_loop sleep_timer forward r.1 w, last_sensor_value := r.2.1,
                    steps := steps + r.1, sensor := r.2.2 })
  | [], _, _, _ => by simp [edge_loop, edge_scan]
  | [_], _, _, _ => by simp [edge_loop, edge_scan]
  | s1 :: s2 :: sensor, w, last, steps => by
      rw [edge_loop, edge_scan]
      by_cases he : (s1 == now && last == before) = true
      · rw [if_pos he, if_pos he]
        rfl
      · rw [if_neg he, if_neg he, edge_loop_eq sleep_timer now before forward sensor,
          Option.map_map]
        congr 1
        funext r
        simp only [Function.comp_apply, step_loop, Nat.add_assoc, Nat.add_comm 1 r.1]
theorem calibration_loop_succ (passes : Nat) (l : CalibrationLocals) (w : World)
    (sensor : List Bool) (h : l.calibration_stage ≠ .CALIBRATION_FINISHED) :
    calibration_loop (passes + 1) l w sensor =
      (calibration_case l w sensor).bind (fun r => calibration_loop passes r.1 r.2.1 r.2.2) := by
  rw [calibration_loop, if_neg h]
  cases calibration_case l w sensor with
  | none => rfl
  | some r => rfl

theorem calibration_case_start (last : Bool) (sw rv : Nat × Nat) (round : Nat) (w : World)
    (sensor : List Bool) :
    calibration_case
      { calibration_stage := .WAY_TO_START, last_sensor_value := last,
        sensor_width_values := sw, revolution_steps_values := rv, round := round } w sensor =
    (edge_scan false true last sensor).map (fun r =>
      ({ calibration_stage := .CALCULATE_SENSOR_WIDTH, last_sensor_value := r.2.1,
         sensor_width_values := sw, revolution_steps_values := rv, round := round },
       step_loop 2 true r.1 w, r.2.2)) := by
  unfold calibration_case
  simp only [edge_loop_eq]
  cases edge_scan false true last sensor <;> rfl

theorem calibration_case_sensor_width (last : Bool) (sw rv : Nat × Nat) (round : Nat)
    (w : World) (sensor : List Bool) :
    calibration_case
      { calibration_stage := .CALCULATE_SENSOR_WIDTH, last_sensor_value := last,
        sensor_width_values := sw, revolution_steps_values := rv, round := round } w sensor =
    (edge_scan true false last sensor).map (fun r =>
      ({ calibration_stage := .CALCULATE_NON_SENSOR_WIDTH, last_sensor_value := r.2.1,
         sensor_width_values := set2 sw round (idx2 sw round + r.1),
         revolution_steps_values := rv, round := round },
       step_loop 3 true r.1 w, r.2.2)) := by
  unfold calibration_case
  simp only [edge_loop_eq]
  cases edge_scan true false last sensor <;> rfl

theorem calibration_case_non_sensor_width (last : Bool) (sw rv : Nat × Nat) (round : Nat)
    (w : World) (sensor : List Bool) :
    calibration_case
      { calibration_stage := .CALCULATE_NON_SENSOR_WIDTH, last_sensor_value := last,
        sensor_width_values := sw, revolution_steps_values := rv, round := round } w sensor =
    (edge_scan false true last sensor).map (fun r =>
      ({ calibration_stage :=
           if round < 1 then .CALCULATE_SENSOR_WIDTH else .WAY_TO_ZERO,
         last_sensor_value := r.2.1,
         sensor_width_values := sw,
         revolution_steps_values := set2 rv round (0 + r.1 + idx2 sw round),
         round := if round < 1 then round + 1 else round },
       step_loop 3 true r.1 w, r.2.2)) := by
  unfold calibration_case
  simp only [edge_loop_eq]
  cases edge_scan false true last sensor with
  | none => rfl
  | some r =>
    simp only [Option.map_some']
    by_cases h : round < 1
    · simp only [h, if_true]
    · simp only [h, if_false]

/-- The whole of `calibration` on a trace: it has a result exactly when the
five edge searches end, and the result is `calibration_final` for the step
counts of the trace. -/
theorem calibration_eq (w : World) (time_us : Nat) (sensor : List Bool) :
    calibration w time_us sensor =
      (calibration_trace sensor).map (fun m => (calibration_final w time_us m, m.rest)) := by
  unfold calibration
  cases sensor with
  | nil => rfl
  | cons s0 sensor =>
    simp only [calibration_trace]
    rw [calibration_loop_succ _ _ _ _ (by simp), calibration_case_start]
    cases ha : edge_scan false true s0 sensor with
    | none => rfl
    | some a =>
      simp only [Option.map_some', Option.some_bind]
      rw [calibration_loop_succ _ _ _ _ (by simp), calibration_case_sensor_width]
      cases hb : edge_scan true false a.2.1 a.2.2 with
      | none => rfl
      | some b =>
        simp only [Option.map_some', Option.some_bind]
        rw [calibration_loop_succ _ _ _ _ (by simp), calibration_case_non_sensor_width]
        cases hc : edge_scan false true b.2.1 b.2.2 with
        | none => rfl
        | some c =>
          simp only [Option.map_some', Option.some_bind, Nat.lt_one_iff, if_true]
          rw [calibration_loop_succ _ _ _ _ (by simp), calibration_case_sensor_width]
          cases hd : edge_scan true false c.2.1 c.2.2 with
          | none => rfl
          | some d =>
            simp only [Option.map_some', Option.some_bind]
            rw [calibration_loop_succ _ _ _ _ (by simp), calibration_case_non_sensor_width]
            cases he : edge_scan false true d.2.1 d.2.2 with
            | none => rfl
            | some e =>
              simp only [Option.map_some', Option.some_bind, Nat.lt_one_iff]
              rw [calibration_loop_succ _ _ _ _ (by simp)]
              simp [calibration_case, calibration_loop, calibration_final, calibration_measured,
                calibration_begin, idx2, set2]

/-! ## The trace of create_log -/

theorem write_log_entry_events (w : World) (t junk : List Nat) :
    (write_log_entry w (t ++ 0 :: junk) (t.length + 1)).events =
      w.events ++ log_events w.eeprom t := by
  rw [(write_log_entry_text w t junk).1]
  unfold log_events
  by_cases h : (write_log_scan w.eeprom log_addresses).2 = true
  · rw [if_pos h, if_pos h, clear_log_events, List.append_assoc]
  · rw [if_neg h, if_neg h, List.nil_append]

theorem create_log_events (w : World) (time_us : Nat) (str : List Nat)
    (hnz : ∀ b ∈ str, b ≠ 0) :
    (create_log w time_us str).events =
      w.events ++ log_events w.eeprom (sprintf_text (time_us / 1000000) str) := by
  rw [create_log_call w time_us str hnz, write_log_entry_events]

theorem sprintf_text_length (time_us : Nat) (str : List Nat) (ht : time_us < 2 ^ 64) :
    (sprintf_text (time_us / 1000000) str).length ≤ 17 + str.length := by
  have hd : (Nat.toDigits 10 (time_us / 1000000)).length ≤ 14 := by
    unfold Nat.toDigits
    exact Nat.toDigitsCore_length 10 (by decide) _ _ 14 (by omega) (by decide)
  unfold sprintf_text
  simp only [List.length_append, List.length_map, List.length_cons, List.length_nil]
  omega

/-- Every write of a log call stays inside the log region when the text has
at most 61 bytes: it touches neither structured record. -/
theorem log_events_region (st : Store) (t : List Nat) (h61 : t.length ≤ 61) :
    ∀ e ∈ log_events st t, ∃ a p, e = Event.eeprom_write a p ∧ a + p.length ≤ 2048 := by
  intro e he
  unfold log_events at he
  rcases List.mem_append.mp he with he | he
  · by_cases h : (write_log_scan st log_addresses).2 = true
    · rw [if_pos h] at he
      obtain ⟨a, ha, rfl⟩ := List.mem_map.mp he
      have := (mem_log_addresses a).mp ha
      exact ⟨a, [0], rfl, by simp only [List.length_singleton]; omega⟩
    · rw [if_neg h] at he
      exact absurd he (List.not_mem_nil _)
  · rw [List.mem_singleton] at he
    obtain ⟨k, hk, hk2⟩ := write_log_address_slot st
    exact ⟨_, _, he, by rw [hk2, log_payload_length]; omega⟩

theorem cstring_started_ne_zero :
    (∀ b ∈ cstring "Calibration started", b ≠ 0) ∧
    (∀ b ∈ cstring "Recalibration started", b ≠ 0) := by
  decide

/-! ## The trace and the records of calibration -/

theorem calibration_begin_events (w : World) (time_us : Nat) :
    (calibration_begin w time_us).events =
      w.events ++ log_events w.eeprom
        (sprintf_text (time_us / 1000000) (cstring "Calibration started")) := by
  have h := create_log_events w time_us (cstring "Calibration started")
    cstring_started_ne_zero.1
  unfold calibration_begin
  simp only
  rw [h]

theorem calibration_begin_fields (w : World) (time_us : Nat) :
    (calibration_begin w time_us).stepper_state = w.stepper_state ∧
    (calibration_begin w time_us).current_step = w.current_step := by
  obtain ⟨h1, _, h3⟩ := create_log_fields w time_us (cstring "Calibration started")
  unfold calibration_begin
  simp only
  rw [h1, h3]
  exact ⟨rfl, rfl⟩

/-- The motor outputs of the five edge searches of a calibration run that
starts at sequence index `current_step`. -/
theorem calibration_measured_events (w : World) (time_us : Nat) (m : CalibrationTrace) :
    ∃ motors : List Event,
      (calibration_measured w time_us m).events = (calibration_begin w time_us).events ++ motors ∧
      motors.length = m.start + m.sw0 + m.nsw0 + m.sw1 + m.nsw1 ∧
      (∀ e ∈ motors, ∃ pins sleep_timer, e = Event.motor pins sleep_timer) := by
  unfold calibration_measured
  simp only [step_loop_events]
  refine ⟨_, by rw [List.append_assoc, List.append_assoc, List.append_assoc,
    List.append_assoc], ?_, ?_⟩
  · simp only [List.length_append, step_events_length]
    omega
  · intro e he
    simp only [List.mem_append] at he
    rcases he with he | he | he | he | he
    · obtain ⟨p, hp⟩ := step_events_motor _ _ _ _ e he
      exact ⟨p, _, hp⟩
    · obtain ⟨p, hp⟩ := step_events_motor _ _ _ _ e he
      exact ⟨p, _, hp⟩
    · obtain ⟨p, hp⟩ := step_events_motor _ _ _ _ e he
      exact ⟨p, _, hp⟩
    · obtain ⟨p, hp⟩ := step_events_motor _ _ _ _ e he
      exact ⟨p, _, hp⟩
    · obtain ⟨p, hp⟩ := step_events_motor _ _ _ _ e he
      exact ⟨p, _, hp⟩

theorem calibration_measured_fields (w : World) (time_us : Nat) (m : CalibrationTrace) :
    (calibration_measured w time_us m).stepper_data =
      { revolution_steps := (((m.nsw0 + m.sw0) + (m.nsw1 + m.sw1)) / 2) % 65536,
        sensor_width := ((m.sw0 + m.sw1) / 2) % 65536 } ∧
    (calibration_measured w time_us m).stepper_state = w.stepper_state := by
  refine ⟨rfl, ?_⟩
  unfold calibration_measured
  simp only [(step_loop_fields _ _ _ _).1]
  exact (calibration_begin_fields w time_us).1

/-- The end of `calibration`: parking steps, the calibration record, the
runtime-state record. -/
theorem calibration_final_events (w : World) (time_us : Nat) (m : CalibrationTrace) :
    (calibration_final w time_us m).events =
      (calibration_measured w time_us m).events
        ++ step_events 3 true ((((m.sw0 + m.sw1) / 2) % 65536) / 2)
             (calibration_measured w time_us m).current_step
        ++ [Event.eeprom_write eeprom_address_stepperdata
              [((((m.nsw0 + m.sw0) + (m.nsw1 + m.sw1)) / 2) % 65536) >>> 8,
               ((((m.nsw0 + m.sw0) + (m.nsw1 + m.sw1)) / 2) % 65536) &&& 0xFF,
               (((m.sw0 + m.sw1) / 2) % 65536) >>> 8,
               (((m.sw0 + m.sw1) / 2) % 65536) &&& 0xFF]]
        ++ [Event.eeprom_write eeprom_address_stepperstate [NORMAL_OPERATION, 0]] := by
  have hd := (calibration_measured_fields w time_us m).1
  have e1 : ∀ v : Nat, ((v % 65536) >>> 8) % 256 = (v % 65536) >>> 8 := by
    intro v
    rw [Nat.shiftRight_eq_div_pow]
    omega
  have e3 : ∀ v : Nat, (v &&& 0xFF) % 256 = v &&& 0xFF := by
    intro v
    rw [and_255, Nat.mod_mod]
  unfold calibration_final
  simp only
  rw [save_stepper_state_events]
  simp only
  rw [save_stepper_data_events, step_loop_events, (step_loop_fields _ _ _ _).2.1, hd]
  simp only [e1, e3]

theorem calibration_final_fields (w : World) (time_us : Nat) (m : CalibrationTrace) :
    (calibration_final w time_us m).stepper_data =
      { revolution_steps := (((m.nsw0 + m.sw0) + (m.nsw1 + m.sw1)) / 2) % 65536,
        sensor_width := ((m.sw0 + m.sw1) / 2) % 65536 } ∧
    (calibration_final w time_us m).stepper_state =
      { stepper_stage := NORMAL_OPERATION, current_compartment := 0 } := by
  have hd := (calibration_measured_fields w time_us m).1
  unfold calibration_final
  simp only
  refine ⟨?_, rfl⟩
  rw [(save_stepper_state_fields _).2.1]
  simp only
  rw [(save_stepper_data_fields _).2.1, (step_loop_fields _ _ _ _).2.1, hd]

/-- The records `calibration` leaves in the store are the ones it holds in
memory at its end. -/
theorem calibration_final_persisted (w : World) (time_us : Nat) (m : CalibrationTrace) :
    (load_stepper_state (calibration_final w time_us m)).stepper_state =
      (calibration_final w time_us m).stepper_state ∧
    (load_stepper_data (calibration_final w time_us m)).stepper_data =
      (calibration_final w time_us m).stepper_data := by
  have hd := (calibration_measured_fields w time_us m).1
  have hsep : eeprom_address_stepperdata + 4 ≤ eeprom_address_stepperstate := by decide
  have ha : eeprom_address_stepperdata < 65536 := by decide
  rw [(calibration_final_fields w time_us m).1]
  unfold calibration_final
  simp only
  refine ⟨load_save_stepper_state _, ?_⟩
  have hload : ∀ (v : World),
      (load_stepper_data (save_stepper_state v)).stepper_data = (load_stepper_data v).stepper_data := by
    intro v
    rw [load_stepper_data_eq, load_stepper_data_eq, save_stepper_state_eeprom,
      save_stepper_state_eeprom, save_stepper_state_eeprom, save_stepper_state_eeprom]
    generalize eeprom_address_stepperdata = a at hsep
    generalize eeprom_address_stepperstate = b at hsep
    iterate 8 rw [if_neg (by omega)]
  rw [hload]
  have hstate : ∀ (v : World) (s : stepperstate),
      (load_stepper_data { v with stepper_state := s }).stepper_data
        = (load_stepper_data v).stepper_data := fun _ _ => rfl
  rw [hstate, load_save_stepper_data _ (by
        rw [(step_loop_fields _ _ _ _).2.1, hd]; exact Nat.mod_lt _ (by norm_num)) (by
        rw [(step_loop_fields _ _ _ _).2.1, hd]; exact Nat.mod_lt _ (by norm_num)),
    (step_loop_fields _ _ _ _).2.1, hd]

theorem calibration_trace_pos (sensor : List Bool) (m : CalibrationTrace)
    (h : calibration_trace sensor = some m) :
    1 ≤ m.start ∧ 1 ≤ m.sw0 ∧ 1 ≤ m.nsw0 ∧ 1 ≤ m.sw1 ∧ 1 ≤ m.nsw1 := by
  cases sensor with
  | nil => simp [calibration_trace] at h
  | cons s0 sensor =>
    simp only [calibration_trace] at h
    cases ha : edge_scan false true s0 sensor with
    | none => rw [ha] at h; simp at h
    | some a =>
      rw [ha] at h
      simp only [Option.some_bind] at h
      cases hb : edge_scan true false a.2.1 a.2.2 with
      | none => rw [hb] at h; simp at h
      | some b =>
        rw [hb] at h
        simp only [Option.some_bind] at h
        cases hc : edge_scan false true b.2.1 b.2.2 with
        | none => rw [hc] at h; simp at h
        | some c =>
          rw [hc] at h
          simp only [Option.some_bind] at h
          cases hd : edge_scan true false c.2.1 c.2.2 with
          | none => rw [hd] at h; simp at h
          | some d =>
            rw [hd] at h
            simp only [Option.some_bind] at h
            cases he : edge_scan false true d.2.1 d.2.2 with
            | none => rw [he] at h; simp at h
            | some e =>
              rw [he] at h
              simp only [Option.map_some', Option.some.injEq] at h
              rw [← h]
              exact ⟨edge_scan_pos _ _ _ _ _ ha, edge_scan_pos _ _ _ _ _ hb,
                edge_scan_pos _ _ _ _ _ hc, edge_scan_pos _ _ _ _ _ hd,
                edge_scan_pos _ _ _ _ _ he⟩

/-! ## recalibration in terms of the sensor trace -/

theorem i2c_write_blocking_apply_event (w : World) (src : List Nat) :
    (i2c_write_blocking w src).eeprom = apply_event w.eeprom (write_event src) := rfl

theorem edge_scan_isSome (now before : Bool) : ∀ (sensor : List Bool) (last : Bool),
    (edge_scan now before last sensor).isSome = edge_seen now before last sensor
  | [], _ => by simp [edge_scan, edge_seen]
  | [_], _ => by simp [edge_scan, edge_seen]
  | s1 :: s2 :: sensor, last => by
      rw [edge_scan, edge_seen]
      by_cases he : (s1 == now && last == before) = true
      · rw [if_pos he, he]
        rfl
      · rw [if_neg he, Option.isSome_map', edge_scan_isSome now before sensor s2]
        rw [Bool.not_eq_true] at he
        rw [he]
        rfl

theorem recalibration_begin_fields (w : World) (time_us : Nat) :
    (recalibration_begin w time_us).stepper_state =
      { w.stepper_state with stepper_stage := RECALIBRATING } ∧
    (recalibration_begin w time_us).stepper_data = w.stepper_data ∧
    (recalibration_begin w time_us).current_step = w.current_step := by
  obtain ⟨h1, h2, h3⟩ := create_log_fields
    (save_stepper_state
      { w with stepper_state := { w.stepper_state with stepper_stage := RECALIBRATING } })
    time_us (cstring "Recalibration started")
  unfold recalibration_begin
  simp only
  rw [h1, h2, h3]
  exact ⟨rfl, rfl, rfl⟩

theorem recalibration_moved_fields (w : World) (time_us : Nat) (k : Nat) :
    (recalibration_moved w time_us k).stepper_state =
      { w.stepper_state with stepper_stage := RECALIBRATING } ∧
    (recalibration_moved w time_us k).stepper_data = w.stepper_data := by
  unfold recalibration_moved
  simp only
  rw [(run_fields _ _).1, (run_fields _ _).2.1, (step_loop_fields _ _ _ _).1,
    (step_loop_fields _ _ _ _).2.1, (step_loop_fields _ _ _ _).1,
    (step_loop_fields _ _ _ _).2.1]
  exact ⟨(recalibration_begin_fields w time_us).1, (recalibration_begin_fields w time_us).2.1⟩

/-- The whole of `recalibration` on a trace: it has a result exactly when the
backward edge search ends, after `k` steps say, and the result is the moved
state with the final runtime state saved. -/
theorem recalibration_eq (w : World) (time_us : Nat) (s0 : Bool) (sensor : List Bool) :
    recalibration w time_us (s0 :: sensor) =
      (edge_scan false true s0 sensor).map (fun r =>
        (decide ((w.stepper_state.current_compartment + 1) % 256 ≤ 7),
         save_stepper_state
           { recalibration_moved w time_us r.1 with
             stepper_state := recalibration_state w.stepper_state.current_compartment },
         r.2.2)) := by
  unfold recalibration
  simp only [edge_loop_eq]
  cases hr : edge_scan false true s0 sensor with
  | none => rfl
  | some r =>
    simp only [Option.map_some']
    have hb := (recalibration_begin_fields w time_us).1
    unfold recalibration_begin at hb
    simp only at hb
    have hc : (step_loop 3 false
        ((step_loop 2 false r.1 (recalibration_begin w time_us)).stepper_data.sensor_width / 2)
        (step_loop 2 false r.1 (recalibration_begin w time_us))).stepper_state.current_compartment
          = w.stepper_state.current_compartment := by
      rw [(step_loop_fields _ _ _ _).1, (step_loop_fields _ _ _ _).1,
        (recalibration_begin_fields w time_us).1]
    unfold recalibration_begin at hc
    simp only at hc
    simp only [hc]
    by_cases hle : (w.stepper_state.current_compartment + 1) % 256 ≤ 7
    · simp only [hle, if_true, decide_True, recalibration_state, recalibration_moved,
        recalibration_begin, hc]
    · simp only [hle, if_false, decide_False, recalibration_state, recalibration_moved,
        recalibration_begin, hc]

theorem replay_untouched : ∀ (events : List Event) (st : Store),
    (∀ e ∈ events, (∃ pins sleep_timer, e = Event.motor pins sleep_timer) ∨
      ∃ a p, e = Event.eeprom_write a p ∧ a + p.length ≤ 2048) →
    ∀ x, 2048 ≤ x → replay st events x = st x
  | [], _, _, _, _ => rfl
  | e :: events, st, h, x, hx => by
      unfold replay
      rw [List.foldl_cons]
      have ih := replay_untouched events (apply_event st e)
        (fun e' he' => h e' (List.mem_cons_of_mem _ he')) x hx
      unfold replay at ih
      rw [ih]
      rcases h e (List.mem_cons_self _ _) with ⟨pins, t, rfl⟩ | ⟨a, p, rfl, hap⟩
      · rfl
      · simp only [apply_event]
        rw [if_neg (by omega)]

theorem recalibration_begin_events (w : World) (time_us : Nat) :
    (recalibration_begin w time_us).events =
      w.events
        ++ [Event.eeprom_write eeprom_address_stepperstate
              [RECALIBRATING, w.stepper_state.current_compartment]]
        ++ log_events
             (save_stepper_state
               { w with stepper_state :=
                   { w.stepper_state with stepper_stage := RECALIBRATING } }).eeprom
             (sprintf_text (time_us / 1000000) (cstring "Recalibration started")) := by
  have h := create_log_events
    (save_stepper_state
      { w with stepper_state := { w.stepper_state with stepper_stage := RECALIBRATING } })
    time_us (cstring "Recalibration started") cstring_started_ne_zero.2
  unfold recalibration_begin
  simp only
  rw [h, save_stepper_state_events]

theorem recalibration_moved_events (w : World) (time_us : Nat) (k : Nat) :
    ∃ motors : List Event,
      (recalibration_moved w time_us k).events =
        (recalibration_begin w time_us).events ++ motors ∧
      (∀ e ∈ motors, ∃ pins sleep_timer, e = Event.motor pins sleep_timer) ∧
      motors.length = k + w.stepper_data.sensor_width / 2
        + (w.stepper_state.current_compartment + 1) * w.stepper_data.revolution_steps / 8 := by
  have hd := (recalibration_begin_fields w time_us).2.1
  have hs := (recalibration_begin_fields w time_us).1
  unfold recalibration_moved
  simp only
  rw [run_events, step_loop_events, step_loop_events]
  refine ⟨_, by rw [List.append_assoc, List.append_assoc], ?_, ?_⟩
  · intro e he
    simp only [List.mem_append] at he
    rcases he with he | he | he
    · obtain ⟨p, hp⟩ := step_events_motor _ _ _ _ e he
      exact ⟨p, _, hp⟩
    · obtain ⟨p, hp⟩ := step_events_motor _ _ _ _ e he
      exact ⟨p, _, hp⟩
    · obtain ⟨p, hp⟩ := step_events_motor _ _ _ _ e he
      exact ⟨p, _, hp⟩
  · simp only [List.length_append, step_events_length, (step_loop_fields _ _ _ _).1,
      (step_loop_fields _ _ _ _).2.1, hd, hs]
    omega

/-! ## Counting steps -/

theorem motor_count_append (a b : List Event) :
    motor_count (a ++ b) = motor_count a + motor_count b := by
  unfold motor_count
  exact List.countP_append _ _ _

theorem motor_count_step_events (sleep_timer : Nat) (forward : Bool) :
    ∀ (n current_step : Nat), motor_count (step_events sleep_timer forward n current_step) = n
  | 0, _ => rfl
  | n + 1, current_step => by
      have ih := motor_count_step_events sleep_timer forward n
        (if forward then next_step current_step else previous_step current_step)
      unfold motor_count at ih ⊢
      rw [step_events, List.countP_cons, ih]
      rfl

theorem motor_count_run (w : World) (n : Nat) :
    motor_count (run w n).events =
      motor_count w.events + n * w.stepper_data.revolution_steps / 8 := by
  rw [run_events, motor_count_append, motor_count_step_events]

theorem rotate_by_one_compartment_events (w : World) :
    (rotate_by_one_compartment w).events =
      w.events
        ++ [Event.eeprom_write eeprom_address_stepperstate
              [TURNING, w.stepper_state.current_compartment]]
        ++ step_events 2 true (w.stepper_data.revolution_steps / 8) w.current_step
        ++ [Event.eeprom_write eeprom_address_stepperstate
              [NORMAL_OPERATION, (w.stepper_state.current_compartment + 1) % 256]] := by
  unfold rotate_by_one_compartment
  simp only
  rw [save_stepper_state_events]
  simp only
  rw [run_events, save_stepper_state_events]
  simp only [(save_stepper_state_fields _).2.1, (save_stepper_state_fields _).2.2,
    (save_stepper_state_fields _).1, Nat.one_mul, (run_fields _ _).1]

theorem rotate_by_one_compartment_fields (w : World) :
    (rotate_by_one_compartment w).stepper_data = w.stepper_data ∧
    (rotate_by_one_compartment w).current_step =
      next_step^[w.stepper_data.revolution_steps / 8] w.current_step := by
  unfold rotate_by_one_compartment
  simp only
  refine ⟨?_, ?_⟩
  · rw [(save_stepper_state_fields _).2.1]
    simp only
    rw [(run_fields _ _).2.1, (save_stepper_state_fields _).2.1]
  · rw [(save_stepper_state_fields _).2.2]
    simp only
    unfold run
    simp only
    rw [step_loop_current_step, (save_stepper_state_fields _).2.1,
      (save_stepper_state_fields _).2.2, Nat.one_mul]
    rfl

theorem motor_count_rotate (w : World) :
    motor_count (rotate_by_one_compartment w).events =
      motor_count w.events + w.stepper_data.revolution_steps / 8 := by
  rw [rotate_by_one_compartment_events, motor_count_append, motor_count_append,
    motor_count_append, motor_count_step_events]
  rfl

theorem motor_count_rotate_iterate : ∀ (n : Nat) (w : World),
    (rotate_by_one_compartment^[n] w).stepper_data = w.stepper_data ∧
    motor_count (rotate_by_one_compartment^[n] w).events =
      motor_count w.events + n * (w.stepper_data.revolution_steps / 8)
  | 0, w => by simp
  | n + 1, w => by
      obtain ⟨h1, h2⟩ := motor_count_rotate_iterate n (rotate_by_one_compartment w)
      rw [Function.iterate_succ_apply, h1, h2, (rotate_by_one_compartment_fields w).1,
        motor_count_rotate, Nat.succ_mul]
      exact ⟨rfl, by omega⟩

/-- The gap between one long run and as many single turns. -/
theorem run_gap (n r : Nat) :
    n * (r / 8) ≤ n * r / 8 ∧ (0 < n → n * r / 8 ≤ n * (r / 8) + (n - 1)) ∧
    (r % 8 = 0 → n * r / 8 = n * (r / 8)) := by
  have hr : r = 8 * (r / 8) + r % 8 := (Nat.div_add_mod r 8).symm
  have hs : r % 8 < 8 := Nat.mod_lt _ (by norm_num)
  generalize r / 8 = q at hr
  generalize r % 8 = s at hr hs
  subst hr
  have e : n * (8 * q + s) = 8 * (n * q) + n * s := by ring
  rw [e, Nat.mul_add_div (by norm_num : 0 < 8)]
  have hns : n * s ≤ n * 7 := Nat.mul_le_mul_left n (by omega)
  refine ⟨Nat.le_add_right _ _, ?_, ?_⟩
  · intro hn
    have : n * s / 8 ≤ n - 1 := by
      have h7 : n * 7 / 8 ≤ n - 1 := by omega
      exact le_trans (Nat.div_le_div_right hns) h7
    omega
  · intro h0
    have hs0 : s = 0 := by
      have : (8 * q + s) % 8 = s % 8 := by omega
      omega
    subst hs0
    simp

/-! ## The call of `run` in `recalibration` -/

theorem recalibration_parked_fields (w : World) (time_us : Nat) (k : Nat) :
    (recalibration_parked w time_us k).stepper_state =
      { w.stepper_state with stepper_stage := RECALIBRATING } ∧
    (recalibration_parked w time_us k).stepper_data = w.stepper_data := by
  unfold recalibration_parked
  simp only
  rw [(step_loop_fields _ _ _ _).1, (step_loop_fields _ _ _ _).2.1,
    (step_loop_fields _ _ _ _).1, (step_loop_fields _ _ _ _).2.1]
  exact ⟨(recalibration_begin_fields w time_us).1, (recalibration_begin_fields w time_us).2.1⟩

/-- The moved state of `recalibration` is `run` over `c + 1` compartments,
computed without wrap-around, applied to the parked state. -/
theorem recalibration_moved_eq_run (w : World) (time_us : Nat) (k : Nat) :
    recalibration_moved w time_us k =
      run (recalibration_parked w time_us k) (w.stepper_state.current_compartment + 1) := by
  have hc := congrArg stepperstate.current_compartment
    (recalibration_parked_fields w time_us k).1
  unfold recalibration_parked at hc
  simp only at hc
  unfold recalibration_moved recalibration_parked
  simp only
  rw [hc]

theorem recalibration_parked_events (w : World) (time_us : Nat) (k : Nat) :
    (recalibration_parked w time_us k).events =
      (recalibration_begin w time_us).events
        ++ step_events 2 false k w.current_step
        ++ step_events 3 false (w.stepper_data.sensor_width / 2)
             (previous_step^[k] w.current_step) := by
  unfold recalibration_parked
  simp only
  rw [step_loop_events, step_loop_events, step_loop_current_step,
    (step_loop_fields _ _ _ _).2.1, (recalibration_begin_fields w time_us).2.1,
    (recalibration_begin_fields w time_us).2.2]
  rfl

/-! ## The sequence index stays in 0..7 -/

theorem next_step_eq (c : Nat) (h : c ≤ 7) : next_step c = (c + 1) % 8 ∧ next_step c ≤ 7 := by
  unfold next_step
  by_cases h7 : c = 7
  · rw [if_pos h7, h7]
    exact ⟨rfl, Nat.zero_le _⟩
  · rw [if_neg h7]
    omega

theorem previous_step_eq (c : Nat) (h : c ≤ 7) :
    previous_step c = (c + 7) % 8 ∧ previous_step c ≤ 7 := by
  unfold previous_step
  by_cases h0 : c = 0
  · rw [if_pos h0, h0]
    exact ⟨rfl, le_refl _⟩
  · rw [if_neg h0]
    omega

theorem previous_next_step (c : Nat) (h : c ≤ 7) : previous_step (next_step c) = c := by
  rw [(previous_step_eq _ (next_step_eq c h).2).1, (next_step_eq c h).1]
  omega

theorem seq_table_row_mem (i : Nat) (h : i ≤ 7) : seq_table.getD i [] ∈ seq_table := by
  interval_cases i <;> decide

theorem step_index_le (forward : Bool) : ∀ (n c : Nat), c ≤ 7 →
    (fun c => if forward then next_step c else previous_step c)^[n] c ≤ 7
  | 0, _, h => h
  | n + 1, c, h => by
      rw [Function.iterate_succ_apply]
      apply step_index_le forward n
      cases forward
      · exact (previous_step_eq c h).2
      · exact (next_step_eq c h).2

theorem step_events_in_bounds (sleep_timer : Nat) (forward : Bool) : ∀ (n c : Nat), c ≤ 7 →
    ∀ e ∈ step_events sleep_timer forward n c, lookup_in_bounds e
  | 0, _, _ => by simp [step_events]
  | n + 1, c, h => by
      intro e he
      rw [step_events] at he
      rcases List.mem_cons.mp he with rfl | he
      · exact seq_table_row_mem c h
      · apply step_events_in_bounds sleep_timer forward n _ _ e he
        cases forward
        · exact (previous_step_eq c h).2
        · exact (next_step_eq c h).2

theorem steps_in_bounds_trans (w w1 w2 : World) (h1 : steps_in_bounds w w1)
    (h2 : steps_in_bounds w1 w2) : steps_in_bounds w w2 := by
  obtain ⟨_, n1, e1, b1⟩ := h1
  obtain ⟨c2, n2, e2, b2⟩ := h2
  refine ⟨c2, n1 ++ n2, by rw [e2, e1, List.append_assoc], ?_⟩
  intro e he
  rcases List.mem_append.mp he with he | he
  · exact b1 e he
  · exact b2 e he

/-- An operation that only writes to the store and leaves `current_step`
alone keeps the invariant. -/
theorem steps_in_bounds_of_writes (w w' : World) (writes : List Event) (h : w.current_step ≤ 7)
    (hc : w'.current_step = w.current_step) (he : w'.events = w.events ++ writes)
    (hw : ∀ e ∈ writes, ∃ a p, e = Event.eeprom_write a p) : steps_in_bounds w w' := by
  refine ⟨by rw [hc]; exact h, writes, he, ?_⟩
  intro e hmem
  obtain ⟨a, p, rfl⟩ := hw e hmem
  exact True.intro

theorem steps_in_bounds_step_loop (sleep_timer : Nat) (forward : Bool) (n : Nat) (w : World)
    (h : w.current_step ≤ 7) : steps_in_bounds w (step_loop sleep_timer forward n w) := by
  refine ⟨?_, _, step_loop_events sleep_timer forward n w,
    step_events_in_bounds sleep_timer forward n w.current_step h⟩
  rw [step_loop_current_step]
  exact step_index_le forward n w.current_step h

theorem steps_in_bounds_save_state (w : World) (s : stepperstate) (h : w.current_step ≤ 7) :
    steps_in_bounds w (save_stepper_state { w with stepper_state := s }) :=
  steps_in_bounds_of_writes w _ _ h rfl (save_stepper_state_events _)
    (fun _ he => ⟨_, _, List.mem_singleton.mp he⟩)

theorem steps_in_bounds_save_data (w : World) (h : w.current_step ≤ 7) :
    steps_in_bounds w (save_stepper_data w) :=
  steps_in_bounds_of_writes w _ _ h rfl (save_stepper_data_events _)
    (fun _ he => ⟨_, _, List.mem_singleton.mp he⟩)

theorem log_events_writes (st : Store) (t : List Nat) :
    ∀ e ∈ log_events st t, ∃ a p, e = Event.eeprom_write a p := by
  intro e he
  unfold log_events at he
  rcases List.mem_append.mp he with he | he
  · by_cases h : (write_log_scan st log_addresses).2 = true
    · rw [if_pos h] at he
      obtain ⟨a, _, rfl⟩ := List.mem_map.mp he
      exact ⟨a, [0], rfl⟩
    · rw [if_neg h] at he
      exact absurd he (List.not_mem_nil _)
  · exact ⟨_, _, List.mem_singleton.mp he⟩

theorem steps_in_bounds_create_log (w : World) (time_us : Nat) (str : List Nat)
    (hnz : ∀ b ∈ str, b ≠ 0) (h : w.current_step ≤ 7) :
    steps_in_bounds w (create_log w time_us str) :=
  steps_in_bounds_of_writes w _ _ h (create_log_fields w time_us str).2.2
    (create_log_events w time_us str hnz) (log_events_writes _ _)

theorem steps_in_bounds_run (w : World) (n : Nat) (h : w.current_step ≤ 7) :
    steps_in_bounds w (run w n) :=
  steps_in_bounds_step_loop 2 true _ w h

theorem steps_in_bounds_same (w v v' : World) (h : steps_in_bounds w v)
    (he : v'.events = v.events) (hc : v'.current_step = v.current_step) :
    steps_in_bounds w v' := by
  obtain ⟨c, new, e, b⟩ := h
  exact ⟨by rw [hc]; exact c, new, by rw [he, e], b⟩

theorem steps_in_bounds_rotate (w : World) (h : w.current_step ≤ 7) :
    steps_in_bounds w (rotate_by_one_compartment w) := by
  refine ⟨?_, _, by rw [rotate_by_one_compartment_events, List.append_assoc,
    List.append_assoc], ?_⟩
  · rw [(rotate_by_one_compartment_fields w).2]
    exact step_index_le true _ _ h
  · intro e he
    simp only [List.mem_append, List.mem_singleton] at he
    rcases he with rfl | he | rfl
    · exact True.intro
    · exact step_events_in_bounds 2 true _ _ h e he
    · exact True.intro

theorem steps_in_bounds_calibration_final (w : World) (time_us : Nat) (m : CalibrationTrace)
    (h : w.current_step ≤ 7) : steps_in_bounds w (calibration_final w time_us m) := by
  have h0 : steps_in_bounds w (calibration_begin w time_us) :=
    steps_in_bounds_of_writes w _ _ h (calibration_begin_fields w time_us).2
      (calibration_begin_events w time_us) (log_events_writes _ _)
  have h1 := steps_in_bounds_trans _ _ _ h0
    (steps_in_bounds_step_loop 2 true m.start _ h0.1)
  have h2 := steps_in_bounds_trans _ _ _ h1 (steps_in_bounds_step_loop 3 true m.sw0 _ h1.1)
  have h3 := steps_in_bounds_trans _ _ _ h2 (steps_in_bounds_step_loop 3 true m.nsw0 _ h2.1)
  have h4 := steps_in_bounds_trans _ _ _ h3 (steps_in_bounds_step_loop 3 true m.sw1 _ h3.1)
  have h5 := steps_in_bounds_trans _ _ _ h4 (steps_in_bounds_step_loop 3 true m.nsw1 _ h4.1)
  have h6 : steps_in_bounds w (calibration_measured w time_us m) :=
    steps_in_bounds_same w _ _ h5 rfl rfl
  have h7 := steps_in_bounds_trans _ _ _ h6
    (steps_in_bounds_step_loop 3 true
      ((calibration_measured w time_us m).stepper_data.sensor_width / 2) _ h6.1)
  have h8 := steps_in_bounds_trans _ _ _ h7 (steps_in_bounds_save_data _ h7.1)
  exact steps_in_bounds_trans _ _ _ h8
    (steps_in_bounds_save_state _
      { stepper_stage := NORMAL_OPERATION, current_compartment := 0 } h8.1)

theorem steps_in_bounds_recalibration_moved (w : World) (time_us : Nat) (k : Nat)
    (h : w.current_step ≤ 7) : steps_in_bounds w (recalibration_moved w time_us k) := by
  have h0 : steps_in_bounds w (recalibration_begin w time_us) :=
    steps_in_bounds_trans _ _ _
      (steps_in_bounds_save_state w
        { w.stepper_state with stepper_stage := RECALIBRATING } h)
      (steps_in_bounds_create_log _ time_us _ cstring_started_ne_zero.2 h)
  have h1 := steps_in_bounds_trans _ _ _ h0 (steps_in_bounds_step_loop 2 false k _ h0.1)
  have h2 := steps_in_bounds_trans _ _ _ h1
    (steps_in_bounds_step_loop 3 false
      ((step_loop 2 false k (recalibration_begin w time_us)).stepper_data.sensor_width / 2)
      _ h1.1)
  exact steps_in_bounds_trans _ _ _ h2 (steps_in_bounds_run _ _ h2.1)

/-! ## crc16 against the bitwise CRC -/

theorem crc_ccitt_bit_xor (a b : Nat) :
    crc_ccitt_bit (a ^^^ b) = crc_ccitt_bit a ^^^ crc_ccitt_bit b := by
  have e : 65536 = 2 ^ 16 := by norm_num
  unfold crc_ccitt_bit
  rw [Nat.testBit_xor]
  cases ha : a.testBit 15 <;> cases hb : b.testBit 15 <;>
    simp only [Bool.xor_false, Bool.xor_true, Bool.not_false, Bool.not_true,
      Bool.false_eq_true, if_false, if_true] <;>
    apply Nat.eq_of_testBit_eq <;> intro i <;> rw [e] <;>
    simp only [Nat.testBit_mod_two_pow, Nat.testBit_xor, Nat.testBit_shiftLeft] <;>
    by_cases h : i < 16 <;> by_cases h1 : 1 ≤ i <;> simp [h, h1] <;>
    generalize Nat.testBit 4129 i = p <;> generalize b.testBit (i - 1) = q <;>
    cases p <;> cases q <;> rfl

theorem crc_ccitt_bit_iterate_xor (k : Nat) (a b : Nat) :
    crc_ccitt_bit^[k] (a ^^^ b) = crc_ccitt_bit^[k] a ^^^ crc_ccitt_bit^[k] b := by
  induction k with
  | zero => rfl
  | succ k ih =>
    rw [Function.iterate_succ_apply', Function.iterate_succ_apply',
      Function.iterate_succ_apply', ih, crc_ccitt_bit_xor]

set_option maxRecDepth 100000 in
theorem crc_ccitt_bit_high : ∀ x < 256, crc_ccitt_bit^[8] (x <<< 8) = crc16_body (x <<< 8) 0 := by
  decide

set_option maxRecDepth 100000 in
theorem crc_ccitt_bit_low : ∀ x < 256, crc_ccitt_bit^[8] x = x <<< 8 := by
  decide

theorem testBit_false_of_lt (n k i : Nat) (h : n < 2 ^ k) (hi : k ≤ i) : n.testBit i = false :=
  Nat.testBit_eq_false_of_lt (lt_of_lt_of_le h (Nat.pow_le_pow_right (by norm_num) hi))

theorem crc16_body_split (crc b : Nat) :
    crc16_body crc b =
      ((crc % 256) <<< 8) ^^^ crc16_body ((((crc >>> 8) ^^^ b) % 256) <<< 8) 0 := by
  have hX : ∀ X, X < 256 → (((X <<< 8) >>> 8) ^^^ 0) % 256 = X := by
    intro X h
    rw [Nat.xor_zero, Nat.shiftLeft_eq, Nat.shiftRight_eq_div_pow,
      Nat.mul_div_cancel _ (by norm_num), Nat.mod_eq_of_lt h]
  unfold crc16_body
  simp only
  rw [hX _ (Nat.mod_lt _ (by norm_num))]
  generalize ((crc >>> 8) ^^^ b) % 256 = X
  generalize (X ^^^ (X >>> 4)) % 256 = y
  generalize (y <<< 12) % 65536 = A
  generalize (y <<< 5) % 65536 = B
  generalize y % 65536 = C
  have e : 65536 = 2 ^ 16 := by norm_num
  have e8 : 256 = 2 ^ 8 := by norm_num
  apply Nat.eq_of_testBit_eq
  intro i
  rw [e, e8]
  simp only [Nat.testBit_mod_two_pow, Nat.testBit_xor, Nat.testBit_shiftLeft]
  by_cases h : i < 16
  · by_cases h8 : 8 ≤ i
    · have h1 : i - 8 < 8 := by omega
      have h2 : ¬ 8 ≤ i - 8 := by omega
      simp [h, h8, h1, h2]
    · simp [h, h8]
  · have h8 : 8 ≤ i := by omega
    have h1 : ¬ i - 8 < 8 := by omega
    simp [h, h8, h1]

theorem crc16_register_split (crc b : Nat) (hc : crc < 65536) (hb : b < 256) :
    crc ^^^ (b <<< 8) = ((((crc >>> 8) ^^^ b) % 256) <<< 8) ^^^ (crc % 256) := by
  have e8 : 256 = 2 ^ 8 := by norm_num
  apply Nat.eq_of_testBit_eq
  intro i
  rw [e8]
  simp only [Nat.testBit_mod_two_pow, Nat.testBit_xor, Nat.testBit_shiftLeft,
    Nat.testBit_shiftRight]
  by_cases h8 : 8 ≤ i
  · have h0 : ¬ i < 8 := by omega
    have h3 : 8 + (i - 8) = i := by omega
    by_cases h : i < 16
    · have h1 : i - 8 < 8 := by omega
      simp [h8, h1, h0, h3]
    · have h1 : ¬ i - 8 < 8 := by omega
      have hci : crc.testBit i = false := testBit_false_of_lt crc 16 i (by omega) (by omega)
      have hbi : b.testBit (i - 8) = false := testBit_false_of_lt b 8 (i - 8) (by omega) (by omega)
      simp [h8, h1, h0, hci, hbi]
  · have h0 : i < 8 := by omega
    simp [h8, h0]

theorem crc_ccitt_byte_eq (crc b : Nat) (hc : crc < 65536) (hb : b < 256) :
    crc_ccitt_byte crc b = crc16_body crc b := by
  unfold crc_ccitt_byte
  rw [crc16_register_split crc b hc hb, crc_ccitt_bit_iterate_xor,
    crc_ccitt_bit_high _ (Nat.mod_lt _ (by norm_num)),
    crc_ccitt_bit_low _ (Nat.mod_lt _ (by norm_num)), crc16_body_split crc b, Nat.xor_comm]

theorem crc16_loop_eq_ccitt : ∀ (s : List Nat) (crc : Nat), crc < 65536 →
    (∀ b ∈ s, b < 256) → crc16_loop s s.length crc = s.foldl crc_ccitt_byte crc
  | [], _, _, _ => rfl
  | b :: s, crc, hc, hs => by
      rw [List.length_cons, crc16_loop, List.foldl_cons,
        crc_ccitt_byte_eq crc b hc (hs b (List.mem_cons_self _ _))]
      exact crc16_loop_eq_ccitt s _ (crc16_body_lt crc b)
        (fun c hc => hs c (List.mem_cons_of_mem _ hc))

/-! ## crc16 detects a changed byte -/

set_option maxRecDepth 100000 in
theorem crc16_body_high_low : ∀ x < 256,
    ((crc16_body (x <<< 8) 0 % 256) ^^^ ((crc16_body (x <<< 8) 0 % 256) <<< 5) % 256) ^^^
      (((crc16_body (x <<< 8) 0 % 256) ^^^ ((crc16_body (x <<< 8) 0 % 256) <<< 5) % 256)
        >>> 4) = x := by
  decide

theorem crc16_body_high_inj (x y : Nat) (hx : x < 256) (hy : y < 256)
    (h : crc16_body (x <<< 8) 0 % 256 = crc16_body (y <<< 8) 0 % 256) : x = y := by
  rw [← crc16_body_high_low x hx, ← crc16_body_high_low y hy, h]

theorem xor_mod_256 (a b : Nat) : (a ^^^ b) % 256 = (a % 256) ^^^ (b % 256) := by
  have e8 : 256 = 2 ^ 8 := by norm_num
  apply Nat.eq_of_testBit_eq
  intro i
  rw [e8]
  simp only [Nat.testBit_mod_two_pow, Nat.testBit_xor]
  by_cases h : i < 8 <;> simp [h]

theorem shiftLeft_8_xor_mod_256 (a b : Nat) : ((a <<< 8) ^^^ b) % 256 = b % 256 := by
  have e8 : 256 = 2 ^ 8 := by norm_num
  apply Nat.eq_of_testBit_eq
  intro i
  rw [e8]
  simp only [Nat.testBit_mod_two_pow, Nat.testBit_xor, Nat.testBit_shiftLeft]
  by_cases h : i < 8
  · have h8 : ¬ 8 ≤ i := by omega
    simp [h, h8]
  · simp [h]

theorem crc16_body_inj_crc (c1 c2 d : Nat) (h1 : c1 < 65536) (h2 : c2 < 65536)
    (h : crc16_body c1 d = crc16_body c2 d) : c1 = c2 := by
  rw [crc16_body_split c1 d, crc16_body_split c2 d] at h
  have hlow := congrArg (fun v => v % 256) h
  simp only [shiftLeft_8_xor_mod_256] at hlow
  have hX := crc16_body_high_inj _ _ (Nat.mod_lt _ (by norm_num)) (Nat.mod_lt _ (by norm_num))
    hlow
  rw [hX, Nat.xor_left_inj, Nat.shiftLeft_eq, Nat.shiftLeft_eq] at h
  rw [xor_mod_256, xor_mod_256 (c2 >>> 8), Nat.xor_left_inj, Nat.shiftRight_eq_div_pow,
    Nat.shiftRight_eq_div_pow] at hX
  omega

theorem crc16_body_inj_byte (c a b : Nat) (ha : a < 256) (hb : b < 256)
    (h : crc16_body c a = crc16_body c b) : a = b := by
  rw [crc16_body_split c a, crc16_body_split c b, Nat.xor_right_inj] at h
  have hX := crc16_body_high_inj _ _ (Nat.mod_lt _ (by norm_num)) (Nat.mod_lt _ (by norm_num))
    (congrArg (fun v => v % 256) h)
  rw [xor_mod_256, xor_mod_256 _ b, Nat.xor_right_inj] at hX
  omega

theorem crc16_loop_inj_crc : ∀ (q : List Nat) (n c1 c2 : Nat), c1 < 65536 → c2 < 65536 →
    crc16_loop q n c1 = crc16_loop q n c2 → c1 = c2
  | [], _, _, _, _, _, h => by simpa [crc16_loop] using h
  | _ :: _, 0, _, _, _, _, h => by simpa [crc16_loop] using h
  | d :: q, n + 1, c1, c2, h1, h2, h => by
      rw [crc16_loop, crc16_loop] at h
      exact crc16_body_inj_crc c1 c2 d h1 h2
        (crc16_loop_inj_crc q n _ _ (crc16_body_lt c1 d) (crc16_body_lt c2 d) h)

theorem crc16_loop_changed_byte : ∀ (p q : List Nat) (a b n c : Nat), c < 65536 →
    a < 256 → b < 256 → a ≠ b → p.length < n →
    crc16_loop (p ++ a :: q) n c ≠ crc16_loop (p ++ b :: q) n c
  | [], q, a, b, 0, c, _, _, _, _, hn => by simp at hn
  | [], q, a, b, n + 1, c, hc, ha, hb, hab, _ => by
      intro h
      rw [List.nil_append, List.nil_append, crc16_loop, crc16_loop] at h
      exact hab (crc16_body_inj_byte c a b ha hb
        (crc16_loop_inj_crc q n _ _ (crc16_body_lt c a) (crc16_body_lt c b) h))
  | d :: p, q, a, b, 0, c, _, _, _, _, hn => by simp at hn
  | d :: p, q, a, b, n + 1, c, hc, ha, hb, hab, hn => by
      rw [List.cons_append, List.cons_append, crc16_loop, crc16_loop]
      exact crc16_loop_changed_byte p q a b n _ (crc16_body_lt c d) ha hb hab
        (by simpa using hn)

/-- Two lists of equal length that agree everywhere except at index `i` share
the prefix before `i` and the suffix after it. -/
theorem single_difference_split (s t : List Nat) (i : Nat) (hlen : s.length = t.length)
    (hi : i < s.length) (hsame : ∀ j, j ≠ i → s[j]? = t[j]?) :
    s = s.take i ++ s.getD i 0 :: s.drop (i + 1) ∧
      t = s.take i ++ t.getD i 0 :: s.drop (i + 1) := by
  have hit : i < t.length := by omega
  have hp : t.take i = s.take i := by
    apply List.ext_getElem?
    intro j
    rw [List.getElem?_take, List.getElem?_take]
    by_cases h : j < i
    · rw [if_pos h, if_pos h, hsame j (by omega)]
    · rw [if_neg h, if_neg h]
  have hq : t.drop (i + 1) = s.drop (i + 1) := by
    apply List.ext_getElem?
    intro j
    rw [List.getElem?_drop, List.getElem?_drop, hsame (i + 1 + j) (by omega)]
  have es : s.getD i 0 = s[i] := by
    rw [List.getD_eq_getElem?_getD, List.getElem?_eq_getElem hi]; rfl
  have et : t.getD i 0 = t[i] := by
    rw [List.getD_eq_getElem?_getD, List.getElem?_eq_getElem hit]; rfl
  constructor
  · rw [es, ← List.drop_eq_getElem_cons hi, List.take_append_drop]
  · rw [et, ← hp, ← hq, ← List.drop_eq_getElem_cons hit, List.take_append_drop]

theorem crc16_loop_single_difference (s t : List Nat) (i n c : Nat) (hc : c < 65536)
    (hs : ∀ x ∈ s, x < 256) (ht : ∀ x ∈ t, x < 256)
    (hlen : s.length = t.length) (hi : i < s.length) (hn : i < n)
    (hne : s[i]? ≠ t[i]?) (hsame : ∀ j, j ≠ i → s[j]? = t[j]?) :
    crc16_loop s n c ≠ crc16_loop t n c := by
  have hit : i < t.length := by omega
  obtain ⟨e1, e2⟩ := single_difference_split s t i hlen hi hsame
  have es : s.getD i 0 = s[i] := by
    rw [List.getD_eq_getElem?_getD, List.getElem?_eq_getElem hi]; rfl
  have et : t.getD i 0 = t[i] := by
    rw [List.getD_eq_getElem?_getD, List.getElem?_eq_getElem hit]; rfl
  have ha : s.getD i 0 < 256 := by rw [es]; exact hs _ (List.getElem_mem _)
  have hb : t.getD i 0 < 256 := by rw [et]; exact ht _ (List.getElem_mem _)
  have hab : s.getD i 0 ≠ t.getD i 0 := by
    rw [es, et]
    intro h
    apply hne
    rw [List.getElem?_eq_getElem hi, List.getElem?_eq_getElem hit, h]
  have hp : (s.take i).length < n := by
    rw [List.length_take]
    omega
  rw [e1, e2]
  have key := crc16_loop_changed_byte (s.take i) (s.drop (i + 1)) _ _ n c hc ha hb hab hp
  rw [← e1]
  rw [← e1] at key
  exact key

/-! ## Claims -/

/-- C1: CRC16 round trip. For every byte string `s` (the empty one included),
`crc16` of `s` followed by the big-endian bytes of `crc16 s` is `0`. -/
theorem crc16_round_trip (s : List Nat) :
    crc16 (s ++ [crc16 s s.length >>> 8, crc16 s s.length &&& 0xFF]) (s.length + 2) = 0 := by
  unfold crc16
  rw [crc16_loop_append]
  exact crc16_loop_self _

/-- C2: writer/validator agreement. For every text `t` of 1..61 non-zero
bytes, `strlen` of a buffer holding `t` is `len(t)`, so the call made by
`create_log` is `write_log_entry(t, len(t) + 1)`; after it the 64 bytes read
back from the target slot have entry length `len(t)`, their `crc16` over the
first `len(t) + 3` bytes is 0, and the scan test does not select the slot,
whatever the rest of the slot and the bytes behind the terminator in the
buffer are. -/
theorem writer_validator_agreement (w : World) (t junk : List Nat)
    (h1 : 1 ≤ t.length) (h61 : t.length ≤ 61) (hnz : ∀ b ∈ t, b ≠ 0) :
    strlen (t ++ 0 :: junk) + 1 = t.length + 1 ∧
    calculate_entry_length
        (read_bytes_from_eeprom (write_log_entry w (t ++ 0 :: junk) (t.length + 1)).eeprom
          (write_log_address w.eeprom) 64) = (t.length : Int) ∧
    crc16 (read_bytes_from_eeprom (write_log_entry w (t ++ 0 :: junk) (t.length + 1)).eeprom
          (write_log_address w.eeprom) 64) (t.length + 3) = 0 ∧
    slot_selected
        (read_bytes_from_eeprom (write_log_entry w (t ++ 0 :: junk) (t.length + 1)).eeprom
          (write_log_address w.eeprom) 64) = false := by
  obtain ⟨rest, hrest⟩ := read_back_target w t junk h61
  rw [hrest]
  have hshape : log_payload t ++ rest = t ++ 0 :: (
      [crc16 (t ++ [0]) (t.length + 1) >>> 8, crc16 (t ++ [0]) (t.length + 1) &&& 0xFF]
        ++ rest) := by
    simp [log_payload]
  have hlen : (log_payload t ++ rest).length ≥ t.length + 3 := by
    rw [List.length_append, log_payload_length]; omega
  have hz : (log_payload t ++ rest).getD t.length 1 = 0 := by
    rw [hshape, List.getD_eq_getElem?_getD, List.getElem?_append_right (le_refl _)]
    simp
  have hnz2 : ∀ i, i < t.length → (log_payload t ++ rest).getD i 0 ≠ 0 := by
    intro i hi
    rw [hshape, List.getD_eq_getElem?_getD, List.getElem?_append_left hi,
      List.getElem?_eq_getElem hi]
    exact hnz _ (List.getElem_mem _)
  have hsize := calculate_entry_length_first_zero (log_payload t ++ rest) t.length h61
    (by omega) hz hnz2
  have hcrc : crc16 (log_payload t ++ rest) (t.length + 3) = 0 := by
    have e : log_payload t ++ rest = (t ++ [0]) ++ (
        [crc16 (t ++ [0]) (t.length + 1) >>> 8, crc16 (t ++ [0]) (t.length + 1) &&& 0xFF]
          ++ rest) := by
      simp [log_payload]
    have hl : t.length + 3 = (t ++ [0]).length + 2 := by simp
    have hl1 : t.length + 1 = (t ++ [0]).length := by simp
    rw [e, hl]
    unfold crc16
    rw [crc16_loop_append, hl1]
    have := crc16_loop_self (crc16_loop (t ++ [0]) (t ++ [0]).length 0xFFFF)
    simpa [crc16_loop] using this
  refine ⟨by rw [strlen_text t junk hnz], hsize, hcrc, ?_⟩
  by_contra hc
  rw [Bool.not_eq_false, slot_selected_eq_true, hsize] at hc
  have e3 : ((t.length : Int) + 3).toNat = t.length + 3 := rfl
  rw [e3] at hc
  rcases hc with hc | hc | hc
  · exact hnz2 0 (by omega) hc
  · omega
  · exact hc hcrc

/-- Witness for C2: the text "A" written to an erased log. -/
theorem writer_validator_agreement_witness :
    slot_selected
      (read_bytes_from_eeprom (write_log_entry fresh_world ([65] ++ 0 :: []) 2).eeprom
        (write_log_address fresh_world.eeprom) 64) = false :=
  (writer_validator_agreement fresh_world [65] [] (by decide) (by decide) (by decide)).2.2.2

/-- C3 (as stated, refuted): for the text "(0) Boot" logged by `create_log` on
an erased device, the two checksum bytes stored behind the terminator are
0x0B 0x8F, the `crc16` of the text with its terminator, and not 0x69 0xF6, the
`crc16` of the text bytes only. -/
theorem stored_crc_is_not_of_text_only :
    (create_log fresh_world 0 (cstring "Boot")).events =
      [Event.eeprom_write 0 (cstring "(0) Boot" ++ [0, 0x0B, 0x8F])] ∧
    [crc16 (cstring "(0) Boot") 8 >>> 8, crc16 (cstring "(0) Boot") 8 &&& 0xFF] = [0x69, 0xF6] ∧
    (create_log fresh_world 0 (cstring "Boot")).events ≠
      [Event.eeprom_write 0 (cstring "(0) Boot" ++
        [0, crc16 (cstring "(0) Boot") 8 >>> 8, crc16 (cstring "(0) Boot") 8 &&& 0xFF])] := by
  decide

/-- C3 (amended): for every text `t` of at most 61 bytes appended to the log by
`write_log_entry(t, len(t) + 1)`, the bytes written at the target slot are
`t`, one 0x00 terminator, then `crc_hi`, `crc_lo`, the big-endian `crc16` of
the `len(t) + 1` bytes made of the text and its terminator; they fit in the
64-byte slot and are what the store holds there afterwards. -/
theorem stored_entry_layout (w : World) (t junk : List Nat) (h61 : t.length ≤ 61) :
    (write_log_entry w (t ++ 0 :: junk) (t.length + 1)).events.getLast? =
      some (Event.eeprom_write (write_log_address w.eeprom)
        (t ++ [0, crc16 (t ++ [0]) (t.length + 1) >>> 8,
               crc16 (t ++ [0]) (t.length + 1) &&& 0xFF])) ∧
    (t ++ [0, crc16 (t ++ [0]) (t.length + 1) >>> 8,
           crc16 (t ++ [0]) (t.length + 1) &&& 0xFF]).length ≤ 64 ∧
    (∀ i, i < t.length + 3 →
      (write_log_entry w (t ++ 0 :: junk) (t.length + 1)).eeprom (write_log_address w.eeprom + i)
        = (t ++ [0, crc16 (t ++ [0]) (t.length + 1) >>> 8,
                 crc16 (t ++ [0]) (t.length + 1) &&& 0xFF]).getD i 0) := by
  obtain ⟨hev, hst⟩ := write_log_entry_text w t junk
  refine ⟨?_, ?_, ?_⟩
  · rw [hev, List.getLast?_append]
    rfl
  · have := log_payload_length t
    unfold log_payload at this
    omega
  · intro i hi
    rw [hst, if_pos (by omega), Nat.add_sub_cancel_left]
    rfl

/-- Witness for C3: the text "A" written to an erased log is stored as
0x41 0x00 0x23 0xF2 at address 0. -/
theorem stored_entry_layout_witness :
    (write_log_entry fresh_world ([65] ++ 0 :: []) 2).events.getLast? =
      some (Event.eeprom_write 0 [65, 0, 0x23, 0xF2]) := by
  have h := (stored_entry_layout fresh_world [65] [] (by decide)).1
  have e : write_log_address fresh_world.eeprom = 0 := by decide
  rw [e] at h
  exact h

/-- C4: append targets the first free slot and nothing else. When slots
`0..k-1` are valid and slot `k < 32` is not, `write_log_entry(t, len(t) + 1)`
for a text of at most 61 bytes issues exactly one write, of the new entry at
address `64 * k`; the store then holds the entry there, and every byte
outside `[64 * k, 64 * k + 64)` is unchanged: the other slots and both
structured records. -/
theorem append_targets_first_free (w : World) (k : Nat) (t junk : List Nat)
    (hk : k < 32) (hvalid : ∀ j, j < k → slot_valid (slot w.eeprom j))
    (hfree : ¬ slot_valid (slot w.eeprom k)) (h61 : t.length ≤ 61) :
    (write_log_entry w (t ++ 0 :: junk) (t.length + 1)).events =
      w.events ++ [Event.eeprom_write (64 * k) (log_payload t)] ∧
    (∀ i, i < t.length + 3 →
      (write_log_entry w (t ++ 0 :: junk) (t.length + 1)).eeprom (64 * k + i)
        = (log_payload t).getD i 0) ∧
    (∀ a, a < 64 * k ∨ 64 * k + 64 ≤ a →
      (write_log_entry w (t ++ 0 :: junk) (t.length + 1)).eeprom a = w.eeprom a) ∧
    (∀ j, j < 32 → j ≠ k →
      slot (write_log_entry w (t ++ 0 :: junk) (t.length + 1)).eeprom j = slot w.eeprom j) := by
  have hscan := write_log_scan_free w.eeprom k hk hvalid hfree
  have haddr : write_log_address w.eeprom = 64 * k := by
    unfold write_log_address
    rw [hscan]
    rfl
  obtain ⟨hev, hst⟩ := write_log_entry_text w t junk
  rw [hscan, haddr] at hev
  rw [hscan, haddr] at hst
  simp only [Bool.false_eq_true, if_false] at hev hst
  have hframe : ∀ a, a < 64 * k ∨ 64 * k + 64 ≤ a →
      (write_log_entry w (t ++ 0 :: junk) (t.length + 1)).eeprom a = w.eeprom a := by
    intro a ha
    rw [hst, if_neg (by omega)]
  refine ⟨hev, ?_, hframe, ?_⟩
  · intro i hi
    rw [hst, if_pos (by omega), Nat.add_sub_cancel_left]
  · intro j _ hjk
    unfold slot
    apply List.map_congr_left
    intro i hi
    rw [List.mem_range] at hi
    exact hframe _ (by omega)

/-- Witness for C4: with slots 0..4 valid and slot 5 empty, the text "A" is
written to address 320 only. -/
theorem append_targets_first_free_witness :
    (write_log_entry { fresh_world with eeprom := store_with_entries 5 }
        ([65] ++ 0 :: []) 2).events = [Event.eeprom_write 320 [65, 0, 0x23, 0xF2]] := by
  have hl : ∀ i, 62 ≤ (slot (store_with_entries 5) i).length := by intro i; simp [slot]
  have hv : ∀ j, j < 5 → slot_valid (slot (store_with_entries 5) j) := by
    intro j hj
    by_contra hc
    have hs := (slot_selected_iff_not_valid _ (hl j)).mpr hc
    have hall : ∀ i, i < 5 → slot_selected (slot (store_with_entries 5) i) = false := by decide
    rw [hall j hj] at hs
    exact Bool.noConfusion hs
  have hf : ¬ slot_valid (slot (store_with_entries 5) 5) :=
    (slot_selected_iff_not_valid _ (hl 5)).mp (by decide)
  exact (append_targets_first_free { fresh_world with eeprom := store_with_entries 5 } 5
    [65] [] (by decide) hv hf (by decide)).1

/-- C5: full-log wraparound. When all 32 slots are valid,
`write_log_entry(t, len(t) + 1)` for a text of at most 61 bytes first writes
a single 0x00 byte at the first address of each slot, in the order
0, 64, ..., 1984, and then writes the new entry at address 0; afterwards slot
0 holds the new entry and each of slots 1..31 has first byte 0x00 with its
other bytes unchanged. -/
theorem full_log_wraparound (w : World) (t junk : List Nat)
    (hfull : ∀ j, j < 32 → slot_valid (slot w.eeprom j)) (h61 : t.length ≤ 61) :
    (write_log_entry w (t ++ 0 :: junk) (t.length + 1)).events =
      w.events ++ (List.range 32).map (fun i => Event.eeprom_write (64 * i) [0])
        ++ [Event.eeprom_write 0 (log_payload t)] ∧
    (∀ i, i < t.length + 3 →
      (write_log_entry w (t ++ 0 :: junk) (t.length + 1)).eeprom i = (log_payload t).getD i 0) ∧
    (∀ j, 1 ≤ j → j < 32 →
      (write_log_entry w (t ++ 0 :: junk) (t.length + 1)).eeprom (64 * j) = 0 ∧
      slot_selected (slot (write_log_entry w (t ++ 0 :: junk) (t.length + 1)).eeprom j) = true ∧
      ∀ i, 1 ≤ i → i < 64 →
        (write_log_entry w (t ++ 0 :: junk) (t.length + 1)).eeprom (64 * j + i)
          = w.eeprom (64 * j + i)) := by
  have hscan := write_log_scan_full w.eeprom hfull
  have haddr : write_log_address w.eeprom = 0 := by
    unfold write_log_address
    rw [hscan]
    rfl
  obtain ⟨hev, hst⟩ := write_log_entry_text w t junk
  rw [hscan, haddr] at hev
  rw [hscan, haddr] at hst
  simp only [if_true, Nat.zero_add, Nat.zero_le, true_and, Nat.sub_zero] at hev hst
  have hfirst : ∀ j, 1 ≤ j → j < 32 →
      (write_log_entry w (t ++ 0 :: junk) (t.length + 1)).eeprom (64 * j) = 0 := by
    intro j h1 h32
    rw [hst, if_neg (by omega), clear_log_eeprom, if_pos (by omega)]
  refine ⟨?_, ?_, ?_⟩
  · rw [hev, clear_log_events]
    unfold log_addresses
    rw [List.map_map]
    rfl
  · intro i hi
    rw [hst, if_pos hi]
  · intro j h1 h32
    refine ⟨hfirst j h1 h32, ?_, ?_⟩
    · apply (slot_selected_eq_true _).mpr
      left
      have := hfirst j h1 h32
      simpa [slot] using this
    · intro i hi1 hi64
      rw [hst, if_neg (by omega), clear_log_eeprom, if_neg (by omega)]

/-- Witness for C5: on a log of 32 valid entries, writing the text "A" clears
all 32 slots in address order and then writes at address 0. -/
theorem full_log_wraparound_witness :
    (write_log_entry { fresh_world with eeprom := store_with_entries 32 }
        ([65] ++ 0 :: []) 2).events =
      (List.range 32).map (fun i => Event.eeprom_write (64 * i) [0])
        ++ [Event.eeprom_write 0 [65, 0, 0x23, 0xF2]] := by
  have hl : ∀ i, 62 ≤ (slot (store_with_entries 32) i).length := by intro i; simp [slot]
  have hv : ∀ j, j < 32 → slot_valid (slot (store_with_entries 32) j) := by
    intro j hj
    by_contra hc
    have hs := (slot_selected_iff_not_valid _ (hl j)).mpr hc
    have hall : ∀ i, i < 32 → slot_selected (slot (store_with_entries 32) i) = false := by
      decide
    rw [hall j hj] at hs
    exact Bool.noConfusion hs
  exact (full_log_wraparound { fresh_world with eeprom := store_with_entries 32 }
    [65] [] hv (by decide)).1

/-- C6: slot classification. For every 64-byte slot content the scan of
`write_log_entry` selects the slot exactly when it is not valid (first byte
non-zero, first 0x00 at an index `n ≤ 61`, `crc16` over the first `n + 3`
bytes equal to 0); a slot whose first byte is 0x00 is always selected, and so
is a slot with no 0x00 among its first 62 bytes, whatever its last two bytes. -/
theorem slot_classification (entry : List Nat) (hlen : entry.length = 64) :
    (slot_selected entry = true ↔ ¬ slot_valid entry) ∧
    (entry.getD 0 0 = 0 → slot_selected entry = true) ∧
    ((∀ i, i < 62 → entry.getD i 0 ≠ 0) → slot_selected entry = true) := by
  refine ⟨slot_selected_iff_not_valid entry (by omega), ?_, ?_⟩
  · intro h0
    exact (slot_selected_eq_true entry).mpr (Or.inl h0)
  · intro hnz
    exact (slot_selected_eq_true entry).mpr
      (Or.inr (Or.inl (calculate_entry_length_no_zero entry (by omega) hnz)))

/-- Witness for C6: the slot holding "A", a terminator and the crc bytes 0x23
0xF2 is valid and not selected. -/
theorem slot_classification_witness :
    (65 :: 0 :: 35 :: 242 :: List.replicate 60 0).length = 64 ∧
    slot_selected (65 :: 0 :: 35 :: 242 :: List.replicate 60 0) = false ∧
    slot_valid (65 :: 0 :: 35 :: 242 :: List.replicate 60 0) := by
  have h := (slot_classification (65 :: 0 :: 35 :: 242 :: List.replicate 60 0) (by decide)).1
  have hs : slot_selected (65 :: 0 :: 35 :: 242 :: List.replicate 60 0) = false := by decide
  refine ⟨by decide, hs, ?_⟩
  by_contra hv
  rw [h.mpr hv] at hs
  exact Bool.noConfusion hs

/-- C7 (as stated, refuted): on the 64-byte buffer of all-ones bytes
`calculate_entry_length` evaluates `*entry` at offset 63, above 62, while
returning -1. -/
theorem calculate_entry_length_inspects_63 :
    (List.replicate 64 1).length = 64 ∧
    calculate_entry_length (List.replicate 64 1) = -1 ∧
    63 ∈ calculate_entry_length_reads (List.replicate 64 1) 0 ∧
    ¬ (∀ i ∈ calculate_entry_length_reads (List.replicate 64 1) 0, i ≤ 62) := by
  refine ⟨by decide, by decide, by decide, ?_⟩
  intro h
  exact absurd (h 63 (by decide)) (by decide)

/-- C7 (amended): for every 64-byte buffer, `calculate_entry_length` returns
the index `n` of the first 0x00 byte when `n ≤ 61`, returns -1 when there is
no 0x00 byte among indices 0..61, so its result is -1 or in 0..61, and it
never evaluates `*entry` at an offset above 63 (it stays inside the buffer). -/
theorem calculate_entry_length_spec (entry : List Nat) (hlen : entry.length = 64) :
    (∀ n : Nat, n ≤ 61 → entry.getD n 1 = 0 → (∀ i : Nat, i < n → entry.getD i 0 ≠ 0) →
      calculate_entry_length entry = (n : Int)) ∧
    ((∀ i : Nat, i ≤ 61 → entry.getD i 0 ≠ 0) → calculate_entry_length entry = -1) ∧
    (calculate_entry_length entry = -1 ∨
      (0 ≤ calculate_entry_length entry ∧ calculate_entry_length entry ≤ 61)) ∧
    (∀ i ∈ calculate_entry_length_reads entry 0, i ≤ 63 ∧ i < entry.length) := by
  refine ⟨?_, ?_, ?_, ?_⟩
  · intro n hn hz hnz
    exact calculate_entry_length_first_zero entry n hn (by omega) hz hnz
  · intro hnz
    exact calculate_entry_length_no_zero entry (by omega) (fun i hi => hnz i (by omega))
  · rcases calculate_entry_length_cases entry (by omega) with h | ⟨n, hn, h, _⟩
    · exact Or.inl h.1
    · right
      rw [h]
      exact ⟨Int.natCast_nonneg n, by exact_mod_cast hn⟩
  · intro i hi
    have h63 := calculate_entry_length_reads_le entry 0 i hi
    have e : max 0 63 = 63 := by decide
    rw [e] at h63
    exact ⟨h63, by omega⟩

/-- Witness for C7: a 64-byte slot holding the text "AB", a terminator and
arbitrary bytes behind it has length 2. -/
theorem calculate_entry_length_spec_witness :
    (65 :: 66 :: List.replicate 62 0).length = 64 ∧
    calculate_entry_length (65 :: 66 :: List.replicate 62 0) = 2 :=
  ⟨by decide,
   (calculate_entry_length_spec (65 :: 66 :: List.replicate 62 0) (by decide)).1 2
     (by decide) (by decide) (by decide)⟩

/-- C8: recalibration compartment bound. For every persisted compartment `c`
in 0..7 and every sensor trace on which the backward edge search ends,
`recalibration` returns a result; with `new_compartment = c + 1`, if
`new_compartment ≤ 7` the final runtime state, in memory and as persisted in
the store, is `{NORMAL_OPERATION, c + 1}` and the call returns true, and
otherwise (`c = 7`) it is `{INITIAL, 0}` and the call returns false. -/
theorem recalibration_compartment_bound (w : World) (time_us : Nat) (s0 : Bool)
    (sensor : List Bool) (hc : w.stepper_state.current_compartment ≤ 7)
    (hedge : edge_seen false true s0 sensor = true) :
    ∃ w' rest,
      recalibration w time_us (s0 :: sensor) =
        some (decide (w.stepper_state.current_compartment + 1 ≤ 7), w', rest) ∧
      (load_stepper_state w').stepper_state = w'.stepper_state ∧
      (w.stepper_state.current_compartment + 1 ≤ 7 →
        w'.stepper_state = { stepper_stage := NORMAL_OPERATION,
                             current_compartment := w.stepper_state.current_compartment + 1 }) ∧
      (7 < w.stepper_state.current_compartment + 1 →
        w'.stepper_state = { stepper_stage := INITIAL, current_compartment := 0 }) := by
  have hsome := edge_loop_isSome 2 false true false sensor
    (create_log (save_stepper_state
      { w with stepper_state := { w.stepper_state with stepper_stage := RECALIBRATING } })
      time_us (cstring "Recalibration started")) s0 0
  rw [hedge] at hsome
  obtain ⟨r, hr⟩ := Option.isSome_iff_exists.mp hsome
  obtain ⟨hf1, _, _⟩ := edge_loop_fields 2 false true false sensor _ s0 0 r hr
  rw [(create_log_fields _ _ _).1, (save_stepper_state_fields _).1] at hf1
  have hcomp : (step_loop 3 false (r.world.stepper_data.sensor_width / 2)
      r.world).stepper_state.current_compartment = w.stepper_state.current_compartment := by
    rw [(step_loop_fields 3 false _ r.world).1, hf1]
  have hmod : (w.stepper_state.current_compartment + 1) % 256
      = w.stepper_state.current_compartment + 1 := by omega
  unfold recalibration
  simp only [hr, (step_loop_fields 3 false _ _).2.1, hcomp, hmod]
  by_cases hle : w.stepper_state.current_compartment + 1 ≤ 7
  · rw [if_pos hle, decide_eq_true hle]
    exact ⟨_, _, rfl, load_save_stepper_state _, fun _ => rfl, fun h => by omega⟩
  · rw [if_neg hle, decide_eq_false hle]
    exact ⟨_, _, rfl, load_save_stepper_state _, fun h => absurd h hle, fun _ => rfl⟩

/-- Witness for C8: from `{TURNING, 3}` and a trace showing one falling edge,
recalibration yields `{NORMAL_OPERATION, 4}` and returns true; from
`{TURNING, 7}` it yields `{INITIAL, 0}` and returns false. -/
theorem recalibration_compartment_bound_witness :
    (∃ w' rest,
      recalibration (interrupted_world 3) 0 (true :: [false, false]) = some (true, w', rest) ∧
      (load_stepper_state w').stepper_state
        = { stepper_stage := NORMAL_OPERATION, current_compartment := 4 }) ∧
    (∃ w' rest,
      recalibration (interrupted_world 7) 0 (true :: [false, false]) = some (false, w', rest) ∧
      (load_stepper_state w').stepper_state
        = { stepper_stage := INITIAL, current_compartment := 0 }) := by
  obtain ⟨w1, r1, h1, h2, h3, _⟩ := recalibration_compartment_bound
    (interrupted_world 3) 0 true [false, false] (by decide) (by decide)
  obtain ⟨w2, r2, k1, k2, _, k4⟩ := recalibration_compartment_bound
    (interrupted_world 7) 0 true [false, false] (by decide) (by decide)
  exact ⟨⟨w1, r1, h1, by rw [h2]; exact h3 (by decide)⟩,
         ⟨w2, r2, k1, by rw [k2]; exact k4 (by decide)⟩⟩

/-- C9: boot recovery dispatch. For every value of the loaded stage byte,
`initialize_stepper` does exactly one of: (stage `RECALIBRATING` or
`TURNING`) what a single `recalibration` does, returning its result; (stage
`NORMAL_OPERATION`) nothing, no motor output and no store write, so both
records are unchanged, returning true; (stage `INITIAL` or any other value)
what a single `calibration` does, returning true. -/
theorem boot_recovery_dispatch (w : World) (time_us : Nat) (sensor : List Bool) :
    ((w.stepper_state.stepper_stage = RECALIBRATING ∨ w.stepper_state.stepper_stage = TURNING) ∧
      initialize_stepper w time_us sensor = recalibration w time_us sensor) ∨
    (w.stepper_state.stepper_stage = NORMAL_OPERATION ∧
      initialize_stepper w time_us sensor = some (true, w, sensor)) ∨
    ((w.stepper_state.stepper_stage ≠ RECALIBRATING ∧ w.stepper_state.stepper_stage ≠ TURNING ∧
        w.stepper_state.stepper_stage ≠ NORMAL_OPERATION) ∧
      initialize_stepper w time_us sensor =
        (calibration w time_us sensor).map (fun r => (true, r.1, r.2))) := by
  unfold initialize_stepper
  by_cases h1 : w.stepper_state.stepper_stage = RECALIBRATING ∨
      w.stepper_state.stepper_stage = TURNING
  · left
    exact ⟨h1, by rw [if_pos h1]⟩
  · right
    by_cases h2 : w.stepper_state.stepper_stage = NORMAL_OPERATION
    · left
      exact ⟨h2, by rw [if_neg h1, if_pos h2]⟩
    · right
      refine ⟨⟨fun h => h1 (Or.inl h), fun h => h1 (Or.inr h), h2⟩, ?_⟩
      rw [if_neg h1, if_neg h2]
      cases calibration w time_us sensor <;> rfl

/-- C10: persist before and after a normal turn. For every state with
compartment `c` and calibration value `revolution_steps`, what
`rotate_by_one_compartment` adds to the trace is exactly: one write of the
runtime-state record `{TURNING, c}`, then the forward steps of `run(1)`
(`revolution_steps / 8` motor outputs with delay 2), then one write of the
record `{NORMAL_OPERATION, c + 1}` (the increment of the `uint8_t` field);
no motor output precedes the first write or follows the last. -/
theorem rotate_persists_before_and_after (w : World) :
    (rotate_by_one_compartment w).events =
      w.events
        ++ [Event.eeprom_write eeprom_address_stepperstate
              [TURNING, w.stepper_state.current_compartment]]
        ++ step_events 2 true (w.stepper_data.revolution_steps / 8) w.current_step
        ++ [Event.eeprom_write eeprom_address_stepperstate
              [NORMAL_OPERATION, (w.stepper_state.current_compartment + 1) % 256]] ∧
    (run w 1).events =
      w.events ++ step_events 2 true (w.stepper_data.revolution_steps / 8) w.current_step ∧
    (step_events 2 true (w.stepper_data.revolution_steps / 8) w.current_step).length
      = w.stepper_data.revolution_steps / 8 ∧
    (∀ e ∈ step_events 2 true (w.stepper_data.revolution_steps / 8) w.current_step,
      ∃ pins, e = Event.motor pins 2) ∧
    (w.stepper_state.current_compartment < 255 →
      (w.stepper_state.current_compartment + 1) % 256 = w.stepper_state.current_compartment + 1)
    := by
  refine ⟨?_, ?_, step_events_length _ _ _ _, step_events_motor _ _ _ _, ?_⟩
  · unfold rotate_by_one_compartment
    simp only
    rw [save_stepper_state_events]
    simp only
    rw [run_events, save_stepper_state_events]
    simp only [(save_stepper_state_fields _).2.1, (save_stepper_state_fields _).2.2,
      (save_stepper_state_fields _).1, Nat.one_mul, (run_fields _ _).1]
  · rw [run_events, Nat.one_mul]
  · intro h
    omega

/-- C11: recalibration records its intent first. For every starting state
`{stage s, compartment c}` and every trace on which the backward edge search
ends, the first thing `recalibration` adds to the trace is the write of the
runtime-state record `{RECALIBRATING, c}`; everything between it and the
final write of the record is a motor output or a write inside the log region,
so all motor steps come after it and, at every point up to the final write,
the store read at the record's address gives `{RECALIBRATING, c}`. -/
theorem recalibration_records_intent_first (w : World) (time_us : Nat) (s0 : Bool)
    (sensor : List Bool) (ht : time_us < 2 ^ 64)
    (hedge : edge_seen false true s0 sensor = true) :
    ∃ (ret : Bool) (w' : World) (rest : List Bool) (mid : List Event),
      recalibration w time_us (s0 :: sensor) = some (ret, w', rest) ∧
      w'.events =
        w.events
          ++ [Event.eeprom_write eeprom_address_stepperstate
                [RECALIBRATING, w.stepper_state.current_compartment]]
          ++ mid
          ++ [Event.eeprom_write eeprom_address_stepperstate
                [w'.stepper_state.stepper_stage, w'.stepper_state.current_compartment]] ∧
      (∀ e ∈ mid, (∃ pins sleep_timer, e = Event.motor pins sleep_timer) ∨
        ∃ a p, e = Event.eeprom_write a p ∧ a + p.length ≤ 2048) ∧
      (∃ pins sleep_timer, Event.motor pins sleep_timer ∈ mid) ∧
      (∀ p q, mid = p ++ q →
        replay w.eeprom
            ([Event.eeprom_write eeprom_address_stepperstate
                [RECALIBRATING, w.stepper_state.current_compartment]] ++ p)
            eeprom_address_stepperstate = RECALIBRATING ∧
        replay w.eeprom
            ([Event.eeprom_write eeprom_address_stepperstate
                [RECALIBRATING, w.stepper_state.current_compartment]] ++ p)
            (eeprom_address_stepperstate + 1) = w.stepper_state.current_compartment) := by
  have hsome := edge_scan_isSome false true sensor s0
  rw [hedge] at hsome
  obtain ⟨r, hr⟩ := Option.isSome_iff_exists.mp hsome
  obtain ⟨motors, hm1, hm2, hm3⟩ := recalibration_moved_events w time_us r.1
  have hk := edge_scan_pos _ _ _ _ _ hr
  have hlen := sprintf_text_length time_us (cstring "Recalibration started") ht
  have hl : (cstring "Recalibration started").length = 21 := by decide
  have hlog := log_events_region
    (save_stepper_state
      { w with stepper_state := { w.stepper_state with stepper_stage := RECALIBRATING } }).eeprom
    (sprintf_text (time_us / 1000000) (cstring "Recalibration started")) (by omega)
  have hmid : ∀ e ∈ log_events
      (save_stepper_state
        { w with stepper_state :=
            { w.stepper_state with stepper_stage := RECALIBRATING } }).eeprom
      (sprintf_text (time_us / 1000000) (cstring "Recalibration started")) ++ motors,
      (∃ pins sleep_timer, e = Event.motor pins sleep_timer) ∨
        ∃ a p, e = Event.eeprom_write a p ∧ a + p.length ≤ 2048 := by
    intro e he
    rcases List.mem_append.mp he with he | he
    · exact Or.inr (hlog e he)
    · exact Or.inl (hm2 e he)
  refine ⟨decide ((w.stepper_state.current_compartment + 1) % 256 ≤ 7),
    save_stepper_state
      { recalibration_moved w time_us r.1 with
        stepper_state := recalibration_state w.stepper_state.current_compartment },
    r.2.2, _, ?_, ?_, hmid, ?_, ?_⟩
  · rw [recalibration_eq, hr]
    rfl
  · rw [save_stepper_state_events]
    simp only
    rw [hm1, recalibration_begin_events]
    simp only [List.append_assoc]
    rfl
  · cases motors with
    | nil => simp only [List.length_nil] at hm3; omega
    | cons e motors =>
      obtain ⟨pins, t, rfl⟩ := hm2 e (List.mem_cons_self _ _)
      exact ⟨pins, t, List.mem_append_right _ (List.mem_cons_self _ _)⟩
  · intro p q hpq
    have hp : ∀ e ∈ p, (∃ pins sleep_timer, e = Event.motor pins sleep_timer) ∨
        ∃ a p, e = Event.eeprom_write a p ∧ a + p.length ≤ 2048 := by
      intro e he
      exact hmid e (by rw [hpq]; exact List.mem_append_left _ he)
    have hge : 2048 ≤ eeprom_address_stepperstate := by decide
    have hsplit : ∀ (st : Store) (e : Event) (l : List Event),
        replay st ([e] ++ l) = replay (apply_event st e) l := fun _ _ _ => rfl
    rw [hsplit, replay_untouched p _ hp _ hge, replay_untouched p _ hp _ (by omega)]
    generalize eeprom_address_stepperstate = a
    simp only [apply_event, List.length_cons, List.length_nil]
    rw [if_pos (by omega), if_pos (by omega), Nat.sub_self, Nat.add_sub_cancel_left]
    exact ⟨rfl, rfl⟩

/-- Witness for C11: from `{TURNING, 3}` and a trace showing one falling edge. -/
theorem recalibration_records_intent_first_witness :
    ∃ (ret : Bool) (w' : World) (rest : List Bool) (mid : List Event),
      recalibration (interrupted_world 3) 0 (true :: [false, false]) = some (ret, w', rest) ∧
      w'.events =
        [Event.eeprom_write eeprom_address_stepperstate [RECALIBRATING, 3]]
          ++ mid
          ++ [Event.eeprom_write eeprom_address_stepperstate
                [w'.stepper_state.stepper_stage, w'.stepper_state.current_compartment]] := by
  obtain ⟨ret, w', rest, mid, h1, h2, _⟩ := recalibration_records_intent_first
    (interrupted_world 3) 0 true [false, false] (by decide) (by decide)
  exact ⟨ret, w', rest, mid, h1, h2⟩

set_option maxRecDepth 100000 in
/-- C12 (as stated, refuted): on an erased device and a trace on which
calibration ends, the whole trace of `calibration` is the log entry, eleven
motor outputs, the calibration record and the runtime-state record: no write
of the runtime-state record (address 0x7FFE) precedes the first motor output
and none separates the stage transitions. -/
theorem calibration_persists_nothing_before_moving :
    (calibration fresh_world 0 sample_trace).map (fun r => r.1.events) =
      some [Event.eeprom_write 0 (cstring "(0) Calibration started" ++ [0, 0x4E, 0x70]),
            Event.motor [1, 0, 0, 0] 2, Event.motor [1, 1, 0, 0] 2,
            Event.motor [0, 1, 0, 0] 3, Event.motor [0, 1, 1, 0] 3,
            Event.motor [0, 0, 1, 0] 3,
            Event.motor [0, 0, 1, 1] 3, Event.motor [0, 0, 0, 1] 3,
            Event.motor [1, 0, 0, 1] 3, Event.motor [1, 0, 0, 0] 3,
            Event.motor [1, 1, 0, 0] 3,
            Event.motor [0, 1, 0, 0] 3,
            Event.eeprom_write 0x7FFA [0, 4, 0, 3],
            Event.eeprom_write 0x7FFE [2, 0]] := by
  decide

/-- C12 (amended): calibration does not persist its stage transitions. On
every trace on which it ends, its trace is: the writes of the log entry, all
inside the log region; then motor outputs only, those of the five edge
searches and of the parking steps; then one write of the calibration record
and one write of the runtime-state record `{NORMAL_OPERATION, 0}`. No write
of a structured record precedes or separates the motor steps. -/
theorem calibration_persists_at_end_only (w : World) (time_us : Nat) (sensor : List Bool)
    (m : CalibrationTrace) (ht : time_us < 2 ^ 64) (h : calibration_trace sensor = some m) :
    ∃ (w' : World) (motors : List Event),
      calibration w time_us sensor = some (w', m.rest) ∧
      w'.events =
        w.events
          ++ log_events w.eeprom
               (sprintf_text (time_us / 1000000) (cstring "Calibration started"))
          ++ motors
          ++ [Event.eeprom_write eeprom_address_stepperdata
                [w'.stepper_data.revolution_steps >>> 8, w'.stepper_data.revolution_steps &&& 0xFF,
                 w'.stepper_data.sensor_width >>> 8, w'.stepper_data.sensor_width &&& 0xFF]]
          ++ [Event.eeprom_write eeprom_address_stepperstate [NORMAL_OPERATION, 0]] ∧
      (∀ e ∈ log_events w.eeprom
          (sprintf_text (time_us / 1000000) (cstring "Calibration started")),
        ∃ a p, e = Event.eeprom_write a p ∧ a + p.length ≤ 2048) ∧
      (∀ e ∈ motors, ∃ pins sleep_timer, e = Event.motor pins sleep_timer) ∧
      motors.length = m.start + m.sw0 + m.nsw0 + m.sw1 + m.nsw1
        + w'.stepper_data.sensor_width / 2 := by
  obtain ⟨motors, hm1, hm2, hm3⟩ := calibration_measured_events w time_us m
  refine ⟨calibration_final w time_us m,
    motors ++ step_events 3 true ((((m.sw0 + m.sw1) / 2) % 65536) / 2)
      (calibration_measured w time_us m).current_step, ?_, ?_, ?_, ?_, ?_⟩
  · rw [calibration_eq, h]
    rfl
  · rw [calibration_final_events, hm1, calibration_begin_events,
      (calibration_final_fields w time_us m).1]
    simp only [List.append_assoc]
  · apply log_events_region
    have := sprintf_text_length time_us (cstring "Calibration started") ht
    have hl : (cstring "Calibration started").length = 19 := by decide
    omega
  · intro e he
    rcases List.mem_append.mp he with he | he
    · exact hm3 e he
    · obtain ⟨p, hp⟩ := step_events_motor _ _ _ _ e he
      exact ⟨p, _, hp⟩
  · rw [List.length_append, hm2, step_events_length, (calibration_final_fields w time_us m).1]

/-- Witness for C12: calibration of an erased device on the sample trace. -/
theorem calibration_persists_at_end_only_witness :
    ∃ (w' : World) (motors : List Event),
      calibration fresh_world 0 sample_trace = some (w', []) ∧
      motors.length = 2 + 2 + 1 + 4 + 1 + w'.stepper_data.sensor_width / 2 ∧
      (∀ e ∈ motors, ∃ pins sleep_timer, e = Event.motor pins sleep_timer) := by
  obtain ⟨w', motors, h1, _, _, h4, h5⟩ := calibration_persists_at_end_only fresh_world 0
    sample_trace
    { start := 2, sw0 := 2, nsw0 := 1, sw1 := 4, nsw1 := 1, rest := [] } (by decide) rfl
  exact ⟨w', motors, h1, h5, h4⟩

/-- C14: calibration outcome. For every starting state and every trace on
which calibration ends, after the averages are stored in `stepper_data` the
trace grows by exactly `sensor_width div 2` forward motor outputs, then the
write of the calibration record, and only then the write of the runtime-state
record `{NORMAL_OPERATION, 0}`; the final runtime state, in memory and in the
store, is `{NORMAL_OPERATION, 0}`. -/
theorem calibration_outcome (w : World) (time_us : Nat) (sensor : List Bool)
    (m : CalibrationTrace) (h : calibration_trace sensor = some m) :
    ∃ w' : World,
      calibration w time_us sensor = some (w', m.rest) ∧
      (calibration_measured w time_us m).stepper_data = w'.stepper_data ∧
      w'.events =
        (calibration_measured w time_us m).events
          ++ step_events 3 true (w'.stepper_data.sensor_width / 2)
               (calibration_measured w time_us m).current_step
          ++ [Event.eeprom_write eeprom_address_stepperdata
                [w'.stepper_data.revolution_steps >>> 8, w'.stepper_data.revolution_steps &&& 0xFF,
                 w'.stepper_data.sensor_width >>> 8, w'.stepper_data.sensor_width &&& 0xFF]]
          ++ [Event.eeprom_write eeprom_address_stepperstate [NORMAL_OPERATION, 0]] ∧
      (step_events 3 true (w'.stepper_data.sensor_width / 2)
          (calibration_measured w time_us m).current_step).length
        = w'.stepper_data.sensor_width / 2 ∧
      w'.stepper_state = { stepper_stage := NORMAL_OPERATION, current_compartment := 0 } ∧
      (load_stepper_state w').stepper_state
        = { stepper_stage := NORMAL_OPERATION, current_compartment := 0 } := by
  refine ⟨calibration_final w time_us m, ?_, ?_, ?_, step_events_length _ _ _ _,
    (calibration_final_fields w time_us m).2, ?_⟩
  · rw [calibration_eq, h]
    rfl
  · rw [(calibration_final_fields w time_us m).1, (calibration_measured_fields w time_us m).1]
  · rw [calibration_final_events, (calibration_final_fields w time_us m).1]
  · rw [(calibration_final_persisted w time_us m).1, (calibration_final_fields w time_us m).2]

/-- Witness for C14: a fresh all-zero store ends with the record
`{NORMAL_OPERATION, 0}`. -/
theorem calibration_outcome_witness :
    ∃ w' : World,
      calibration fresh_world 0 sample_trace = some (w', []) ∧
      (load_stepper_state w').stepper_state
        = { stepper_stage := NORMAL_OPERATION, current_compartment := 0 } := by
  obtain ⟨w', h1, _, _, _, _, h6⟩ := calibration_outcome fresh_world 0 sample_trace
    { start := 2, sw0 := 2, nsw0 := 1, sw1 := 4, nsw1 := 1, rest := [] } rfl
  exact ⟨w', h1, h6⟩

/-- C15: calibration record invariant. On every trace on which calibration
ends and whose two per-round revolution totals are below 2^16, the
calibration record written by calibration, in memory and in the store,
satisfies `sensor_width < revolution_steps`. -/
theorem calibration_record_invariant (w : World) (time_us : Nat) (sensor : List Bool)
    (m : CalibrationTrace) (h : calibration_trace sensor = some m)
    (h0 : m.sw0 + m.nsw0 < 65536) (h1 : m.sw1 + m.nsw1 < 65536) :
    ∃ w' : World,
      calibration w time_us sensor = some (w', m.rest) ∧
      w'.stepper_data.sensor_width < w'.stepper_data.revolution_steps ∧
      (load_stepper_data w').stepper_data.sensor_width
        < (load_stepper_data w').stepper_data.revolution_steps := by
  obtain ⟨_, _, hn0, _, hn1⟩ := calibration_trace_pos sensor m h
  have hlt : ((m.sw0 + m.sw1) / 2) % 65536
      < (((m.nsw0 + m.sw0) + (m.nsw1 + m.sw1)) / 2) % 65536 := by omega
  refine ⟨calibration_final w time_us m, ?_, ?_, ?_⟩
  · rw [calibration_eq, h]
    rfl
  · rw [(calibration_final_fields w time_us m).1]
    exact hlt
  · rw [(calibration_final_persisted w time_us m).2, (calibration_final_fields w time_us m).1]
    exact hlt

/-- Witness for C15: on the sample trace the record is `{4, 3}`. -/
theorem calibration_record_invariant_witness :
    ∃ w' : World,
      calibration fresh_world 0 sample_trace = some (w', []) ∧
      w'.stepper_data.sensor_width < w'.stepper_data.revolution_steps :=
  have h := calibration_record_invariant fresh_world 0 sample_trace
    { start := 2, sw0 := 2, nsw0 := 1, sw1 := 4, nsw1 := 1, rest := [] } rfl
    (by decide) (by decide)
  h.elim (fun w' hw => ⟨w', hw.1, hw.2.1⟩)

/-- C16 (as stated, refuted): with `revolution_steps = 4095`, a call within
the range of `int`, `run(1)` issues 511 motor steps, while
`1 * 4095 / 8 = 511.875` rounds to 512. -/
theorem run_truncates :
    run_in_int_range (world_with_revolution 4095) 1 ∧
    (run (world_with_revolution 4095) 1).events.length = 511 ∧
    round_nearest (1 * 4095) 8 = 512 ∧
    (run (world_with_revolution 4095) 1).events.length ≠ round_nearest (1 * 4095) 8 := by
  have h : (run (world_with_revolution 4095) 1).events.length = 511 := by
    rw [run_events, List.length_append, step_events_length]
    rfl
  refine ⟨by decide, h, by decide, ?_⟩
  rw [h]
  decide

/-- C16 (amended): for every compartment count `n` and every 16-bit
`revolution_steps` for which the product `n * revolution_steps / 8` is within
`int` (`run_in_int_range`, the range in which the cast of `run` is defined),
`run(n)` issues exactly `floor(n * revolution_steps / 8)` forward motor steps
(the cast to `int` truncates) and no reverse step: the trace grows by that
many motor outputs with delay 2, the number is at most `INT_MAX`, and
`current_step` is advanced that many times by the forward update. -/
theorem run_step_count (w : World) (n : Nat) (h : run_in_int_range w n) :
    (run w n).events = w.events ++
      step_events 2 true (n * w.stepper_data.revolution_steps / 8) w.current_step ∧
    (step_events 2 true (n * w.stepper_data.revolution_steps / 8) w.current_step).length
      = n * w.stepper_data.revolution_steps / 8 ∧
    (step_events 2 true (n * w.stepper_data.revolution_steps / 8) w.current_step).length
      ≤ INT_MAX ∧
    (∀ e ∈ step_events 2 true (n * w.stepper_data.revolution_steps / 8) w.current_step,
      ∃ pins, e = Event.motor pins 2) ∧
    (run w n).current_step = next_step^[n * w.stepper_data.revolution_steps / 8] w.current_step ∧
    8 * (n * w.stepper_data.revolution_steps / 8) ≤ n * w.stepper_data.revolution_steps ∧
    n * w.stepper_data.revolution_steps < 8 * (n * w.stepper_data.revolution_steps / 8 + 1) := by
  refine ⟨run_events w n, step_events_length _ _ _ _, ?_, step_events_motor _ _ _ _, ?_, ?_, ?_⟩
  · rw [step_events_length]
    exact h.2.2
  · unfold run
    simp only
    rw [step_loop_current_step]
    rfl
  · omega
  · omega

/-- Witness for C16 (amended): with `revolution_steps = 4095`, `run(8)` is
within the range of `int` and issues 4095 motor steps. -/
theorem run_step_count_witness :
    run_in_int_range (world_with_revolution 4095) 8 ∧
    (run (world_with_revolution 4095) 8).events =
      (world_with_revolution 4095).events ++ step_events 2 true 4095 0 :=
  ⟨by decide, (run_step_count (world_with_revolution 4095) 8 (by decide)).1⟩

/-- C17 (as stated, refuted): on a device that was idle in `NORMAL_OPERATION`
at power loss (persisted record `{NORMAL_OPERATION, 0}`),
`initialize_stepper_data` loads that stage and returns true. -/
theorem initialize_stepper_data_true_when_idle :
    (load_stepper_state (save_stepper_state calibrated_world)).stepper_state
      = { stepper_stage := NORMAL_OPERATION, current_compartment := 0 } ∧
    (initialize_stepper_data (save_stepper_state calibrated_world)).2.stepper_state.stepper_stage
      = NORMAL_OPERATION ∧
    (initialize_stepper_data (save_stepper_state calibrated_world)).1 = true := by
  have h := initialize_stepper_data_eq (save_stepper_state calibrated_world)
  have e0 : (save_stepper_state calibrated_world).eeprom eeprom_address_stepperstate
      = NORMAL_OPERATION := by
    rw [save_stepper_state_eeprom, if_pos rfl]
    rfl
  refine ⟨load_save_stepper_state calibrated_world, ?_, ?_⟩
  · rw [h.2.1, e0]
  · rw [h.1, e0]
    decide

/-- C17 (amended): `initialize_stepper_data` returns true exactly when the
stage loaded from the store is not `INITIAL`: for `TURNING` and
`RECALIBRATING`, and also for `NORMAL_OPERATION` (the device was idle at
power loss) and for any unrecognised value; it returns false exactly for
`INITIAL`. -/
theorem initialize_stepper_data_reports_not_initial (w : World) :
    ((initialize_stepper_data w).1 = true ↔
      (w.eeprom eeprom_address_stepperstate = TURNING ∨
       w.eeprom eeprom_address_stepperstate = RECALIBRATING ∨
       w.eeprom eeprom_address_stepperstate = NORMAL_OPERATION ∨
       TURNING < w.eeprom eeprom_address_stepperstate)) ∧
    ((initialize_stepper_data w).1 = false ↔ w.eeprom eeprom_address_stepperstate = INITIAL) ∧
    (initialize_stepper_data w).2.stepper_state.stepper_stage
      = w.eeprom eeprom_address_stepperstate := by
  obtain ⟨h1, h2, _⟩ := initialize_stepper_data_eq w
  rw [h1, h2]
  generalize w.eeprom eeprom_address_stepperstate = s
  simp only [INITIAL, TURNING, RECALIBRATING, NORMAL_OPERATION, decide_eq_true_eq,
    decide_eq_false_iff_not, not_not, ne_eq, and_true]
  constructor <;> omega

/-- C18: `initialize_stepper_data` returns true if and only if the stage byte
loaded from the store is not `INITIAL` (0). For every store content it loads
both records and changes nothing in the store; on a fresh all-zero store it
returns false. -/
theorem initialize_stepper_data_iff (w : World) :
    ((initialize_stepper_data w).1 = true ↔ w.eeprom eeprom_address_stepperstate ≠ 0) ∧
    ((initialize_stepper_data w).1 = false ↔ w.eeprom eeprom_address_stepperstate = 0) ∧
    (initialize_stepper_data w).2.stepper_state =
      { stepper_stage := w.eeprom eeprom_address_stepperstate,
        current_compartment := w.eeprom (eeprom_address_stepperstate + 1) } ∧
    (initialize_stepper_data w).2.stepper_data =
      { revolution_steps :=
          ((w.eeprom eeprom_address_stepperdata <<< 8) |||
            w.eeprom (eeprom_address_stepperdata + 1)) % 65536,
        sensor_width :=
          ((w.eeprom (eeprom_address_stepperdata + 2) <<< 8) |||
            w.eeprom (eeprom_address_stepperdata + 3)) % 65536 } ∧
    (initialize_stepper_data w).2.eeprom = w.eeprom ∧
    (initialize_stepper_data fresh_world).1 = false := by
  obtain ⟨h1, h2, h3, h4, _⟩ := initialize_stepper_data_eq w
  refine ⟨?_, ?_, h2, ?_, h4, ?_⟩
  · rw [h1]
    simp [INITIAL]
  · rw [h1]
    simp [INITIAL]
  · rw [h3, load_stepper_data_eq]
  · rw [(initialize_stepper_data_eq fresh_world).1]
    rfl

/-- C19: structured record round trip and layout. For every calibration
record of two 16-bit values `save_stepper_data` writes the 4 bytes
`[revolution_steps >> 8, revolution_steps & 0xFF, sensor_width >> 8,
sensor_width & 0xFF]` at the calibration address, the store then holds these
bytes at 0x7FFA..0x7FFD, and `load_stepper_data` run on the resulting store,
from any values of the globals (`v` is any state with that store), returns
the same record; for every runtime state `save_stepper_state` writes the 2
bytes `[stage, current_compartment]`, the store holds them at 0x7FFE and
0x7FFF, and `load_stepper_state` on the resulting store returns the same
state. -/
theorem structured_record_round_trip (w : World)
    (h1 : w.stepper_data.revolution_steps < 65536) (h2 : w.stepper_data.sensor_width < 65536)
    (h3 : w.stepper_state.stepper_stage < 256) (h4 : w.stepper_state.current_compartment < 256) :
    (save_stepper_data w).events = w.events ++
      [Event.eeprom_write eeprom_address_stepperdata
        [w.stepper_data.revolution_steps >>> 8, w.stepper_data.revolution_steps &&& 0xFF,
         w.stepper_data.sensor_width >>> 8, w.stepper_data.sensor_width &&& 0xFF]] ∧
    ((save_stepper_data w).eeprom 0x7FFA = w.stepper_data.revolution_steps >>> 8 ∧
      (save_stepper_data w).eeprom 0x7FFB = w.stepper_data.revolution_steps &&& 0xFF ∧
      (save_stepper_data w).eeprom 0x7FFC = w.stepper_data.sensor_width >>> 8 ∧
      (save_stepper_data w).eeprom 0x7FFD = w.stepper_data.sensor_width &&& 0xFF) ∧
    (∀ v : World, v.eeprom = (save_stepper_data w).eeprom →
      (load_stepper_data v).stepper_data = w.stepper_data) ∧
    (save_stepper_state w).events = w.events ++
      [Event.eeprom_write eeprom_address_stepperstate
        [w.stepper_state.stepper_stage, w.stepper_state.current_compartment]] ∧
    ((save_stepper_state w).eeprom 0x7FFE = w.stepper_state.stepper_stage ∧
      (save_stepper_state w).eeprom 0x7FFF = w.stepper_state.current_compartment) ∧
    (∀ v : World, v.eeprom = (save_stepper_state w).eeprom →
      (load_stepper_state v).stepper_state = w.stepper_state) ∧
    (∀ b ∈ [w.stepper_data.revolution_steps >>> 8, w.stepper_data.revolution_steps &&& 0xFF,
            w.stepper_data.sensor_width >>> 8, w.stepper_data.sensor_width &&& 0xFF,
            w.stepper_state.stepper_stage, w.stepper_state.current_compartment], b < 256) := by
  have e1 : (w.stepper_data.revolution_steps >>> 8) % 256
      = w.stepper_data.revolution_steps >>> 8 := by
    rw [Nat.shiftRight_eq_div_pow]; omega
  have e2 : (w.stepper_data.sensor_width >>> 8) % 256 = w.stepper_data.sensor_width >>> 8 := by
    rw [Nat.shiftRight_eq_div_pow]; omega
  have e3 : ∀ v : Nat, (v &&& 0xFF) % 256 = v &&& 0xFF := by
    intro v
    rw [and_255, Nat.mod_mod]
  have d0 : (save_stepper_data w).eeprom eeprom_address_stepperdata
      = w.stepper_data.revolution_steps >>> 8 := by
    rw [save_stepper_data_eeprom, if_pos (by omega), Nat.sub_self, e1]
    rfl
  have d1 : (save_stepper_data w).eeprom (eeprom_address_stepperdata + 1)
      = w.stepper_data.revolution_steps &&& 0xFF := by
    rw [save_stepper_data_eeprom, if_pos (by omega), Nat.add_sub_cancel_left]
    simp only [e3, List.getD_cons_zero, List.getD_cons_succ]
  have d2 : (save_stepper_data w).eeprom (eeprom_address_stepperdata + 2)
      = w.stepper_data.sensor_width >>> 8 := by
    rw [save_stepper_data_eeprom, if_pos (by omega), Nat.add_sub_cancel_left, e2]
    rfl
  have d3 : (save_stepper_data w).eeprom (eeprom_address_stepperdata + 3)
      = w.stepper_data.sensor_width &&& 0xFF := by
    rw [save_stepper_data_eeprom, if_pos (by omega), Nat.add_sub_cancel_left]
    simp only [e3, List.getD_cons_zero, List.getD_cons_succ]
  have s0 : (save_stepper_state w).eeprom eeprom_address_stepperstate
      = w.stepper_state.stepper_stage := by
    rw [save_stepper_state_eeprom, if_pos rfl]
  have s1 : (save_stepper_state w).eeprom (eeprom_address_stepperstate + 1)
      = w.stepper_state.current_compartment := by
    rw [save_stepper_state_eeprom, if_neg (by omega), if_pos rfl]
  refine ⟨?_, ⟨d0, d1, d2, d3⟩, ?_, save_stepper_state_events w, ⟨s0, s1⟩, ?_, ?_⟩
  · rw [save_stepper_data_events, e1, e2, e3, e3]
  · intro v hv
    have r1 := be16_decode _ h1
    have r2 := be16_decode _ h2
    rw [e1, e3] at r1
    rw [e2, e3] at r2
    rw [load_stepper_data_eq, hv, d0, d1, d2, d3, r1, r2]
  · intro v hv
    rw [load_stepper_state_eq, hv, s0, s1]
  · intro b hb
    simp only [List.mem_cons, List.mem_singleton, List.not_mem_nil, or_false] at hb
    rcases hb with rfl | rfl | rfl | rfl | rfl | rfl
    · rw [← e1]; exact Nat.mod_lt _ (by norm_num)
    · rw [and_255]; exact Nat.mod_lt _ (by norm_num)
    · rw [← e2]; exact Nat.mod_lt _ (by norm_num)
    · rw [and_255]; exact Nat.mod_lt _ (by norm_num)
    · exact h3
    · exact h4

/-- Witness for C19: the record `{4096, 200}` is stored as 0x10 0x00 0x00 0xC8
and a device whose globals hold the boot values `{4096, 0}` reads `{4096, 200}`
back from that store; the state `{NORMAL_OPERATION, 0}` is read back by a
device whose globals hold `{INITIAL, 0}`. -/
theorem structured_record_round_trip_witness :
    (save_stepper_data calibrated_world).events =
      [Event.eeprom_write 0x7FFA [0x10, 0x00, 0x00, 0xC8]] ∧
    (load_stepper_data
      { fresh_world with eeprom := (save_stepper_data calibrated_world).eeprom }).stepper_data
      = { revolution_steps := 4096, sensor_width := 200 } ∧
    (load_stepper_state
      { fresh_world with eeprom := (save_stepper_state calibrated_world).eeprom }).stepper_state
      = { stepper_stage := NORMAL_OPERATION, current_compartment := 0 } := by
  have h := structured_record_round_trip calibrated_world (by decide) (by decide) (by decide)
    (by decide)
  exact ⟨h.1, h.2.2.1 _ rfl, h.2.2.2.2.2.1 _ rfl⟩

/-- C20: crc16 equals the specified recurrence. For every byte string `crc16`
is the left fold, from 0xFFFF, of the update written in the words of the
specification (`crc16_recurrence`); `crc16` of the empty string is 0xFFFF. -/
theorem crc16_is_fold (s : List Nat) (hs : ∀ b ∈ s, b < 256) :
    crc16 s s.length = s.foldl crc16_recurrence 0xFFFF ∧ crc16 [] 0 = 0xFFFF :=
  ⟨crc16_loop_eq_foldl s 0xFFFF (by norm_num) hs, rfl⟩

/-- Witness for C20: the ASCII digits 1..9, whose check value is 0x29B1. -/
theorem crc16_is_fold_witness :
    crc16 (cstring "123456789") 9 = (cstring "123456789").foldl crc16_recurrence 0xFFFF ∧
    (cstring "123456789").foldl crc16_recurrence 0xFFFF = 0x29B1 :=
  ⟨(crc16_is_fold (cstring "123456789") (by decide)).1, by decide⟩

/-- C21: sequence index invariant. Starting from `current_step` in 0..7, the
forward update is `(current_step + 1) mod 8` and the reverse update is
`(current_step + 7) mod 8`; `run`, `rotate_by_one_compartment`,
`recalibration` and `calibration` end with `current_step` in 0..7 and every
motor output they make uses a row of `seq_table` (the lookup is in bounds);
`n` forward steps followed by `n` reverse steps restore `current_step`. -/
theorem sequence_index_invariant (w : World) (h : w.current_step ≤ 7) :
    (next_step w.current_step = (w.current_step + 1) % 8 ∧
      previous_step w.current_step = (w.current_step + 7) % 8) ∧
    (∀ n, steps_in_bounds w (run w n)) ∧
    steps_in_bounds w (rotate_by_one_compartment w) ∧
    (∀ time_us sensor ret w' rest,
      recalibration w time_us sensor = some (ret, w', rest) → steps_in_bounds w w') ∧
    (∀ time_us sensor w' rest,
      calibration w time_us sensor = some (w', rest) → steps_in_bounds w w') ∧
    (∀ n t1 t2,
      (step_loop t2 false n (step_loop t1 true n w)).current_step = w.current_step) := by
  refine ⟨⟨(next_step_eq _ h).1, (previous_step_eq _ h).1⟩,
    fun n => steps_in_bounds_run w n h, steps_in_bounds_rotate w h, ?_, ?_, ?_⟩
  · intro time_us sensor ret w' rest hres
    cases sensor with
    | nil => simp [recalibration] at hres
    | cons s0 sensor =>
      rw [recalibration_eq] at hres
      cases hr : edge_scan false true s0 sensor with
      | none => rw [hr] at hres; simp at hres
      | some r =>
        rw [hr] at hres
        simp only [Option.map_some', Option.some.injEq, Prod.mk.injEq] at hres
        obtain ⟨_, hw, _⟩ := hres
        rw [← hw]
        have hm := steps_in_bounds_recalibration_moved w time_us r.1 h
        exact steps_in_bounds_trans _ _ _ hm (steps_in_bounds_save_state _ _ hm.1)
  · intro time_us sensor w' rest hres
    rw [calibration_eq] at hres
    cases hm : calibration_trace sensor with
    | none => rw [hm] at hres; simp at hres
    | some m =>
      rw [hm] at hres
      simp only [Option.map_some', Option.some.injEq, Prod.mk.injEq] at hres
      rw [← hres.1]
      exact steps_in_bounds_calibration_final w time_us m h
  · intro n t1 t2
    rw [step_loop_current_step, step_loop_current_step]
    simp only [Bool.false_eq_true, if_false, if_true]
    have key : ∀ (k c : Nat), c ≤ 7 → previous_step^[k] (next_step^[k] c) = c := by
      intro k
      induction k with
      | zero => intro c _; rfl
      | succ k ih =>
        intro c hc
        have hk : next_step^[k] c ≤ 7 := by simpa using step_index_le true k c hc
        rw [Function.iterate_succ_apply, Function.iterate_succ_apply',
          previous_next_step _ hk, ih c hc]
    exact key n w.current_step h

/-- Witness for C21: from index 0, a calibrated device keeps the invariant
over a turn, and five steps forward then five back return to index 0. -/
theorem sequence_index_invariant_witness :
    steps_in_bounds calibrated_world (rotate_by_one_compartment calibrated_world) ∧
    (step_loop 3 false 5 (step_loop 2 true 5 calibrated_world)).current_step = 0 :=
  ⟨(sequence_index_invariant calibrated_world (by decide)).2.2.1,
   (sequence_index_invariant calibrated_world (by decide)).2.2.2.2.2 5 2 3⟩

/-- C22: `crc16` is the bitwise CRC-16/CCITT-FALSE. For every byte string,
`crc16` over the whole string equals the MSB-first bit-by-bit CRC with
polynomial 0x1021, initial value 0xFFFF, no reflection and no final xor. -/
theorem crc16_is_ccitt_false (s : List Nat) (hs : ∀ b ∈ s, b < 256) :
    crc16 s s.length = crc_ccitt_false s :=
  crc16_loop_eq_ccitt s 0xFFFF (by norm_num) hs

/-- Witness for C22: the check value of the ASCII bytes "123456789" is
0x29B1 for both computations. -/
theorem crc16_is_ccitt_false_witness :
    crc16 [0x31, 0x32, 0x33, 0x34, 0x35, 0x36, 0x37, 0x38, 0x39] 9 =
        crc_ccitt_false [0x31, 0x32, 0x33, 0x34, 0x35, 0x36, 0x37, 0x38, 0x39] ∧
      crc16 [0x31, 0x32, 0x33, 0x34, 0x35, 0x36, 0x37, 0x38, 0x39] 9 = 0x29B1 :=
  ⟨crc16_is_ccitt_false [0x31, 0x32, 0x33, 0x34, 0x35, 0x36, 0x37, 0x38, 0x39] (by decide),
   by decide⟩

/-- C23: single-byte corruption is always detected. Two byte strings of
equal length that differ in exactly one position `i` have different `crc16`
values; hence, when the scan of `write_log_entry` accepts the slot `s`
(`slot_selected s = false`) and `t` differs from `s` in one byte of the
checksummed window with the terminator at the same position, the CRC over
that window of `t` is non-zero and the scan rejects `t`. -/
theorem single_byte_corruption_detected (s t : List Nat) (i : Nat)
    (hs : ∀ x ∈ s, x < 256) (ht : ∀ x ∈ t, x < 256)
    (hlen : s.length = t.length) (hi : i < s.length)
    (hne : s[i]? ≠ t[i]?) (hsame : ∀ j, j ≠ i → s[j]? = t[j]?) :
    crc16 s s.length ≠ crc16 t t.length ∧
    (slot_selected s = false → calculate_entry_length t = calculate_entry_length s →
      i < (calculate_entry_length s + 3).toNat →
      crc16 t (calculate_entry_length t + 3).toNat ≠ 0 ∧ slot_selected t = true) := by
  constructor
  · rw [← hlen]
    exact crc16_loop_single_difference s t i s.length 0xFFFF (by norm_num) hs ht hlen hi hi
      hne hsame
  · intro hvalid hterm hwin
    have hcrc : crc16 s (calculate_entry_length s + 3).toNat = 0 := by
      by_contra h
      have := (slot_selected_eq_true s).mpr (Or.inr (Or.inr h))
      rw [hvalid] at this
      exact Bool.false_ne_true this
    have hdiff := crc16_loop_single_difference s t i (calculate_entry_length s + 3).toNat
      0xFFFF (by norm_num) hs ht hlen hi hwin hne hsame
    have hnz : crc16 t (calculate_entry_length t + 3).toNat ≠ 0 := by
      rw [hterm]
      intro h
      apply hdiff
      unfold crc16 at hcrc h
      rw [hcrc, h]
    exact ⟨hnz, (slot_selected_eq_true t).mpr (Or.inr (Or.inr hnz))⟩

set_option maxRecDepth 100000 in
/-- Witness for C23: slot 0 of a store holding the entry "A" is accepted by
the scan; with its first byte changed from 0x41 to 0x42 the checksums differ
and the scan rejects it. -/
theorem single_byte_corruption_detected_witness :
    slot_selected (slot (store_with_entries 1) 0) = false ∧
    crc16 (slot (store_with_entries 1) 0) 64 ≠
      crc16 ((slot (store_with_entries 1) 0).set 0 66) 64 ∧
    slot_selected ((slot (store_with_entries 1) 0).set 0 66) = true :=
  ⟨by decide,
   (single_byte_corruption_detected (slot (store_with_entries 1) 0)
      ((slot (store_with_entries 1) 0).set 0 66) 0 (by decide) (by decide) (by decide)
      (by decide) (by decide) (fun j hj => (List.getElem?_set_ne (Ne.symm hj)).symm)).1,
   ((single_byte_corruption_detected (slot (store_with_entries 1) 0)
      ((slot (store_with_entries 1) 0).set 0 66) 0 (by decide) (by decide) (by decide)
      (by decide) (by decide) (fun j hj => (List.getElem?_set_ne (Ne.symm hj)).symm)).2
      (by decide) (by decide) (by decide)).2⟩

/-- C24: recalibration under an out-of-range compartment byte. For every
8-bit `current_compartment` `c` and every trace on which the backward edge
search ends (after `k` steps), the compartment persisted at the end of
`recalibration` is in 0..7 and the call returns false if and only if
`7 ≤ c ≤ 254`. The result is the state in which `run` is called
(`recalibration_parked`), followed by `run` with `c + 1` compartments,
computed without wrap-around, and the final save: the trace of the parked
state is extended by exactly `(c + 1) * revolution_steps / 8` forward motor
outputs and the state write. For `c = 255` the 8-bit `new_compartment` is 0,
`recalibration` persists `{NORMAL_OPERATION, 0}` and returns true while `run`
gets 256 compartments, that is `256 * revolution_steps / 8` forward steps. -/
theorem recalibration_out_of_range_compartment (w : World) (time_us : Nat) (s0 : Bool)
    (sensor : List Bool) (hc : w.stepper_state.current_compartment < 256)
    (hedge : edge_seen false true s0 sensor = true) :
    ∃ (ret : Bool) (w' : World) (k : Nat) (last : Bool) (rest : List Bool),
      edge_scan false true s0 sensor = some (k, last, rest) ∧
      recalibration w time_us (s0 :: sensor) = some (ret, w', rest) ∧
      (load_stepper_state w').stepper_state = w'.stepper_state ∧
      w'.stepper_state.current_compartment ≤ 7 ∧
      (ret = false ↔
        7 ≤ w.stepper_state.current_compartment ∧ w.stepper_state.current_compartment ≤ 254) ∧
      w' = save_stepper_state
        { run (recalibration_parked w time_us k) (w.stepper_state.current_compartment + 1) with
          stepper_state := recalibration_state w.stepper_state.current_compartment } ∧
      w'.events = (recalibration_parked w time_us k).events
        ++ step_events 2 true
             ((w.stepper_state.current_compartment + 1) * w.stepper_data.revolution_steps / 8)
             (recalibration_parked w time_us k).current_step
        ++ [Event.eeprom_write eeprom_address_stepperstate
              [w'.stepper_state.stepper_stage, w'.stepper_state.current_compartment]] ∧
      (w.stepper_state.current_compartment = 255 →
        ret = true ∧
        w'.stepper_state = { stepper_stage := NORMAL_OPERATION, current_compartment := 0 } ∧
        w' = save_stepper_state
          { run (recalibration_parked w time_us k) 256 with
            stepper_state := { stepper_stage := NORMAL_OPERATION, current_compartment := 0 } } ∧
        w'.events = (recalibration_parked w time_us k).events
          ++ step_events 2 true (256 * w.stepper_data.revolution_steps / 8)
               (recalibration_parked w time_us k).current_step
          ++ [Event.eeprom_write eeprom_address_stepperstate [NORMAL_OPERATION, 0]]) := by
  have hsome := edge_scan_isSome false true sensor s0
  rw [hedge] at hsome
  obtain ⟨r, hr⟩ := Option.isSome_iff_exists.mp hsome
  have hmoved := recalibration_moved_eq_run w time_us r.1
  have hw : save_stepper_state
      { recalibration_moved w time_us r.1 with
        stepper_state := recalibration_state w.stepper_state.current_compartment } =
      save_stepper_state
        { run (recalibration_parked w time_us r.1) (w.stepper_state.current_compartment + 1) with
          stepper_state := recalibration_state w.stepper_state.current_compartment } := by
    rw [hmoved]
  have hev : (save_stepper_state
      { recalibration_moved w time_us r.1 with
        stepper_state := recalibration_state w.stepper_state.current_compartment }).events =
      (recalibration_parked w time_us r.1).events
        ++ step_events 2 true
             ((w.stepper_state.current_compartment + 1) * w.stepper_data.revolution_steps / 8)
             (recalibration_parked w time_us r.1).current_step
        ++ [Event.eeprom_write eeprom_address_stepperstate
              [(recalibration_state w.stepper_state.current_compartment).stepper_stage,
               (recalibration_state w.stepper_state.current_compartment).current_compartment]] := by
    rw [save_stepper_state_events]
    simp only
    rw [hmoved, run_events, (recalibration_parked_fields w time_us r.1).2]
  refine ⟨decide ((w.stepper_state.current_compartment + 1) % 256 ≤ 7),
    save_stepper_state
      { recalibration_moved w time_us r.1 with
        stepper_state := recalibration_state w.stepper_state.current_compartment },
    r.1, r.2.1, r.2.2, hr, ?_, load_save_stepper_state _, ?_, ?_, hw, hev, ?_⟩
  · rw [recalibration_eq, hr]
    rfl
  · show (recalibration_state w.stepper_state.current_compartment).current_compartment ≤ 7
    unfold recalibration_state
    split
    · assumption
    · exact Nat.zero_le _
  · rw [decide_eq_false_iff_not]
    omega
  · intro h255
    have hst : recalibration_state w.stepper_state.current_compartment
        = { stepper_stage := NORMAL_OPERATION, current_compartment := 0 } := by
      rw [h255]
      rfl
    refine ⟨?_, hst, ?_, ?_⟩
    · rw [decide_eq_true_eq, h255]
      decide
    · rw [hw, hst, h255]
    · rw [hev, hst, h255]

set_option maxRecDepth 100000 in
/-- Witness for C24: the record `{TURNING, 255}` ends as `{NORMAL_OPERATION, 0}`
with the return value true, after `256 * 4096 / 8 = 131072` forward steps of
`run`. -/
theorem recalibration_out_of_range_compartment_witness :
    ∃ (w' : World) (rest : List Bool),
      recalibration (interrupted_world 255) 0 (true :: [false, false]) = some (true, w', rest) ∧
      (load_stepper_state w').stepper_state
        = { stepper_stage := NORMAL_OPERATION, current_compartment := 0 } ∧
      w'.events = (recalibration_parked (interrupted_world 255) 0 1).events
        ++ step_events 2 true 131072 7
        ++ [Event.eeprom_write eeprom_address_stepperstate [NORMAL_OPERATION, 0]] := by
  obtain ⟨ret, w', k, last, rest, h0, h1, h2, _, _, _, _, h7⟩ :=
    recalibration_out_of_range_compartment (interrupted_world 255) 0 true [false, false]
      (by decide) (by decide)
  obtain ⟨k1, k2, _, k4⟩ := h7 rfl
  have hk : k = 1 := by
    have e : edge_scan false true true [false, false] = some (1, false, []) := by decide
    rw [e] at h0
    simp only [Option.some.injEq, Prod.mk.injEq] at h0
    exact h0.1.symm
  rw [k1] at h1
  rw [hk] at k4
  have hstep : (recalibration_parked (interrupted_world 255) 0 1).current_step = 7 := by
    unfold recalibration_parked
    simp only
    rw [step_loop_current_step, step_loop_current_step,
      (step_loop_fields _ _ _ _).2.1, (recalibration_begin_fields _ _).2.1,
      (recalibration_begin_fields _ _).2.2]
    rfl
  rw [hstep] at k4
  exact ⟨w', rest, h1, by rw [h2]; exact k2, k4⟩

/-- C25: recovery position versus normal position. For every
`revolution_steps` `r` and every `c`, the single `run(c + 1)` of
`recalibration` issues `floor((c + 1) * r / 8)` steps and `c + 1` successive
`rotate_by_one_compartment` calls issue `(c + 1) * floor(r / 8)` steps; the
first number minus the second lies between 0 and `c` and is 0 when `r` is
divisible by 8; `run(8)` issues exactly `r` steps. -/
theorem recovery_versus_normal_position (w : World) (c : Nat) :
    motor_count (run w (c + 1)).events =
      motor_count w.events + (c + 1) * w.stepper_data.revolution_steps / 8 ∧
    motor_count (rotate_by_one_compartment^[c + 1] w).events =
      motor_count w.events + (c + 1) * (w.stepper_data.revolution_steps / 8) ∧
    (c + 1) * (w.stepper_data.revolution_steps / 8)
      ≤ (c + 1) * w.stepper_data.revolution_steps / 8 ∧
    (c + 1) * w.stepper_data.revolution_steps / 8
      ≤ (c + 1) * (w.stepper_data.revolution_steps / 8) + c ∧
    (w.stepper_data.revolution_steps % 8 = 0 →
      (c + 1) * w.stepper_data.revolution_steps / 8
        = (c + 1) * (w.stepper_data.revolution_steps / 8)) ∧
    motor_count (run w 8).events = motor_count w.events + w.stepper_data.revolution_steps := by
  obtain ⟨g1, g2, g3⟩ := run_gap (c + 1) w.stepper_data.revolution_steps
  refine ⟨motor_count_run w (c + 1), (motor_count_rotate_iterate (c + 1) w).2, g1, ?_, g3, ?_⟩
  · have := g2 (by omega)
    omega
  · rw [motor_count_run]
    omega

/-- C26: persistent regions never overlap. `save_stepper_data` changes only
the store bytes 0x7FFA..0x7FFD and `save_stepper_state` only the bytes
0x7FFE..0x7FFF; the two ranges are disjoint from each other and from the log
region `[0, 2048)`, so saving one record alters neither the other record nor
any log slot, and `reset_stepper`, which persists `{INITIAL, 0}`, leaves the
stored calibration record unchanged. -/
theorem persistent_regions_disjoint (w : World) :
    (∀ x, x < 0x7FFA ∨ 0x7FFD < x → (save_stepper_data w).eeprom x = w.eeprom x) ∧
    (∀ x, x < 0x7FFE ∨ 0x7FFF < x → (save_stepper_state w).eeprom x = w.eeprom x) ∧
    (eeprom_address_stepperdata = 0x7FFA ∧ eeprom_address_stepperstate = 0x7FFE ∧
      2048 ≤ eeprom_address_stepperdata ∧
      eeprom_address_stepperdata + 4 ≤ eeprom_address_stepperstate) ∧
    ((load_stepper_state (save_stepper_data w)).stepper_state
        = (load_stepper_state w).stepper_state ∧
      (load_stepper_data (save_stepper_state w)).stepper_data
        = (load_stepper_data w).stepper_data) ∧
    (∀ j, j < 32 → slot (save_stepper_data w).eeprom j = slot w.eeprom j ∧
      slot (save_stepper_state w).eeprom j = slot w.eeprom j) ∧
    ((load_stepper_data (reset_stepper w)).stepper_data = (load_stepper_data w).stepper_data ∧
      (load_stepper_state (reset_stepper w)).stepper_state
        = { stepper_stage := INITIAL, current_compartment := 0 } ∧
      (reset_stepper w).events =
        w.events ++ [Event.eeprom_write eeprom_address_stepperstate [INITIAL, 0]]) := by
  have hd : eeprom_address_stepperdata = 0x7FFA := rfl
  have hs : eeprom_address_stepperstate = 0x7FFE := rfl
  have hge : 2048 ≤ eeprom_address_stepperdata := by decide
  have hsep : eeprom_address_stepperdata + 4 ≤ eeprom_address_stepperstate := by decide
  have fdata : ∀ (v : World) (x : Nat),
      x < eeprom_address_stepperdata ∨ eeprom_address_stepperdata + 3 < x →
      (save_stepper_data v).eeprom x = v.eeprom x := by
    intro v x hx
    rw [save_stepper_data_eeprom, if_neg (by omega)]
  have fstate : ∀ (v : World) (x : Nat),
      x < eeprom_address_stepperstate ∨ eeprom_address_stepperstate + 1 < x →
      (save_stepper_state v).eeprom x = v.eeprom x := by
    intro v x hx
    rw [save_stepper_state_eeprom, if_neg (by omega), if_neg (by omega)]
  have lstate : ∀ v : World, (load_stepper_state (save_stepper_data v)).stepper_state
      = (load_stepper_state v).stepper_state := by
    intro v
    rw [load_stepper_state_eq, load_stepper_state_eq, fdata v _ (by omega),
      fdata v _ (by omega)]
  have ldata : ∀ v : World, (load_stepper_data (save_stepper_state v)).stepper_data
      = (load_stepper_data v).stepper_data := by
    intro v
    rw [load_stepper_data_eq, load_stepper_data_eq, fstate v _ (by omega),
      fstate v _ (by omega), fstate v _ (by omega), fstate v _ (by omega)]
  refine ⟨?_, ?_, ⟨hd, hs, hge, hsep⟩, ⟨lstate w, ldata w⟩, ?_, ?_, ?_, ?_⟩
  · intro x hx
    exact fdata w x (by rw [hd]; omega)
  · intro x hx
    exact fstate w x (by rw [hs]; omega)
  · intro j hj
    constructor
    · unfold slot
      apply List.map_congr_left
      intro i hi
      rw [List.mem_range] at hi
      exact fdata w _ (by omega)
    · unfold slot
      apply List.map_congr_left
      intro i hi
      rw [List.mem_range] at hi
      exact fstate w _ (by omega)
  · unfold reset_stepper
    simp only
    rw [ldata]
    rfl
  · unfold reset_stepper
    simp only
    rw [load_save_stepper_state]
  · unfold reset_stepper
    simp only
    rw [save_stepper_state_events]

end PillDispenser
